import Mathlib

/-!
# BlastEm `render_sdl.c`: audio/video synchronisation core

A shallow embedding of the synchronisation core of `src/blastem/render_sdl.c`
(frame-repeat table, sample clock, drift controller, frame queue and buffer
pool) together with theorems about it.

Conventions of the embedding

* The module-level `static` variables of the C file are the fields of
  `RenderState`; every C function becomes a function on `RenderState`.
* `int`, `int32_t` values are `Int`; `uint32_t`, `uint8_t` values and pointers
  are `Nat`.  Arithmetic that can leave the 32-bit range for some value of its
  operands is reduced with `wrap32` (signed, two's complement) or `toU32`
  (unsigned); C's `/` on `int` is `Int.tdiv` (truncation towards zero).
* `float` and `double` values are `FP` values: an IEEE-754 datum whose finite
  non-zero values carry their exact rational value.  Every arithmetic
  operation computes the exact rational result and rounds it to the format
  (`binary32` for `float`, `binary64` for `double`), to nearest, ties to even.
* An access outside an array and a float-to-integer conversion outside the
  range of the target type have no defined result in C: functions that can
  perform one return `Option`, `none` standing for the undefined execution.
* Calls into SDL and the rest of the emulator are recorded as `Effect`s.
-/

namespace Blastem

/-! ## Machine integers -/

/-- Reduction of an integer to the range of `int32_t` (two's complement). -/
def wrap32 (x : Int) : Int := (x + 2147483648) % 4294967296 - 2147483648

/-- Conversion of an integer to `uint32_t`. -/
def toU32 (x : Int) : Nat := (x % 4294967296).toNat

/-- Conversion of a `uint32_t` value to `int32_t`. -/
def u32ToI32 (x : Nat) : Int := wrap32 (x : Int)

/-! ## IEEE-754 binary floating point -/

/-- A binary floating-point format: `prec` significand bits (hidden bit
included) and largest exponent `emax`; the smallest normal exponent is
`1 - emax`. -/
structure FloatFormat where
  prec : Nat
  emax : Nat
deriving DecidableEq

/-- The format of C `float` on the supported targets. -/
def binary32 : FloatFormat := ⟨24, 127⟩

/-- The format of C `double` on the supported targets. -/
def binary64 : FloatFormat := ⟨53, 1023⟩

/-- Smallest exponent of a normal number of the format. -/
def FloatFormat.emin (f : FloatFormat) : Int := 1 - (f.emax : Int)

/-- A floating-point datum.  `fin q` is a finite non-zero number with exact
value `q`; zeros and infinities carry their sign bit (`true` is negative). -/
inductive FP where
  | nan
  | inf (neg : Bool)
  | zero (neg : Bool)
  | fin (q : ℚ)
deriving DecidableEq

/-- The power of two `2 ^ k` for an integer exponent, as a rational. -/
def pow2 (k : Int) : ℚ :=
  if 0 ≤ k then ((2 ^ k.toNat : Nat) : ℚ) else 1 / ((2 ^ (-k).toNat : Nat) : ℚ)

/-- Decides `2 ^ k ≤ a` for a positive rational `a` on numerator and
denominator. -/
def pow2Le (k : Int) (a : ℚ) : Bool :=
  if 0 ≤ k then decide (2 ^ k.toNat * a.den ≤ a.num.toNat)
  else decide (a.den ≤ a.num.toNat * 2 ^ (-k).toNat)

/-- Rounding of a rational to the nearest integer, ties to the even one. -/
def roundHalfEven (x : ℚ) : Int :=
  let f := ⌊x⌋
  let d := x - (f : ℚ)
  if d < 1 / 2 then f
  else if 1 / 2 < d then f + 1
  else if f % 2 = 0 then f else f + 1

/-- Upward search, from exponent `e`, for the largest exponent whose power
of two is at most `a`; it gives up after `n` steps. -/
def floorLog2From (a : ℚ) : Nat → Int → Int
  | 0, e => e
  | n + 1, e => if pow2Le (e + 1) a then floorLog2From a n (e + 1) else e

/-- The exponent at which a positive rational `a` is rounded in format `f`:
`⌊log₂ a⌋` confined to `[emin, emax + 1]` (the lower end is the subnormal
range, the upper end is only reached by values that overflow). -/
def FloatFormat.exponent (f : FloatFormat) (a : ℚ) : Int :=
  floorLog2From a (2 * f.emax) f.emin

/-- Rounding of an exact rational result to format `f`, to nearest, ties to
even, with overflow to infinity and underflow to a signed zero.  An exact
zero is returned as `+0`; operations choose its sign themselves. -/
def FloatFormat.round (f : FloatFormat) (q : ℚ) : FP :=
  if q = 0 then FP.zero false
  else
    let e := f.exponent |q|
    let ulp : ℚ := pow2 (e - ((f.prec : Int) - 1))
    let m := roundHalfEven (|q| / ulp)
    let r : ℚ := (m : ℚ) * ulp
    if pow2 ((f.emax : Int) + 1) ≤ r then FP.inf (decide (q < 0))
    else if m = 0 then FP.zero (decide (q < 0))
    else FP.fin (if q < 0 then -r else r)

namespace FP

/-- Sign bit of a datum (`false` for NaN). -/
def signBit : FP → Bool
  | nan => false
  | inf n => n
  | zero n => n
  | fin q => decide (q < 0)

/-- Negation (unary minus) flips the sign bit. -/
def neg : FP → FP
  | nan => nan
  | inf n => inf (!n)
  | zero n => zero (!n)
  | fin q => fin (-q)

/-- Absolute value (`fabsf`) clears the sign bit. -/
def abs : FP → FP
  | nan => nan
  | inf _ => inf false
  | zero _ => zero false
  | fin q => fin |q|

/-- Addition in format `f`. -/
def add (f : FloatFormat) : FP → FP → FP
  | nan, _ => nan
  | _, nan => nan
  | inf a, inf b => if a = b then inf a else nan
  | inf a, _ => inf a
  | _, inf b => inf b
  | zero a, zero b => zero (a && b)
  | zero _, fin y => f.round y
  | fin x, zero _ => f.round x
  | fin x, fin y => f.round (x + y)

/-- Multiplication in format `f`. -/
def mul (f : FloatFormat) : FP → FP → FP
  | nan, _ => nan
  | _, nan => nan
  | inf _, zero _ => nan
  | zero _, inf _ => nan
  | inf a, y => inf (xor a y.signBit)
  | x, inf b => inf (xor x.signBit b)
  | zero a, y => zero (xor a y.signBit)
  | x, zero b => zero (xor x.signBit b)
  | fin x, fin y => f.round (x * y)

/-- Division in format `f`. -/
def div (f : FloatFormat) : FP → FP → FP
  | nan, _ => nan
  | _, nan => nan
  | inf _, inf _ => nan
  | zero _, zero _ => nan
  | inf a, y => inf (xor a y.signBit)
  | x, inf b => zero (xor x.signBit b)
  | zero a, y => zero (xor a y.signBit)
  | x, zero b => inf (xor x.signBit b)
  | fin x, fin y => f.round (x / y)

/-- Conversion between formats (`float` to `double` is exact, `double` to
`float` rounds). -/
def cast (f : FloatFormat) : FP → FP
  | fin q => f.round q
  | x => x

/-- Conversion of an integer to format `f`. -/
def ofInt (f : FloatFormat) (n : Int) : FP := f.round (n : ℚ)

/-- The comparison `x < y`; false when an operand is NaN. -/
def lt : FP → FP → Bool
  | nan, _ => false
  | _, nan => false
  | inf a, inf b => a && !b
  | inf a, _ => a
  | _, inf b => !b
  | zero _, zero _ => false
  | zero _, fin y => decide (0 < y)
  | fin x, zero _ => decide (x < 0)
  | fin x, fin y => decide (x < y)

/-- The comparison `x ≤ y`; false when an operand is NaN. -/
def le : FP → FP → Bool
  | nan, _ => false
  | _, nan => false
  | inf a, inf b => a || !b
  | inf a, _ => a
  | _, inf b => !b
  | zero _, zero _ => true
  | zero _, fin y => decide (0 < y)
  | fin x, zero _ => decide (x < 0)
  | fin x, fin y => decide (x ≤ y)

/-- The comparison `x != y`; true when an operand is NaN, false for the two
zeros. -/
def ne : FP → FP → Bool
  | nan, _ => true
  | _, nan => true
  | inf a, inf b => a != b
  | zero _, zero _ => false
  | fin x, fin y => decide (x ≠ y)
  | _, _ => true

/-- Conversion to `uint32_t`: the fractional part is discarded; the result
is undefined (`none`) when the truncated value does not fit. -/
def toUInt32 : FP → Option Nat
  | nan => none
  | inf _ => none
  | zero _ => some 0
  | fin q =>
    if q < 0 then (if -1 < q then some 0 else none)
    else if ⌊q⌋ < 4294967296 then some ⌊q⌋.toNat else none

end FP

/-- The `float` literal `0.9f`. -/
def lit_0_9f : FP := binary32.round (9 / 10)

/-- The `float` literal `0.1f`. -/
def lit_0_1f : FP := binary32.round (1 / 10)

/-- The `double` literal `2.5`. -/
def lit_2_5 : FP := binary64.round (5 / 2)

/-- The `double` literal `-1.0`. -/
def lit_neg_1_0 : FP := FP.neg (binary64.round 1)

/-! ## Module state -/

/-- The anonymous `enum` of synchronisation sources. -/
inductive SyncSrc where
  | SYNC_AUDIO
  | SYNC_AUDIO_THREAD
  | SYNC_VIDEO
  | SYNC_EXTERNAL
deriving DecidableEq, Repr

/-- The value of an enumerator of the synchronisation-source `enum`. -/
def SyncSrc.val : SyncSrc → Nat
  | SYNC_AUDIO => 0
  | SYNC_AUDIO_THREAD => 1
  | SYNC_VIDEO => 2
  | SYNC_EXTERNAL => 3

/-- The video standards `vid_std` (declared in `render.h`). -/
inductive VidStd where
  | VID_NTSC
  | VID_PAL
deriving DecidableEq, Repr

/-- Framebuffer identifier `FRAMEBUFFER_ODD` of `render.h`. -/
def FRAMEBUFFER_ODD : Nat := 0

/-- Framebuffer identifier `FRAMEBUFFER_EVEN` of `render.h`. -/
def FRAMEBUFFER_EVEN : Nat := 1

/-- Framebuffer identifier `FRAMEBUFFER_UI` of `render.h`. -/
def FRAMEBUFFER_UI : Nat := 2

/-- The sentinel `NO_LAST_BUFFERED`. -/
def NO_LAST_BUFFERED : Int := -2000000000

/-- The constant `BUFFER_FRAMES_THRESHOLD`. -/
def BUFFER_FRAMES_THRESHOLD : Int := 6

/-- The constant `BASE_MAX_ADJUST`, the `double` literal `0.0125`. -/
def BASE_MAX_ADJUST : FP := binary64.round (1 / 80)

/-- The element type `frame` of the frame queue.  `buffer` is the address of
the pixel buffer, `memory` the snapshot of the emulated work RAM. -/
structure Frame where
  buffer : Nat
  width : Int
  which : Nat
  memory : List Nat
deriving DecidableEq, Repr

/-- A call that leaves the module. -/
inductive Effect where
  | render_update_display
  | present_other (which : Nat)
  | SDL_PauseAudio (pause_on : Int)
  | render_audio_adjust_speed (adjust_ratio : FP)
  | SDL_CondSignal_frame_ready
deriving DecidableEq

/-- The module-level variables of `render_sdl.c` that the synchronisation
core reads or writes, with their initial (zero-initialised or explicitly
initialised) values.  `texture_buf` is the address of the main texture
buffer.  Two fields are not variables of the C file but a record of its
execution: `callocs` counts the pixel buffers that `render_get_framebuffer`
has obtained from `calloc`, the `k`-th of which is given the address
`texture_buf + k`, so that every allocation is fresh; `released` lists the
arguments of the calls of `release_buffer` so far, the latest last. -/
structure RenderState where
  sync_src : SyncSrc := SyncSrc.SYNC_AUDIO
  min_buffered : Nat := 0
  frame_buffers : List Nat := []
  num_buffers : Nat := 0
  buffer_storage : Nat := 0
  last_buffered : Int := NO_LAST_BUFFERED
  average_change : FP := FP.zero false
  max_adjust : FP := FP.zero false
  cur_min_buffered : Int := 0
  min_remaining_buffer : Nat := 0
  video_standard : VidStd := VidStd.VID_NTSC
  display_hz : Int := 0
  source_hz : Int := 0
  source_frame : Int := 0
  source_frame_count : Int := 0
  frame_repeat : List Int := List.replicate 60 0
  sample_rate : Nat := 0
  locked_pixels : Nat := 0
  frame_queue : List Frame := List.replicate 4 ⟨0, 0, 0, []⟩
  frame_queue_len : Int := 0
  frame_queue_read : Int := 0
  frame_queue_write : Int := 0
  texture_buf : Nat := 1
  callocs : Nat := 0
  released : List Nat := []
deriving DecidableEq

/-! ## SampleClock and FrameScheduler: `render_set_video_standard` -/

/-- The function `render_min_buffered`. -/
def render_min_buffered (s : RenderState) : Nat := s.min_buffered

/-- The function `render_is_audio_sync`: `sync_src < SYNC_VIDEO`. -/
def render_is_audio_sync (s : RenderState) : Bool :=
  decide (s.sync_src.val < SyncSrc.SYNC_VIDEO.val)

/-- The call `memset(a, 0, sizeof(int) * n)` on an `int` array: the first `n`
elements become 0; undefined when the array has fewer than `n` elements. -/
def memset_int (a : List Int) (n : Nat) : Option (List Int) :=
  if n ≤ a.length then some (List.replicate n 0 ++ a.drop n) else none

/-- The local variables of the accumulator walk of
`render_set_video_standard`, with the table it fills. -/
structure Walk where
  frame_repeat : List Int
  accum : Int
  dst_frames : Int
  max_repeat : Nat

/-- The inner loop `while (accum > 100000)` of the walk, for source frame
`src_frame`, run for at most `fuel` iterations. -/
def walk_while (src_frame : Nat) : Nat → Walk → Walk
  | 0, w => w
  | fuel + 1, w =>
    if w.accum > 100000 then
      let entry := w.frame_repeat.getD src_frame 0 + 1
      walk_while src_frame fuel
        { frame_repeat := w.frame_repeat.set src_frame entry
          accum := w.accum - 100000
          max_repeat := if toU32 entry > w.max_repeat then toU32 entry else w.max_repeat
          dst_frames := w.dst_frames + 1 }
    else w

/-- The body of the loop over source frames, for source frame `src_frame`.
The inner loop is given `accum / 100000` iterations, which is more than it
takes (`walk_while_exit`). -/
def walk_body (inc : Int) (src_frame : Nat) (w : Walk) : Walk :=
  let w1 : Walk :=
    { w with frame_repeat := w.frame_repeat.set src_frame (-1), accum := w.accum + inc }
  walk_while src_frame (w1.accum / 100000).toNat w1

/-- The loop `for (src_frame = ...; src_frame < source_hz; src_frame++)`
with `n` iterations left. -/
def walk_for (inc : Int) : Nat → Nat → Walk → Walk
  | 0, _, w => w
  | n + 1, src_frame, w => walk_for inc n (src_frame + 1) (walk_body inc src_frame w)

/-- The frame-repeat table and the tracked `max_repeat` that
`render_set_video_standard` computes for `source_hz` and `display_hz`,
starting from the table `old`: the `if (abs(source_hz - display_hz) < 2)`
statement of the function. -/
def build_frame_repeat (old : List Int) (source_hz display_hz : Int) :
    Option (List Int × Nat) :=
  if wrap32 (Int.natAbs (wrap32 (source_hz - display_hz))) < 2 then
    (memset_int old display_hz.toNat).map fun t => (t, 0)
  else
    let inc := Int.tdiv (wrap32 (display_hz * 100000)) source_hz
    let w := walk_for inc source_hz.toNat 0 ⟨old, 0, 0, 0⟩
    let last := (source_hz - 1).toNat
    let t :=
      if w.dst_frames ≠ display_hz then
        w.frame_repeat.set last
          (wrap32 (w.frame_repeat.getD last 0 + wrap32 (display_hz - w.dst_frames)))
      else w.frame_repeat
    some (t, w.max_repeat)

/-- The value stored in `min_buffered`:
`(float)max_repeat * (float)sample_rate / (float)source_hz` converted to
`uint32_t`. -/
def min_buffered_for (max_repeat sample_rate : Nat) (source_hz : Int) : Option Nat :=
  FP.toUInt32
    (FP.div binary32
      (FP.mul binary32 (FP.ofInt binary32 max_repeat) (FP.ofInt binary32 sample_rate))
      (FP.ofInt binary32 source_hz))

/-- The value stored in `max_adjust`: `BASE_MAX_ADJUST / source_hz`, computed
in `double` and converted to `float`. -/
def max_adjust_for (source_hz : Int) : FP :=
  FP.cast binary32 (FP.div binary64 BASE_MAX_ADJUST (FP.ofInt binary64 source_hz))

/-- The function `render_set_video_standard`.  The result is `none` when the
`memset` runs past the end of `frame_repeat` or the value computed for
`min_buffered` does not fit `uint32_t`. -/
def render_set_video_standard (s : RenderState) (std : VidStd) : Option RenderState :=
  let s := { s with video_standard := std }
  if render_is_audio_sync s then some s
  else
    let source_hz : Int := if std = VidStd.VID_PAL then 50 else 60
    (build_frame_repeat s.frame_repeat source_hz s.display_hz).bind fun built =>
      let max_repeat := (built.2 + 1) % 4294967296
      (min_buffered_for max_repeat s.sample_rate source_hz).map fun min_buffered =>
        { s with
          source_hz := source_hz
          frame_repeat := built.1
          source_frame := 0
          source_frame_count := built.1.getD 0 0
          min_buffered := min_buffered
          max_adjust := max_adjust_for source_hz }

/-! ## SyncModeSelector and BufferPool -/

/-- The part of `window_setup` that belongs to the core: the choice of the
synchronisation source from the `external_sync` flag and the configured
`system.sync_source` string (`none` when the option is absent, the default
being `audio`), and the first set-up of the buffer pool. -/
def window_setup (s : RenderState) (external_sync : Bool) (sync_src_str : Option String) :
    RenderState :=
  let str := sync_src_str.getD "audio"
  let sync_src :=
    if external_sync then SyncSrc.SYNC_EXTERNAL
    else if str = "audio" then SyncSrc.SYNC_AUDIO
    else if str = "audio_thread" then SyncSrc.SYNC_AUDIO_THREAD
    else SyncSrc.SYNC_VIDEO
  let s := { s with sync_src := sync_src }
  if s.num_buffers = 0 ∧
      (sync_src = SyncSrc.SYNC_AUDIO_THREAD ∨ sync_src = SyncSrc.SYNC_EXTERNAL) then
    { s with
      buffer_storage := 4
      frame_buffers := (List.replicate 4 0).set 0 s.texture_buf
      num_buffers := 1 }
  else s

/-- The function `render_get_framebuffer` in the `SYNC_AUDIO_THREAD` and
`SYNC_EXTERNAL` modes: a buffer is popped from the free pool, or obtained
from `calloc` when the pool is empty.  In the other modes the function hands
out texture memory of the presentation layer, which is outside the core;
the result is then `none`. -/
def render_get_framebuffer (s : RenderState) : Option (Nat × RenderState) :=
  if s.sync_src = SyncSrc.SYNC_AUDIO_THREAD ∨ s.sync_src = SyncSrc.SYNC_EXTERNAL then
    if s.num_buffers ≠ 0 then
      let n := s.num_buffers - 1
      let buffer := s.frame_buffers.getD n 0
      some (buffer, { s with num_buffers := n, locked_pixels := buffer })
    else
      let buffer := s.texture_buf + (s.callocs + 1)
      some (buffer, { s with callocs := s.callocs + 1, locked_pixels := buffer })
  else none

/-- The function `release_buffer`.  `realloc` keeps the old elements; the
new ones are unspecified and modelled as 0.  The counters are not reduced
modulo 2^32: every counted buffer occupies memory, which bounds them far
below that. -/
def release_buffer (s : RenderState) (buffer : Nat) : RenderState :=
  let s1 :=
    if s.num_buffers = s.buffer_storage then
      { s with
        buffer_storage := s.buffer_storage * 2
        frame_buffers :=
          s.frame_buffers ++ List.replicate (s.buffer_storage * 2 - s.frame_buffers.length) 0 }
    else s
  { s1 with
    frame_buffers := s1.frame_buffers.set s1.num_buffers buffer
    num_buffers := s1.num_buffers + 1
    released := s1.released ++ [buffer] }

/-! ## DriftController and the display side of the FrameScheduler -/

/-- The element `a[i]` of an `int` array; undefined outside the array. -/
def read_int (a : List Int) (i : Int) : Option Int :=
  if 0 ≤ i then a.get? i.toNat else none

/-- The statements `source_frame++; if (source_frame >= source_hz)
source_frame = 0; source_frame_count = frame_repeat[source_frame];` of
`process_framebuffer`. -/
def advance_source_frame (s : RenderState) : Option RenderState :=
  let source_frame := s.source_frame + 1
  let source_frame := if source_frame ≥ s.source_hz then 0 else source_frame
  (read_int s.frame_repeat source_frame).map fun c =>
    { s with source_frame := source_frame, source_frame_count := c }

/-- The value of `adjust_ratio` in the branch of the drift controller that
corrects in proportion to the drift:
`-1.0 * average_change / ((float)sample_rate / (float)source_hz)`, divided
by `2.5 * source_hz` and clamped to `max_adjust`.  The products and
quotients are `double` operations, each assignment to `adjust_ratio` rounds
to `float`. -/
def proportional_adjust (s : RenderState) (average_change : FP) : FP :=
  let per_frame :=
    FP.div binary32 (FP.ofInt binary32 s.sample_rate) (FP.ofInt binary32 s.source_hz)
  let adjust_ratio :=
    FP.cast binary32
      (FP.div binary64
        (FP.mul binary64 lit_neg_1_0 (FP.cast binary64 average_change))
        (FP.cast binary64 per_frame))
  let adjust_ratio :=
    FP.cast binary32
      (FP.div binary64 (FP.cast binary64 adjust_ratio)
        (FP.mul binary64 lit_2_5 (FP.ofInt binary64 s.source_hz)))
  if FP.lt s.max_adjust (FP.abs adjust_ratio) then
    (if FP.lt (FP.zero false) adjust_ratio then s.max_adjust else FP.neg s.max_adjust)
  else adjust_ratio

/-- The drift controller: the statements of the `if (!render_is_audio_sync())`
block of `process_framebuffer` from `SDL_LockAudio()` to the call of
`render_audio_adjust_speed`.  The result is the new state, the final value of
`adjust_ratio` and the calls made. -/
def drift_control (s : RenderState) : RenderState × FP × List Effect :=
  let average_change :=
    if s.last_buffered > NO_LAST_BUFFERED then
      FP.add binary32 (FP.mul binary32 s.average_change lit_0_9f)
        (FP.mul binary32 (FP.ofInt binary32 (wrap32 (s.cur_min_buffered - s.last_buffered)))
          lit_0_1f)
    else s.average_change
  let local_cur_min := s.cur_min_buffered
  let local_min_remaining := u32ToI32 s.min_remaining_buffer
  let s := { s with average_change := average_change, last_buffered := s.cur_min_buffered }
  let frames_to_problem :=
    if FP.lt average_change (FP.zero false) then
      FP.div binary32 (FP.ofInt binary32 local_cur_min) (FP.neg average_change)
    else FP.div binary32 (FP.ofInt binary32 local_min_remaining) average_change
  let hard : Bool :=
    FP.lt frames_to_problem (FP.ofInt binary32 BUFFER_FRAMES_THRESHOLD)
    || (FP.lt average_change (FP.zero false)
        && decide (toU32 local_cur_min < 3 * s.min_buffered % 4294967296 / 4))
    || (FP.lt (FP.zero false) average_change
        && decide (toU32 local_cur_min > 5 * s.min_buffered % 4294967296 / 4))
    || decide (s.cur_min_buffered < 0)
  let r : RenderState × FP × List Effect :=
    if hard then
      if s.cur_min_buffered < 0 then
        ({ s with last_buffered := NO_LAST_BUFFERED, cur_min_buffered := 0 }, s.max_adjust,
          [Effect.SDL_PauseAudio 1])
      else (s, proportional_adjust s average_change, [])
    else if toU32 local_cur_min < s.min_buffered / 2 then (s, s.max_adjust, [])
    else (s, FP.zero false, [])
  if FP.ne r.2.1 (FP.zero false) then
    ({ r.1 with average_change := FP.zero false }, r.2.1,
      r.2.2 ++ [Effect.render_audio_adjust_speed r.2.1])
  else r

/-- The loop `while (source_frame_count > 0) { render_update_display();
source_frame_count--; }` for at most `fuel` iterations, from the counter
value `c`; the result is the final counter and the calls made. -/
def repeat_loop : Nat → Int → Int × List Effect
  | 0, c => (c, [])
  | fuel + 1, c =>
    if c > 0 then
      let r := repeat_loop fuel (c - 1)
      (r.1, Effect.render_update_display :: r.2)
    else (c, [])

/-- The function `process_framebuffer`.  Uploading and drawing the frame is
the presentation layer's work; of it only the final call is recorded
(`render_update_display` for the two main framebuffers).  The result is
`none` when `frame_repeat` is read outside its bounds. -/
def process_framebuffer (s : RenderState) (_buffer : Nat) (which : Nat) (_width : Int)
    (_memory : Option (List Nat)) : Option (RenderState × List Effect) :=
  if s.sync_src = SyncSrc.SYNC_VIDEO ∧ which ≤ FRAMEBUFFER_EVEN ∧ s.source_frame_count < 0 then
    (advance_source_frame s).map fun s1 => (s1, [])
  else
    let shown :=
      if which ≤ FRAMEBUFFER_EVEN then [Effect.render_update_display]
      else [Effect.present_other which]
    if !render_is_audio_sync s then
      let d := drift_control s
      let l := repeat_loop d.1.source_frame_count.toNat d.1.source_frame_count
      (advance_source_frame { d.1 with source_frame_count := l.1 }).map fun s1 =>
        (s1, shown ++ d.2.2 ++ l.2)
    else some (s, shown)

/-! ## FrameQueue -/

/-- The element `frame_queue[i]`; the index is always reduced with `& 3`. -/
def queue_at (s : RenderState) (i : Int) : Frame :=
  s.frame_queue.getD i.toNat ⟨0, 0, 0, []⟩

/-- The body of the `if (frame_queue[cur].which == which)` statement of the
coalescing loop: the entry in slot `cur` is dropped, its buffer released and
the last entry moved into its slot. -/
def coalesce_entry (s : RenderState) (cur : Int) : RenderState :=
  let last := (s.frame_queue_write - 1) % 4
  let s1 := { s with frame_queue_len := s.frame_queue_len - 1 }
  let s2 := release_buffer s1 (queue_at s1 cur).buffer
  let s3 :=
    if last ≠ cur then
      { s2 with frame_queue := s2.frame_queue.set cur.toNat (queue_at s2 last) }
    else s2
  { s3 with frame_queue_write := last }

/-- The coalescing loop `for (int cur = frame_queue_read, i = 0;
i < frame_queue_len; i++)` of `render_framebuffer_updated`, at slot `cur`
with `n` iterations left; it ends with the `break` after the first entry
whose identifier is `which`. -/
def coalesce_scan (which : Nat) : Nat → Int → RenderState → RenderState
  | 0, _, s => s
  | n + 1, cur, s =>
    if (queue_at s cur).which = which then coalesce_entry s cur
    else coalesce_scan which n ((cur + 1) % 4) s

/-- The statements of `render_framebuffer_updated` that put the new frame
into slot `frame_queue_write`: `buffer`, `width` and `which` are assigned,
`memory` is copied when the caller has one, and the write index and the
length are advanced. -/
def enqueue_frame (s : RenderState) (which : Nat) (width : Int) (memory : Option (List Nat)) :
    RenderState :=
  let f : Frame :=
    { buffer := s.locked_pixels
      width := width
      which := which
      memory := memory.getD (queue_at s s.frame_queue_write).memory }
  { s with
    frame_queue := s.frame_queue.set s.frame_queue_write.toNat f
    frame_queue_write := (s.frame_queue_write + 1) % 4
    frame_queue_len := s.frame_queue_len + 1 }

/-- The function `render_framebuffer_updated`; `memory` is the work RAM of
the current system when it is a Genesis.  In the `SYNC_AUDIO_THREAD` and
`SYNC_EXTERNAL` modes the caller first waits in `while (frame_queue_len == 4)`
for the consumer; `none` then means that the call is still waiting there.
In the other modes the frame is processed at once and `none` is the
undefined result of `process_framebuffer`. -/
def render_framebuffer_updated (s : RenderState) (which : Nat) (width : Int)
    (memory : Option (List Nat)) : Option (RenderState × List Effect) :=
  if s.sync_src = SyncSrc.SYNC_AUDIO_THREAD ∨ s.sync_src = SyncSrc.SYNC_EXTERNAL then
    if s.frame_queue_len = 4 then none
    else
      some
        (enqueue_frame (coalesce_scan which s.frame_queue_len.toNat s.frame_queue_read s)
          which width memory,
          [Effect.SDL_CondSignal_frame_ready])
  else process_framebuffer s s.texture_buf which width memory

/-- The dequeue of `render_video_loop`: under `while (frame_queue_len)`, the
statements `frame f = frame_queue[frame_queue_read++]; frame_queue_read &= 0x3;
frame_queue_len--;`.  The result is `none` when the queue is empty and the
loop body is not entered. -/
def render_video_loop_dequeue (s : RenderState) : Option (Frame × RenderState) :=
  if s.frame_queue_len ≠ 0 then
    some (queue_at s s.frame_queue_read,
      { s with
        frame_queue_read := (s.frame_queue_read + 1) % 4
        frame_queue_len := s.frame_queue_len - 1 })
  else none

/-- One iteration of the loop `while (frame_queue_len)` of
`render_video_loop`: the dequeue, `process_framebuffer` on the frame and
`release_buffer` of its buffer. -/
def render_video_loop_iter (s : RenderState) : Option (Frame × RenderState × List Effect) :=
  match render_video_loop_dequeue s with
  | none => none
  | some (f, s1) =>
    match process_framebuffer s1 f.buffer f.which f.width (some f.memory) with
    | none => none
    | some (s2, es) => some (f, release_buffer s2 f.buffer, es)

/-! ## Quantities of the specification -/

/-- The sum of `1 + frame_repeat[i]` over the first `n` entries of a table:
the number of display refreshes that `n` source frames take. -/
def frame_repeat_sum (t : List Int) (n : Nat) : Int := ((t.take n).map fun e => 1 + e).sum

/-- The invariant of the loop over source frames of the accumulator walk,
after `k` iterations with increment `inc` on a table of length `L`. -/
def WalkInv (inc : Int) (L k : Nat) (w : Walk) : Prop :=
  w.frame_repeat.length = L ∧
  frame_repeat_sum w.frame_repeat k = w.dst_frames ∧
  (∀ i, i < k → -1 ≤ w.frame_repeat.getD i 0 ∧ w.frame_repeat.getD i 0 + 1 ≤ w.dst_frames) ∧
  0 ≤ w.dst_frames ∧
  w.accum ≤ 100000 ∧
  (0 ≤ inc → 0 ≤ w.accum ∧ 100000 * w.dst_frames + w.accum = k * inc) ∧
  (inc < 0 → w.dst_frames = 0 ∧ w.accum ≤ 0)

/-- The module state right after start-up with the given synchronisation
source, display refresh rate and audio sample rate; every other variable has
its initial value. -/
def video_state (sync_src : SyncSrc) (display_hz : Int) (sample_rate : Nat) : RenderState :=
  { sync_src := sync_src, display_hz := display_hz, sample_rate := sample_rate }

/-- The state left by `render_set_video_standard(VID_NTSC)` in video-driven
mode on a 144 Hz display at 48000 Hz. -/
def ntsc_144_result : RenderState :=
  (render_set_video_standard (video_state SyncSrc.SYNC_VIDEO 144 48000) VidStd.VID_NTSC).getD {}

/-- One frame handed over by the producer: the pixel buffer it has filled
(the value of `locked_pixels` at the call) and the arguments of
`render_framebuffer_updated`. -/
structure Submission where
  buffer : Nat
  which : Nat
  width : Int
  memory : Option (List Nat)

/-- The two operations on the frame queue. -/
inductive QueueOp where
  | submit (f : Submission)
  | consume

/-- The frames waiting in the queue, in the order in which the consumer will
take them: the `frame_queue_len` slots from `frame_queue_read` on. -/
def queue_contents (s : RenderState) : List Frame :=
  (List.range s.frame_queue_len.toNat).map fun i : Nat =>
    queue_at s ((s.frame_queue_read + i) % 4)

/-- A run of the frame queue: the module state, the frames that have been
put into the queue and the frames that have been taken out, both in order of
time. -/
structure QueueRun where
  state : RenderState
  submitted : List Frame
  consumed : List Frame

/-- The state in which the producer holds the buffer `buffer`, as after
`render_get_framebuffer` has handed it out. -/
def hold_buffer (s : RenderState) (buffer : Nat) : RenderState :=
  { s with locked_pixels := buffer }

/-- One operation of a run.  A submit is `render_framebuffer_updated` with
the submitted buffer in `locked_pixels`; while the queue is full the
producer waits and nothing changes.  A consume is the dequeue of
`render_video_loop`; on an empty queue nothing changes. -/
def queue_step (r : QueueRun) : QueueOp → QueueRun
  | QueueOp.submit f =>
    match render_framebuffer_updated (hold_buffer r.state f.buffer) f.which f.width f.memory with
    | none => r
    | some (s, _) =>
      { state := s
        submitted := r.submitted ++ [queue_at s ((s.frame_queue_write - 1) % 4)]
        consumed := r.consumed }
  | QueueOp.consume =>
    match render_video_loop_dequeue r.state with
    | none => r
    | some (f, s) => { state := s, submitted := r.submitted, consumed := r.consumed ++ [f] }

/-- A sequence of operations, from the left. -/
def queue_run (r : QueueRun) (ops : List QueueOp) : QueueRun := ops.foldl queue_step r

/-- The coalescing scan on the queue alone: `some cur` when the first entry
with identifier `which` among the `n` slots from `cur` on is in slot `cur`,
`none` when there is none. -/
def scan_slots (which : Nat) : Nat → Int → List Frame → Option Int
  | 0, _, _ => none
  | n + 1, cur, fq =>
    if (fq.getD cur.toNat ⟨0, 0, 0, []⟩).which = which then some cur
    else scan_slots which n ((cur + 1) % 4) fq

/-- A submit that finds the entry to coalesce at the head of a queue of
three: the one case in which the coalescing step changes the order of the
entries that stay. -/
def coalesces_head_of_three (s : RenderState) (which : Nat) : Bool :=
  decide (s.frame_queue_len = 3) && decide ((queue_at s s.frame_queue_read).which = which)

/-- No submit of the run coalesces at the head of a queue of three. -/
def order_kept : QueueRun → List QueueOp → Bool
  | _, [] => true
  | r, QueueOp.submit f :: ops =>
    !coalesces_head_of_three r.state f.which && order_kept (queue_step r (QueueOp.submit f)) ops
  | r, QueueOp.consume :: ops => order_kept (queue_step r QueueOp.consume) ops

/-- The queue is used: the mode is `SYNC_AUDIO_THREAD` or `SYNC_EXTERNAL`. -/
def threaded (s : RenderState) : Prop :=
  s.sync_src = SyncSrc.SYNC_AUDIO_THREAD ∨ s.sync_src = SyncSrc.SYNC_EXTERNAL

instance (s : RenderState) : Decidable (threaded s) := by
  unfold threaded; infer_instance

/-- The state after `window_setup` with the external-sync flag set, before
any frame: the mode is `SYNC_EXTERNAL`, the queue is empty and the pool holds
the texture buffer. -/
def queue_start : RenderState := window_setup {} true none

/-- A run that shows the reordering: frames for the odd field, the even
field and the UI are waiting when the next odd frame is submitted. -/
def reorder_ops : List QueueOp :=
  [QueueOp.submit ⟨10, FRAMEBUFFER_ODD, 320, none⟩,
   QueueOp.submit ⟨11, FRAMEBUFFER_EVEN, 320, none⟩,
   QueueOp.submit ⟨12, FRAMEBUFFER_UI, 320, none⟩,
   QueueOp.submit ⟨13, FRAMEBUFFER_ODD, 320, none⟩,
   QueueOp.consume, QueueOp.consume, QueueOp.consume]

/-- A run of the two fields alone. -/
def field_ops : List QueueOp :=
  [QueueOp.submit ⟨10, FRAMEBUFFER_ODD, 320, none⟩,
   QueueOp.submit ⟨11, FRAMEBUFFER_EVEN, 320, none⟩,
   QueueOp.submit ⟨12, FRAMEBUFFER_ODD, 320, none⟩,
   QueueOp.consume, QueueOp.consume]

/-- The queue variables alone: the four slots, `frame_queue_read`,
`frame_queue_len` and `frame_queue_write`. -/
structure Slots where
  slots : List Frame
  read : Int
  len : Int
  write : Int

/-- The queue variables of a state. -/
def queue_slots (s : RenderState) : Slots :=
  ⟨s.frame_queue, s.frame_queue_read, s.frame_queue_len, s.frame_queue_write⟩

/-- The entry in slot `i`. -/
def Slots.slot (q : Slots) (i : Int) : Frame := q.slots.getD i.toNat ⟨0, 0, 0, []⟩

/-- The frames waiting, in the order of consumption. -/
def Slots.contents (q : Slots) : List Frame :=
  (List.range q.len.toNat).map fun i : Nat => q.slot ((q.read + i) % 4)

/-- The effect of the coalescing loop on the queue variables. -/
def Slots.coalesce (q : Slots) (which : Nat) : Slots :=
  match scan_slots which q.len.toNat q.read q.slots with
  | none => q
  | some cur =>
    ⟨if (q.write - 1) % 4 ≠ cur then q.slots.set cur.toNat (q.slot ((q.write - 1) % 4))
      else q.slots,
     q.read, q.len - 1, (q.write - 1) % 4⟩

/-- The frame that a submit writes into the queue. -/
def Slots.new_frame (q : Slots) (buffer which : Nat) (width : Int) (memory : Option (List Nat)) :
    Frame :=
  ⟨buffer, width, which, memory.getD (q.slot q.write).memory⟩

/-- The effect of the enqueue statements on the queue variables. -/
def Slots.enqueue (q : Slots) (f : Frame) : Slots :=
  ⟨q.slots.set q.write.toNat f, q.read, q.len + 1, (q.write + 1) % 4⟩

/-- The whole effect of a submit on the queue variables. -/
def Slots.submit (q : Slots) (buffer which : Nat) (width : Int) (memory : Option (List Nat)) :
    Slots :=
  (q.coalesce which).enqueue ((q.coalesce which).new_frame buffer which width memory)

/-- Well-formedness of the circular buffer. -/
def Slots.Wf (q : Slots) : Prop :=
  q.slots.length = 4 ∧ 0 ≤ q.read ∧ q.read < 4 ∧ 0 ≤ q.len ∧ q.len ≤ 4 ∧
  q.write = (q.read + q.len) % 4

instance (q : Slots) : Decidable q.Wf := by
  unfold Slots.Wf; infer_instance

/-- The two operations on the buffer pool. -/
inductive PoolOp where
  | get
  | release (buffer : Nat)

/-- A run of the buffer pool: the module state and the buffers that are
checked out, that is handed out by `render_get_framebuffer` and not yet
passed to `release_buffer`. -/
structure PoolRun where
  state : RenderState
  out : List Nat
deriving DecidableEq

/-- One operation of a pool run.  A get is `render_get_framebuffer`; a
release is `release_buffer` on a buffer that is checked out.  The result is
`none` when the buffer of a release is not checked out (or when the mode has
no pool). -/
def pool_step (r : PoolRun) : PoolOp → Option PoolRun
  | PoolOp.get => (render_get_framebuffer r.state).map fun p => ⟨p.2, p.1 :: r.out⟩
  | PoolOp.release b =>
    if b ∈ r.out then some ⟨release_buffer r.state b, r.out.erase b⟩ else none

/-- A sequence of pool operations, from the left. -/
def pool_run (r : PoolRun) : List PoolOp → Option PoolRun
  | [] => some r
  | op :: ops => (pool_step r op).bind fun r1 => pool_run r1 ops

/-- A producer and a consumer at work: two buffers are requested, the first
is returned, a third request takes it from the pool again, and the two are
returned. -/
def pool_ops : List PoolOp :=
  [PoolOp.get, PoolOp.get, PoolOp.release 1, PoolOp.get, PoolOp.release 2, PoolOp.release 1]

/-- The end of the run `pool_ops` from the state after `window_setup`. -/
def pool_ops_result : PoolRun := (pool_run ⟨queue_start, []⟩ pool_ops).getD ⟨{}, []⟩

/-- The pool variables alone: `frame_buffers`, `num_buffers`,
`buffer_storage` and the record of the calls of `release_buffer`. -/
structure Pool where
  buffers : List Nat
  num : Nat
  storage : Nat
  released : List Nat

/-- The pool variables of a state. -/
def pool_view (s : RenderState) : Pool :=
  ⟨s.frame_buffers, s.num_buffers, s.buffer_storage, s.released⟩

/-- The free buffers, the one handed out next last. -/
def Pool.free (p : Pool) : List Nat := p.buffers.take p.num

/-- The effect of `release_buffer` on the pool variables. -/
def Pool.release (p : Pool) (buffer : Nat) : Pool :=
  if p.num = p.storage then
    ⟨(p.buffers ++ List.replicate (p.storage * 2 - p.buffers.length) 0).set p.num buffer,
      p.num + 1, p.storage * 2, p.released ++ [buffer]⟩
  else ⟨p.buffers.set p.num buffer, p.num + 1, p.storage, p.released ++ [buffer]⟩

/-- The pool array has `buffer_storage` elements, of which `num_buffers` are
in use. -/
def Pool.Wf (p : Pool) : Prop :=
  p.buffers.length = p.storage ∧ p.num ≤ p.storage ∧ 0 < p.storage

instance (p : Pool) : Decidable p.Wf := by
  unfold Pool.Wf; infer_instance

/-- The free buffers of a state. -/
def free_pool (s : RenderState) : List Nat := (pool_view s).free

/-- One frame of the producer in the threaded modes: a buffer is requested
with `render_get_framebuffer`, drawn into and submitted with
`render_framebuffer_updated`.  The result holds the buffer that was handed
out. -/
def submit_round (s : RenderState) (which : Nat) (width : Int) (memory : Option (List Nat)) :
    Option (Nat × RenderState) :=
  (render_get_framebuffer s).bind fun p =>
    (render_framebuffer_updated p.2 which width memory).map fun q => (p.1, q.1)

/-- Consecutive frames with the same framebuffer identifier, each with its
width and memory snapshot, and no consume in between.  The result holds the
buffers of the frames in the order of submission. -/
def submit_rounds (s : RenderState) (which : Nat) :
    List (Int × Option (List Nat)) → Option (List Nat × RenderState)
  | [] => some ([], s)
  | f :: fs =>
    (submit_round s which f.1 f.2).bind fun r =>
      (submit_rounds r.2 which fs).map fun t => (r.1 :: t.1, t.2)

/-- The buffers obtained from `calloc` between the state `s0` and a state in
which the count of allocations is `callocs`. -/
def fresh_buffers (s0 : RenderState) (callocs : Nat) : List Nat :=
  (List.range (callocs - s0.callocs)).map fun i : Nat => s0.texture_buf + (s0.callocs + 1 + i)

/-- The state of the pipeline after the frames with buffers `bs`, all with
identifier `which` and the last of width `width`, have been submitted from
the state `s0` with an empty queue. -/
def AfterRounds (s0 : RenderState) (which : Nat) (bs : List Nat) (width : Int)
    (s : RenderState) : Prop :=
  threaded s ∧ (queue_slots s).Wf ∧ s.frame_queue_len = 1 ∧
  (∃ f, queue_contents s = [f] ∧ f.which = which ∧ bs.getLast? = some f.buffer ∧
    f.buffer = s.locked_pixels ∧ f.width = width) ∧
  (pool_view s).Wf ∧ s.released = s0.released ++ bs.dropLast ∧
  (free_pool s).length + 1 + s0.callocs = (free_pool s0).length + s.callocs ∧
  s.texture_buf = s0.texture_buf ∧ s0.callocs ≤ s.callocs ∧
  ((∃ b, bs = [b] ∧ free_pool s = (free_pool s0).dropLast) ∨
    (∃ pre a q, bs = pre ++ [a, q] ∧
      free_pool s = (free_pool s0).dropLast.dropLast ++ [a])) ∧
  (∀ k, k + 2 < bs.length → bs.getD (k + 2) 0 = bs.getD k 0) ∧
  (∀ q, bs.getLast? = some q →
    (q :: free_pool s).Perm (free_pool s0 ++ fresh_buffers s0 s.callocs))

/-- Five frames of the odd field, of widths 320 and 256. -/
def five_frames : List (Int × Option (List Nat)) :=
  [(320, none), (320, none), (256, none), (320, some [1, 2]), (256, none)]

/-- A state of the drift controller in NTSC at 48000 Hz: the buffer has
drained from 100 to 50 samples since the previous frame, below three quarters
of the threshold of 800. -/
def drift_state : RenderState :=
  { sample_rate := 48000, source_hz := 60, max_adjust := max_adjust_for 60, min_buffered := 800,
    last_buffered := 100, cur_min_buffered := 50, min_remaining_buffer := 4000 }

/-- The ratio the drift controller computes in `drift_state`. -/
def drift_ratio : FP := (drift_control drift_state).2.1

/-- A datum that is positive: `+inf`, `+0` or a positive number. -/
def FP.isPos : FP → Bool
  | FP.nan => false
  | FP.inf n => !n
  | FP.zero n => !n
  | FP.fin q => decide (0 < q)

/-- A datum that is a zero or a number (not a NaN, not an infinity). -/
def FP.isFinite : FP → Bool
  | FP.zero _ => true
  | FP.fin _ => true
  | _ => false

/-- The rational value of a zero or a number (0 for the other data). -/
def FP.toRat : FP → ℚ
  | FP.fin q => q
  | _ => 0

/-- The statements of the drift controller between `SDL_LockAudio()` and
`SDL_UnlockAudio()`: the smoothing of `average_change` when `last_buffered`
holds a reading, and `last_buffered = cur_min_buffered`.  The copies
`local_cur_min` and `local_min_remaining` made there are the values of
`cur_min_buffered` and `min_remaining_buffer`, which the block leaves as
they are. -/
def drift_smooth (s : RenderState) : RenderState :=
  let average_change :=
    if s.last_buffered > NO_LAST_BUFFERED then
      FP.add binary32 (FP.mul binary32 s.average_change lit_0_9f)
        (FP.mul binary32 (FP.ofInt binary32 (wrap32 (s.cur_min_buffered - s.last_buffered)))
          lit_0_1f)
    else s.average_change
  { s with average_change := average_change, last_buffered := s.cur_min_buffered }

/-- The value of `frames_to_problem` after the smoothing. -/
def frames_to_problem (s : RenderState) : FP :=
  if FP.lt s.average_change (FP.zero false) then
    FP.div binary32 (FP.ofInt binary32 s.cur_min_buffered) (FP.neg s.average_change)
  else FP.div binary32 (FP.ofInt binary32 (u32ToI32 s.min_remaining_buffer)) s.average_change

/-- The condition of the `if` statement that follows, after the smoothing:
the four triggers, the comparisons with `min_buffered` in `uint32_t`. -/
def hard_trigger (s : RenderState) : Bool :=
  FP.lt (frames_to_problem s) (FP.ofInt binary32 BUFFER_FRAMES_THRESHOLD)
  || (FP.lt s.average_change (FP.zero false)
      && decide (toU32 s.cur_min_buffered < 3 * s.min_buffered % 4294967296 / 4))
  || (FP.lt (FP.zero false) s.average_change
      && decide (toU32 s.cur_min_buffered > 5 * s.min_buffered % 4294967296 / 4))
  || decide (s.cur_min_buffered < 0)

/-- The value of `adjust_ratio` before the test `adjust_ratio != 0.0f`, after
the smoothing. -/
def chosen_ratio (s : RenderState) : FP :=
  if hard_trigger s then
    if s.cur_min_buffered < 0 then s.max_adjust else proportional_adjust s s.average_change
  else if toU32 s.cur_min_buffered < s.min_buffered / 2 then s.max_adjust
  else FP.zero false

/-- The drift controller after the smoothing: the choice of `adjust_ratio`,
the recovery from an underflow (`SDL_PauseAudio(1)` and the reset of
`last_buffered` and `cur_min_buffered`) and, for a non-zero ratio, the reset
of `average_change` and the call of `render_audio_adjust_speed`. -/
def drift_adjust (s : RenderState) : RenderState × FP × List Effect :=
  let adjust_ratio := chosen_ratio s
  let recovered :=
    if s.cur_min_buffered < 0 then
      ({ s with last_buffered := NO_LAST_BUFFERED, cur_min_buffered := 0 },
        [Effect.SDL_PauseAudio 1])
    else (s, [])
  if FP.ne adjust_ratio (FP.zero false) then
    ({ recovered.1 with average_change := FP.zero false }, adjust_ratio,
      recovered.2 ++ [Effect.render_audio_adjust_speed adjust_ratio])
  else (recovered.1, adjust_ratio, recovered.2)

/-- The state `drift_state` after an underflow: the callback has reported
`cur_min_buffered = -1`. -/
def underflow_state : RenderState := { drift_state with cur_min_buffered := -1 }

/-- A state of the drift controller in NTSC at 44100 Hz (`min_buffered` is
735): the level has gone from 552 to 551 samples, which is below 75% of 735
(551.25) but not below `3 * 735 / 4 = 551`. -/
def boundary_state : RenderState :=
  { sample_rate := 44100, source_hz := 60, max_adjust := max_adjust_for 60, min_buffered := 735,
    last_buffered := 552, cur_min_buffered := 551, min_remaining_buffer := 4000 }

/-- The sync mode as the specification describes the choice: `External` when
the external-sync flag is set; otherwise `AudioCallback` for the string
`audio` and when the option is absent, `AudioThread` for `audio_thread`, and
`VideoDriven` for every other string. -/
def sync_mode_for : Bool → Option String → SyncSrc
  | true, _ => SyncSrc.SYNC_EXTERNAL
  | false, none => SyncSrc.SYNC_AUDIO
  | false, some str =>
    if str = "audio" then SyncSrc.SYNC_AUDIO
    else if str = "audio_thread" then SyncSrc.SYNC_AUDIO_THREAD
    else SyncSrc.SYNC_VIDEO

/-- Four frames with four different identifiers, which fill the queue. -/
def fill_ops : List QueueOp :=
  [QueueOp.submit ⟨10, FRAMEBUFFER_ODD, 320, none⟩,
   QueueOp.submit ⟨11, FRAMEBUFFER_EVEN, 320, none⟩,
   QueueOp.submit ⟨12, FRAMEBUFFER_UI, 320, none⟩,
   QueueOp.submit ⟨13, 3, 320, none⟩]

/-- The state with the queue full after `fill_ops`, the producer holding the
buffer 14 for the next frame. -/
def full_queue : RenderState :=
  hold_buffer (queue_run ⟨queue_start, [], []⟩ fill_ops).state 14

/-- A state in video-driven mode, NTSC on a 144 Hz display, in which the
current source frame is to be repeated twice. -/
def repeat_state : RenderState :=
  { ntsc_144_result with
    source_frame := 59
    source_frame_count := 2
    cur_min_buffered := 2000
    min_remaining_buffer := 4000 }

/-! ## SyncModeSelector: the audio side -/

/-- A call made by the audio-side operations of the core.
`SDL_CondWait_source_cond` is `SDL_CondWait(src->opaque, audio_mutex)`, the
wait for the per-source condition that is signalled when the front buffer
has been drained.  Queries without effect (`all_sources_ready`,
`SDL_GetAudioStatus`) are not recorded; their results are arguments of the
operations. -/
inductive AudioCall where
  | SDL_LockMutex_audio_mutex
  | SDL_UnlockMutex_audio_mutex
  | SDL_CondWait_audio_ready
  | SDL_CondSignal_audio_ready
  | SDL_CondWait_source_cond
  | SDL_CondSignal_frame_ready
  | SDL_PauseAudio (pause_on : Int)
  | SDL_CloseAudio
  | SDL_LockAudio
  | SDL_UnlockAudio
  | resume_context
  | system_request_exit
  | mix_and_convert
deriving DecidableEq

/-- Modelled from the spec: the fields of `audio_source` that
`render_do_audio_ready` uses.  The structure is declared in `render_audio.h`;
the buffers are addresses, the counters are taken to be `uint32_t`. -/
structure AudioSource where
  front : Nat
  back : Nat
  front_populated : Bool
  buffer_pos : Nat
  read_start : Nat
  read_end : Nat
  mask : Nat
  num_channels : Nat
deriving DecidableEq

/-- The three device callbacks. -/
inductive Callback where
  | audio_callback
  | audio_callback_run_on_audio
  | audio_callback_drc
deriving DecidableEq

/-- The `switch (sync_src)` of `init_audio` that chooses `desired.callback`. -/
def init_audio_callback : SyncSrc → Callback
  | SyncSrc.SYNC_AUDIO => Callback.audio_callback
  | SyncSrc.SYNC_AUDIO_THREAD => Callback.audio_callback_run_on_audio
  | _ => Callback.audio_callback_drc

/-- The `do ... while (!quitting && !all_ready)` loop of `audio_callback`.
`quitting` is the value of the flag when the iteration starts; it can change
only while the callback waits, because it is written under `audio_mutex`.
Each element of the list is one iteration: the result of
`all_sources_ready()` and the value of `quitting` after a wait in this
iteration.  The result is the calls made and the value of `quitting` when the
loop has ended, `none` while the callback is still in the loop. -/
def audio_callback_loop (quitting : Bool) : List (Bool × Bool) → List AudioCall × Option Bool
  | [] => ([], none)
  | (all_ready, woken_quitting) :: obs =>
    if !quitting && !all_ready then
      if !woken_quitting && !all_ready then
        let r := audio_callback_loop woken_quitting obs
        (AudioCall.SDL_CondWait_audio_ready :: r.1, r.2)
      else ([AudioCall.SDL_CondWait_audio_ready], some woken_quitting)
    else ([], some quitting)

/-- The function `audio_callback`. -/
def audio_callback (quitting : Bool) (obs : List (Bool × Bool)) : List AudioCall :=
  let r := audio_callback_loop quitting obs
  [AudioCall.SDL_LockMutex_audio_mutex] ++ r.1 ++
    match r.2 with
    | none => []
    | some q =>
      (if !q then [AudioCall.mix_and_convert] else []) ++ [AudioCall.SDL_UnlockMutex_audio_mutex]

/-- The function `audio_callback_drc`; `mixed` is the result of
`mix_and_convert` and the value it stores in `min_remaining_buffer`.  The
function does not read `quitting`. -/
def audio_callback_drc (s : RenderState) (mixed : Int × Nat) : List AudioCall × RenderState :=
  if s.cur_min_buffered < 0 then ([], s)
  else
    ([AudioCall.mix_and_convert],
      { s with cur_min_buffered := mixed.1, min_remaining_buffer := mixed.2 })

/-- The function `audio_callback_run_on_audio`; `current_system` tells
whether the pointer is not null.  The function does not read `quitting`. -/
def audio_callback_run_on_audio (current_system : Bool) : List AudioCall :=
  (if current_system then [AudioCall.resume_context] else []) ++ [AudioCall.mix_and_convert]

/-- One invocation of a device callback. -/
def invoke_callback (cb : Callback) (quitting : Bool) (obs : List (Bool × Bool))
    (current_system : Bool) (s : RenderState) (mixed : Int × Nat) : List AudioCall × RenderState :=
  match cb with
  | Callback.audio_callback => (audio_callback quitting obs, s)
  | Callback.audio_callback_run_on_audio => (audio_callback_run_on_audio current_system, s)
  | Callback.audio_callback_drc => audio_callback_drc s mixed

/-- The function `render_close_audio`: the new value of `quitting` and the
calls made. -/
def render_close_audio : Bool × List AudioCall :=
  (true,
    [AudioCall.SDL_LockMutex_audio_mutex, AudioCall.SDL_CondSignal_audio_ready,
      AudioCall.SDL_UnlockMutex_audio_mutex, AudioCall.SDL_CloseAudio])

/-- The function `render_audio_created`; `audio_paused` is the result of
`SDL_GetAudioStatus() == SDL_AUDIO_PAUSED`. -/
def render_audio_created (s : RenderState) (current_system audio_paused : Bool) :
    List AudioCall :=
  (if s.sync_src = SyncSrc.SYNC_AUDIO then
    (if audio_paused then [AudioCall.SDL_PauseAudio 0] else [])
   else []) ++
  (if current_system ∧ s.sync_src = SyncSrc.SYNC_AUDIO_THREAD then
    [AudioCall.system_request_exit]
   else [])

/-- The function `render_source_paused`. -/
def render_source_paused (s : RenderState) (remaining_sources : Nat) : List AudioCall :=
  (if s.sync_src = SyncSrc.SYNC_AUDIO then [AudioCall.SDL_CondSignal_audio_ready] else []) ++
  (if remaining_sources = 0 ∧ render_is_audio_sync s = true then
    [AudioCall.SDL_PauseAudio 1] ++
      (if s.sync_src = SyncSrc.SYNC_AUDIO_THREAD then [AudioCall.SDL_CondSignal_frame_ready]
       else [])
   else [])

/-- The function `render_source_resumed`. -/
def render_source_resumed (s : RenderState) (current_system audio_paused : Bool) :
    List AudioCall :=
  (if s.sync_src = SyncSrc.SYNC_AUDIO then
    (if audio_paused then [AudioCall.SDL_PauseAudio 0] else [])
   else []) ++
  (if current_system ∧ s.sync_src = SyncSrc.SYNC_AUDIO_THREAD then
    [AudioCall.system_request_exit]
   else [])

/-- The buffer swap of `render_do_audio_ready`. -/
def AudioSource.swap (src : AudioSource) : AudioSource :=
  { src with front := src.back, back := src.front, front_populated := true, buffer_pos := 0 }

/-- The loop `while (src->front_populated) SDL_CondWait(src->opaque,
audio_mutex);`.  The list holds the values of `front_populated` found after
each wait; when it has no more elements the call is still in its wait.  The
result is the calls made and whether the loop has ended. -/
def wait_drained (front_populated : Bool) : List Bool → List AudioCall × Bool
  | [] => if front_populated then ([AudioCall.SDL_CondWait_source_cond], false) else ([], true)
  | v :: obs =>
    if front_populated then
      let r := wait_drained v obs
      (AudioCall.SDL_CondWait_source_cond :: r.1, r.2)
    else ([], true)

/-- The function `render_do_audio_ready`; `all_ready` is the result of
`all_sources_ready()`, `drained` the values of `src->front_populated` found
after each wait, `audio_paused` the result of
`SDL_GetAudioStatus() == SDL_AUDIO_PAUSED`.  The result is the calls made and
the source afterwards, `none` while the call is still waiting. -/
def render_do_audio_ready (s : RenderState) (src : AudioSource) (all_ready : Bool)
    (drained : List Bool) (audio_paused : Bool) : List AudioCall × Option AudioSource :=
  if s.sync_src = SyncSrc.SYNC_AUDIO_THREAD then
    ((if all_ready then [AudioCall.system_request_exit] else []), some src.swap)
  else if s.sync_src = SyncSrc.SYNC_AUDIO then
    let w := wait_drained src.front_populated drained
    if w.2 then
      ([AudioCall.SDL_LockMutex_audio_mutex] ++ w.1 ++
        [AudioCall.SDL_CondSignal_audio_ready, AudioCall.SDL_UnlockMutex_audio_mutex],
        some src.swap)
    else ([AudioCall.SDL_LockMutex_audio_mutex] ++ w.1, none)
  else
    let src1 := { src with read_end := src.buffer_pos }
    let num_buffered :=
      Nat.land ((src1.read_end + 4294967296 - src1.read_start) % 4294967296) src1.mask /
        src1.num_channels
    ([AudioCall.SDL_LockAudio, AudioCall.SDL_UnlockAudio] ++
      (if num_buffered ≥ s.min_buffered ∧ audio_paused then [AudioCall.SDL_PauseAudio 0]
       else []),
      some src1)

/-- An operation of the audio side with the values it finds. -/
inductive AudioOp where
  | device_callback (quitting : Bool) (obs : List (Bool × Bool)) (mixed : Int × Nat)
  | render_do_audio_ready (src : AudioSource) (all_ready : Bool) (drained : List Bool)
      (audio_paused : Bool)
  | render_audio_created (audio_paused : Bool)
  | render_source_paused (remaining_sources : Nat)
  | render_source_resumed (audio_paused : Bool)
  | render_close_audio

/-- The calls that an operation makes in the state `s`; the device callback
is the one that `init_audio` installs for the mode of `s`. -/
def audio_op_calls (s : RenderState) (current_system : Bool) : AudioOp → List AudioCall
  | AudioOp.device_callback quitting obs mixed =>
    (invoke_callback (init_audio_callback s.sync_src) quitting obs current_system s mixed).1
  | AudioOp.render_do_audio_ready src all_ready drained audio_paused =>
    (render_do_audio_ready s src all_ready drained audio_paused).1
  | AudioOp.render_audio_created audio_paused =>
    render_audio_created s current_system audio_paused
  | AudioOp.render_source_paused remaining_sources => render_source_paused s remaining_sources
  | AudioOp.render_source_resumed audio_paused =>
    render_source_resumed s current_system audio_paused
  | AudioOp.render_close_audio => render_close_audio.2

/-- The calls of the AudioCallback-mode protocol: a wait or a signal on
`audio_ready`, a wait on the per-source drained condition. -/
def audio_callback_protocol : AudioCall → Bool
  | AudioCall.SDL_CondWait_audio_ready => true
  | AudioCall.SDL_CondSignal_audio_ready => true
  | AudioCall.SDL_CondWait_source_cond => true
  | _ => false

/-- The calls of the AudioThread-mode protocol: the emulation context is
resumed from the callback, the system is asked to exit its run loop,
`frame_ready` is signalled. -/
def audio_thread_protocol : AudioCall → Bool
  | AudioCall.resume_context => true
  | AudioCall.system_request_exit => true
  | AudioCall.SDL_CondSignal_frame_ready => true
  | _ => false

/-- An audio source with an empty front buffer. -/
def idle_source : AudioSource := ⟨1, 2, false, 0, 0, 0, 255, 2⟩

/-! ## Runs of the drift controller -/

/-- One displayed frame in a mode with drift control: the device callback
`audio_callback_drc` reports the reading `(cur_min_buffered,
min_remaining_buffer)`, then the drift controller runs.  The result is the
new state and the calls of the controller. -/
def drift_step (s : RenderState) (reading : Int × Nat) : RenderState × List Effect :=
  let d := drift_control (audio_callback_drc s reading).2
  (d.1, d.2.2)

/-- The drift controller invoked once for each reading of an occupancy
sequence. -/
def drift_run (s : RenderState) : List (Int × Nat) → RenderState × List Effect
  | [] => (s, [])
  | r :: rs =>
    let d := drift_step s r
    let t := drift_run d.1 rs
    (t.1, d.2 ++ t.2)

/-- The frame-to-frame change of the occupancy is at most `B` in absolute
value along the readings, the first change being taken from `last`. -/
def changes_bounded (B : Nat) : Int → List (Int × Nat) → Prop
  | _, [] => True
  | last, r :: rs => |r.1 - last| ≤ (B : Int) ∧ changes_bounded B r.1 rs

instance (B : Nat) (last : Int) (rs : List (Int × Nat)) : Decidable (changes_bounded B last rs) := by
  induction rs generalizing last with
  | nil => unfold changes_bounded; infer_instance
  | cons r rs ih => unfold changes_bounded; exact instDecidableAnd

/-- A state in NTSC at 48000 Hz with the buffer at its target of 800 samples
and no drift. -/
def steady_state : RenderState :=
  { sample_rate := 48000, source_hz := 60, max_adjust := max_adjust_for 60, min_buffered := 800,
    last_buffered := 800, cur_min_buffered := 800, min_remaining_buffer := 4000 }

/-- The state `steady_state` with the smallest positive `float` as the
average change. -/
def tiny_drift_state : RenderState :=
  { steady_state with average_change := FP.fin (1 / 2 ^ 149) }

/-- Readings that go up and down by one sample around the target. -/
def steady_readings : List (Int × Nat) := [(801, 4000), (800, 4000), (801, 4000), (800, 4000)]

/-- The accumulator walk of `render_set_video_standard` alone: the increment
`inc = display_hz * 100000 / source_hz` and the loop over the source frames
from `accum = 0`, `dst_frames = 0`, before the final correction of the last
entry. -/
def accumulator_walk (old : List Int) (source_hz display_hz : Int) : Walk :=
  walk_for (Int.tdiv (wrap32 (display_hz * 100000)) source_hz) source_hz.toNat 0 ⟨old, 0, 0, 0⟩

/-- The invariant of the scheduler variables: `source_frame` is an index
below `source_hz`, which is at most the 60 entries of `frame_repeat`, and
`source_frame_count` is the entry of the current source frame. -/
def SchedulerInv (s : RenderState) : Prop :=
  0 ≤ s.source_frame ∧ s.source_frame < s.source_hz ∧ s.source_hz ≤ 60 ∧
  s.frame_repeat.length = 60 ∧
  s.frame_repeat.get? s.source_frame.toNat = some s.source_frame_count

instance (s : RenderState) : Decidable (SchedulerInv s) := by
  unfold SchedulerInv; infer_instance

/-- The device callback `audio_callback_drc` invoked once for each reading
of a list, each invocation in the state left by the one before: the calls
made and the state afterwards. -/
def callback_run (s : RenderState) : List (Int × Nat) → List AudioCall × RenderState
  | [] => ([], s)
  | r :: rs =>
    let a := audio_callback_drc s r
    let t := callback_run a.2 rs
    (a.1 ++ t.1, t.2)

/-- One emulated frame handed to `process_framebuffer`, with the readings
that the device callback has reported since the frame before. -/
structure ShownFrame where
  buffer : Nat
  which : Nat
  width : Int
  memory : Option (List Nat)
  readings : List (Int × Nat)

/-- The function `process_framebuffer` called for each frame of a list in
turn, the device callback running in between; the result is the final state
and, for each frame, the calls made for it. -/
def process_frames (s : RenderState) : List ShownFrame → Option (RenderState × List (List Effect))
  | [] => some (s, [])
  | f :: fs =>
    (process_framebuffer (callback_run s f.readings).2 f.buffer f.which f.width f.memory).bind
      fun r => (process_frames r.1 fs).map fun t => (t.1, r.2 :: t.2)

/-- The number of calls of `render_update_display` among the calls made for
one frame. -/
def presentations (es : List Effect) : Nat := es.count Effect.render_update_display

/-- One cycle of NTSC frames, the two fields in turn, with a reading of the
device callback before every frame. -/
def ntsc_cycle : List ShownFrame :=
  (List.range 60).map fun i : Nat => ⟨1, i % 2, 320, none, [(800, 4000)]⟩

/-- The framebuffer identifiers of the waiting frames, in the order of
consumption. -/
def queue_ids (s : RenderState) : List Nat := (queue_contents s).map fun f => f.which

/-- The buffered frame count `((read_end - read_start) & mask) /
num_channels` of a source, the subtraction being one of `uint32_t`. -/
def buffered_frames (src : AudioSource) : Nat :=
  Nat.land ((src.read_end + 4294967296 - src.read_start) % 4294967296) src.mask /
    src.num_channels

/-- An audio source in the video-driven mode with 600 stereo frames written
since the read position. -/
def filling_source : AudioSource := ⟨1, 2, false, 1200, 0, 0, 8191, 2⟩

/-! # Theorems -/

/-! ## Lemmas on machine integers -/

theorem wrap32_of_range {x : Int} (h1 : -2147483648 ≤ x) (h2 : x < 2147483648) : wrap32 x = x := by
  unfold wrap32; omega

theorem toU32_of_range {x : Int} (h1 : 0 ≤ x) (h2 : x < 4294967296) : (toU32 x : Int) = x := by
  unfold toU32; omega

/-! ## Lemmas on the floating-point model -/

theorem pow2_eq_zpow (k : Int) : pow2 k = (2 : ℚ) ^ k := by
  unfold pow2
  split
  · next h =>
    obtain ⟨n, rfl⟩ := Int.eq_ofNat_of_zero_le h
    simp
  · next h =>
    obtain ⟨n, hn⟩ := Int.exists_eq_neg_ofNat (le_of_lt (not_le.mp h))
    subst hn
    simp

theorem pow2_pos (k : Int) : 0 < pow2 k := by
  rw [pow2_eq_zpow]; positivity

theorem pow2_add (a b : Int) : pow2 (a + b) = pow2 a * pow2 b := by
  simp only [pow2_eq_zpow]
  exact zpow_add₀ (by norm_num) a b

theorem pow2_le_pow2 {a b : Int} (h : a ≤ b) : pow2 a ≤ pow2 b := by
  simp only [pow2_eq_zpow]
  exact zpow_le_zpow_right₀ (by norm_num) h

theorem pow2_lt_pow2 {a b : Int} (h : a < b) : pow2 a < pow2 b := by
  simp only [pow2_eq_zpow]
  exact zpow_lt_zpow_right₀ (by norm_num) h

theorem pow2_ofNat (n : Nat) : pow2 (n : Int) = (2 : ℚ) ^ n := by
  rw [pow2_eq_zpow]; simp

theorem pow2Le_iff {a : ℚ} (ha : 0 < a) (k : Int) : pow2Le k a = true ↔ pow2 k ≤ a := by
  have hnum : 0 < a.num := Rat.num_pos.mpr ha
  have hden : (0 : ℚ) < a.den := by exact_mod_cast a.den_pos
  have hcast : ((a.num.toNat : Nat) : ℚ) = (a.num : ℚ) := by
    have : ((a.num.toNat : Nat) : Int) = a.num := Int.toNat_of_nonneg hnum.le
    exact_mod_cast congrArg (fun z : Int => (z : ℚ)) this
  have hq : (a.num : ℚ) / (a.den : ℚ) = a := Rat.num_div_den a
  unfold pow2Le pow2
  split
  · simp only [decide_eq_true_eq]
    have h1 : ((2 ^ k.toNat : Nat) : ℚ) ≤ (a.num : ℚ) / (a.den : ℚ) ↔
        2 ^ k.toNat * a.den ≤ a.num.toNat := by
      rw [le_div_iff₀ hden, ← hcast]
      norm_cast
    rw [hq] at h1
    exact h1.symm
  · simp only [decide_eq_true_eq]
    have h1 : 1 / ((2 ^ (-k).toNat : Nat) : ℚ) ≤ (a.num : ℚ) / (a.den : ℚ) ↔
        a.den ≤ a.num.toNat * 2 ^ (-k).toNat := by
      rw [div_le_div_iff₀ (by positivity) hden, ← hcast, one_mul]
      norm_cast
    rw [hq] at h1
    exact h1.symm

theorem roundHalfEven_cases (x : ℚ) :
    roundHalfEven x = ⌊x⌋ ∧ x - ⌊x⌋ ≤ 1 / 2 ∨ roundHalfEven x = ⌊x⌋ + 1 ∧ 1 / 2 ≤ x - ⌊x⌋ := by
  unfold roundHalfEven
  simp only
  split
  · next h => exact Or.inl ⟨rfl, h.le⟩
  · next h =>
    split
    · next h2 => exact Or.inr ⟨rfl, h2.le⟩
    · next h2 =>
      have heq : x - ⌊x⌋ = 1 / 2 := le_antisymm (not_lt.mp h2) (not_lt.mp h)
      split
      · exact Or.inl ⟨rfl, heq.le⟩
      · exact Or.inr ⟨rfl, heq.ge⟩

theorem roundHalfEven_intCast (n : Int) : roundHalfEven (n : ℚ) = n := by
  rcases roundHalfEven_cases (n : ℚ) with ⟨h, _⟩ | ⟨_, h2⟩
  · simpa using h
  · simp at h2
    norm_num at h2

theorem le_roundHalfEven {n : Int} {x : ℚ} (h : (n : ℚ) ≤ x) : n ≤ roundHalfEven x := by
  have hf : n ≤ ⌊x⌋ := Int.le_floor.mpr h
  rcases roundHalfEven_cases x with ⟨h1, _⟩ | ⟨h1, _⟩ <;> omega

theorem roundHalfEven_le {n : Int} {x : ℚ} (h : x ≤ (n : ℚ)) : roundHalfEven x ≤ n := by
  rcases roundHalfEven_cases x with ⟨h1, _⟩ | ⟨h1, h2⟩
  · have : ⌊x⌋ ≤ n := Int.floor_le_iff.mpr (by linarith [Int.floor_le x] : x < n + 1) |> fun h => h
    omega
  · have hlt : (⌊x⌋ : ℚ) < n := by linarith
    have : ⌊x⌋ < n := by exact_mod_cast hlt
    omega

theorem roundHalfEven_le_add_half (x : ℚ) : (roundHalfEven x : ℚ) ≤ x + 1 / 2 := by
  rcases roundHalfEven_cases x with ⟨h1, _⟩ | ⟨h1, h2⟩
  · rw [h1]; linarith [Int.floor_le x]
  · rw [h1]; push_cast; linarith [Int.lt_floor_add_one x]

theorem sub_half_le_roundHalfEven (x : ℚ) : x - 1 / 2 ≤ (roundHalfEven x : ℚ) := by
  rcases roundHalfEven_cases x with ⟨h1, h2⟩ | ⟨h1, _⟩
  · rw [h1]; linarith
  · rw [h1]; push_cast; linarith [Int.lt_floor_add_one x]

theorem floorLog2From_spec {a : ℚ} (ha : 0 < a) (n : Nat) (e : Int) :
    e ≤ floorLog2From a n e ∧ floorLog2From a n e ≤ e + n ∧
    (pow2 e ≤ a → pow2 (floorLog2From a n e) ≤ a) ∧
    (a < pow2 (floorLog2From a n e + 1) ∨ floorLog2From a n e = e + n) := by
  induction n generalizing e with
  | zero => simp [floorLog2From]
  | succ n ih =>
    unfold floorLog2From
    by_cases h : pow2Le (e + 1) a = true
    · rw [if_pos h]
      obtain ⟨h1, h2, h3, h4⟩ := ih (e + 1)
      have hle := (pow2Le_iff ha (e + 1)).mp h
      refine ⟨by omega, by push_cast; omega, fun _ => h3 hle, ?_⟩
      rcases h4 with h4 | h4
      · exact Or.inl h4
      · exact Or.inr (by push_cast; omega)
    · rw [if_neg h]
      have hlt : a < pow2 (e + 1) := by
        by_contra hc
        exact h ((pow2Le_iff ha (e + 1)).mpr (not_lt.mp hc))
      exact ⟨le_refl e, by push_cast; omega, fun h => h, Or.inl hlt⟩

theorem exponent_ge (f : FloatFormat) {a : ℚ} (ha : 0 < a) : f.emin ≤ f.exponent a :=
  (floorLog2From_spec ha _ _).1

theorem exponent_lt_of_small (f : FloatFormat) {a : ℚ} (ha : 0 < a)
    (h : a < pow2 (f.emax + 1)) : a < pow2 (f.exponent a + 1) := by
  obtain ⟨h1, h2, h3, h4⟩ := floorLog2From_spec ha (2 * f.emax) f.emin
  rcases h4 with h4 | h4
  · exact h4
  · unfold FloatFormat.exponent
    rw [h4]
    have : f.emin + ((2 * f.emax : Nat) : Int) + 1 = (f.emax : Int) + 1 + 1 := by
      unfold FloatFormat.emin; push_cast; ring
    rw [this]
    exact lt_trans h (pow2_lt_pow2 (by omega))

theorem exponent_le_of_normal (f : FloatFormat) {a : ℚ} (ha : 0 < a)
    (h : pow2 f.emin ≤ a) : pow2 (f.exponent a) ≤ a :=
  (floorLog2From_spec ha _ _).2.2.1 h

theorem exponent_eq (f : FloatFormat) {a : ℚ} (ha : 0 < a) {k : Int}
    (hk1 : f.emin ≤ k) (hk2 : k ≤ f.emax) (h1 : pow2 k ≤ a) (h2 : a < pow2 (k + 1)) :
    f.exponent a = k := by
  have hn : pow2 f.emin ≤ a := le_trans (pow2_le_pow2 hk1) h1
  have hs : a < pow2 (f.emax + 1) := lt_of_lt_of_le h2 (pow2_le_pow2 (by omega))
  have e1 := exponent_le_of_normal f ha hn
  have e2 := exponent_lt_of_small f ha hs
  by_contra hne
  rcases lt_or_gt_of_ne hne with hlt | hgt
  · have : pow2 (f.exponent a + 1) ≤ pow2 k := pow2_le_pow2 (by omega)
    linarith
  · have : pow2 (k + 1) ≤ pow2 (f.exponent a) := pow2_le_pow2 (by omega)
    linarith

theorem pow2_natCast_int (n : Nat) : pow2 (n : Int) = (((2 : Int) ^ n : Int) : ℚ) := by
  rw [pow2_ofNat]; push_cast; rfl

theorem pow2_sub (a b : Int) : pow2 (a - b) = pow2 a / pow2 b := by
  rw [eq_div_iff (pow2_pos b).ne', ← pow2_add]
  congr 1; ring

/-- Rounding of a positive rational in the normal range, located between two
consecutive powers of two. -/
theorem round_pos (f : FloatFormat) (hp : 1 ≤ f.prec) {q : ℚ} (hq : 0 < q) {k : Int}
    (hk1 : f.emin ≤ k) (hk2 : k ≤ f.emax) (h1 : pow2 k ≤ q) (h2 : q < pow2 (k + 1)) :
    ∃ m : Int, m = roundHalfEven (q / pow2 (k - ((f.prec : Int) - 1))) ∧
      (2 : Int) ^ (f.prec - 1) ≤ m ∧ m ≤ (2 : Int) ^ f.prec ∧
      pow2 k ≤ (m : ℚ) * pow2 (k - ((f.prec : Int) - 1)) ∧
      (m : ℚ) * pow2 (k - ((f.prec : Int) - 1)) ≤ pow2 (k + 1) ∧
      f.round q =
        if pow2 ((f.emax : Int) + 1) ≤ (m : ℚ) * pow2 (k - ((f.prec : Int) - 1))
        then FP.inf false else FP.fin ((m : ℚ) * pow2 (k - ((f.prec : Int) - 1))) := by
  have he := exponent_eq f hq hk1 hk2 h1 h2
  set u := pow2 (k - ((f.prec : Int) - 1)) with hu
  have hupos : 0 < u := pow2_pos _
  have hcast : ((f.prec - 1 : Nat) : Int) = (f.prec : Int) - 1 := by omega
  have hlo : pow2 k = (((2 : Int) ^ (f.prec - 1) : Int) : ℚ) * u := by
    rw [← pow2_natCast_int, hu, ← pow2_add, hcast]; congr 1; ring
  have hhi : pow2 (k + 1) = (((2 : Int) ^ f.prec : Int) : ℚ) * u := by
    rw [← pow2_natCast_int, hu, ← pow2_add]; congr 1; ring
  have hm1 : (2 : Int) ^ (f.prec - 1) ≤ roundHalfEven (q / u) := by
    apply le_roundHalfEven
    rw [le_div_iff₀ hupos, ← hlo]; exact h1
  have hm2 : roundHalfEven (q / u) ≤ (2 : Int) ^ f.prec := by
    apply roundHalfEven_le
    rw [div_le_iff₀ hupos, ← hhi]; exact h2.le
  have hmpos : 0 < roundHalfEven (q / u) := lt_of_lt_of_le (by positivity) hm1
  refine ⟨roundHalfEven (q / u), rfl, hm1, hm2, ?_, ?_, ?_⟩
  · rw [hlo]
    exact mul_le_mul_of_nonneg_right (by exact_mod_cast hm1) hupos.le
  · rw [hhi]
    exact mul_le_mul_of_nonneg_right (by exact_mod_cast hm2) hupos.le
  · unfold FloatFormat.round
    simp only [abs_of_pos hq, he, hq.ne', if_false, not_lt.mpr hq.le, decide_False,
      hmpos.ne', ← hu]

/-- A positive rational strictly below the largest power of two of the
format, and not below the smallest normal number, rounds to a finite
number within the same binade. -/
theorem round_pos_fin (f : FloatFormat) (hp : 1 ≤ f.prec) {q : ℚ} (hq : 0 < q) {k : Int}
    (hk1 : f.emin ≤ k) (hk2 : k < f.emax) (h1 : pow2 k ≤ q) (h2 : q < pow2 (k + 1)) :
    ∃ r : ℚ, f.round q = FP.fin r ∧ pow2 k ≤ r ∧ r ≤ pow2 (k + 1) := by
  obtain ⟨m, _, _, _, h5, h6, h7⟩ := round_pos f hp hq hk1 hk2.le h1 h2
  refine ⟨_, ?_, h5, h6⟩
  rw [h7, if_neg]
  have : pow2 (k + 1) < pow2 ((f.emax : Int) + 1) := pow2_lt_pow2 (by omega)
  exact not_le.mpr (lt_of_le_of_lt h6 this)

theorem round_ne_nan (f : FloatFormat) (q : ℚ) : f.round q ≠ FP.nan := by
  unfold FloatFormat.round
  simp only
  split_ifs <;> simp

/-- A rational between two powers of two of the normal range rounds to a
finite number between the same powers. -/
theorem round_range (f : FloatFormat) (hp : 1 ≤ f.prec) {q : ℚ} {lo hi : Int}
    (hlo : f.emin ≤ lo) (hhi : hi ≤ f.emax) (h1 : pow2 lo ≤ q) (h2 : q < pow2 hi) :
    ∃ r : ℚ, f.round q = FP.fin r ∧ pow2 lo ≤ r ∧ r ≤ pow2 hi := by
  have hq : 0 < q := lt_of_lt_of_le (pow2_pos lo) h1
  have hn : pow2 f.emin ≤ q := le_trans (pow2_le_pow2 hlo) h1
  have hs : q < pow2 (f.emax + 1) := lt_of_lt_of_le h2 (pow2_le_pow2 (by omega))
  have e0 := exponent_ge f hq
  have e1 := exponent_le_of_normal f hq hn
  have e2 := exponent_lt_of_small f hq hs
  have k1 : f.exponent q < hi := by
    by_contra hc
    have := pow2_le_pow2 (not_lt.mp hc)
    linarith
  have k2 : lo ≤ f.exponent q := by
    by_contra hc
    have : pow2 (f.exponent q + 1) ≤ pow2 lo := pow2_le_pow2 (by omega)
    linarith
  obtain ⟨r, hr, r1, r2⟩ := round_pos_fin f hp hq e0 (by omega) e1 e2
  exact ⟨r, hr, le_trans (pow2_le_pow2 k2) r1, le_trans r2 (pow2_le_pow2 (by omega))⟩

/-- Positive integers below `2 ^ prec` are represented exactly. -/
theorem round_int_exact (f : FloatFormat) (hp : 1 ≤ f.prec) (hpe : f.prec ≤ f.emax)
    {n : Int} (h0 : 0 < n) (hn : n < 2 ^ f.prec) : f.round (n : ℚ) = FP.fin (n : ℚ) := by
  have hq : (0 : ℚ) < n := by exact_mod_cast h0
  have hn1 : pow2 0 ≤ (n : ℚ) := by
    rw [pow2_eq_zpow]; simp; exact_mod_cast h0
  have hmin : f.emin ≤ 0 := by unfold FloatFormat.emin; omega
  have hnorm : pow2 f.emin ≤ (n : ℚ) := le_trans (pow2_le_pow2 hmin) hn1
  have hn2 : (n : ℚ) < pow2 (f.prec : Int) := by
    rw [pow2_natCast_int]; exact_mod_cast hn
  have hs : (n : ℚ) < pow2 (f.emax + 1) := lt_of_lt_of_le hn2 (pow2_le_pow2 (by omega))
  have e0 := exponent_ge f hq
  have e1 := exponent_le_of_normal f hq hnorm
  have e2 := exponent_lt_of_small f hq hs
  set k := f.exponent (n : ℚ) with hk
  have k1 : k < f.prec := by
    by_contra hc
    have := pow2_le_pow2 (not_lt.mp hc)
    linarith
  have k2 : 0 ≤ k := by
    by_contra hc
    have : pow2 (k + 1) ≤ pow2 0 := pow2_le_pow2 (by omega)
    linarith
  obtain ⟨m, hm, _, _, _, _, hr⟩ := round_pos f hp hq e0 (by omega) e1 e2
  obtain ⟨j, hj⟩ : ∃ j : Nat, (j : Int) = (f.prec : Int) - 1 - k := ⟨((f.prec : Int) - 1 - k).toNat, by omega⟩
  have hu : pow2 (k - ((f.prec : Int) - 1)) = 1 / pow2 (j : Int) := by
    rw [hj, one_div, ← mul_eq_one_iff_eq_inv₀ (pow2_pos _).ne', ← pow2_add]
    have : k - ((f.prec : Int) - 1) + ((f.prec : Int) - 1 - k) = 0 := by ring
    rw [this, pow2_eq_zpow]; simp
  have hdiv : (n : ℚ) / pow2 (k - ((f.prec : Int) - 1)) = ((n * 2 ^ j : Int) : ℚ) := by
    rw [hu, pow2_natCast_int]; push_cast; field_simp
  rw [hdiv, roundHalfEven_intCast] at hm
  have hmu : (m : ℚ) * pow2 (k - ((f.prec : Int) - 1)) = (n : ℚ) := by
    rw [hm, hu, pow2_natCast_int]; push_cast; field_simp
  rw [hr, hmu, if_neg (not_le.mpr hs)]

theorem binary32_round_int {n : Int} (h0 : 0 < n) (hn : n < 16777216) :
    binary32.round (n : ℚ) = FP.fin (n : ℚ) :=
  round_int_exact binary32 (by decide) (by decide) h0 (by simpa [binary32] using hn)

theorem binary64_round_int {n : Int} (h0 : 0 < n) (hn : n < 9007199254740992) :
    binary64.round (n : ℚ) = FP.fin (n : ℚ) :=
  round_int_exact binary64 (by decide) (by decide) h0 (by simpa [binary64] using hn)

/-- The `float` quotient of an integer below `2 ^ 24` by a divisor between 32
and 63 has the same integer part as the exact quotient. -/
theorem binary32_div_floor {P d : Nat} (hP0 : 0 < P) (hP : P < 16777216)
    (hd1 : 32 ≤ d) (hd2 : d < 64) :
    ∃ r : ℚ, binary32.round ((P : ℚ) / (d : ℚ)) = FP.fin r ∧ 0 ≤ r ∧ ⌊r⌋ = ((P / d : Nat) : Int) := by
  have hdpos : (0 : ℚ) < d := by exact_mod_cast (by omega : 0 < d)
  have hPq : (0 : ℚ) < P := by exact_mod_cast hP0
  set q : ℚ := (P : ℚ) / (d : ℚ) with hqdef
  have hq : 0 < q := div_pos hPq hdpos
  have hlo : pow2 (-6) ≤ q := by
    rw [hqdef, le_div_iff₀ hdpos, pow2_eq_zpow]
    have h1 : (d : ℚ) ≤ 64 := by exact_mod_cast hd2.le
    have h2 : (1 : ℚ) ≤ P := by exact_mod_cast hP0
    norm_num
    linarith
  have hhi : q < pow2 19 := by
    rw [hqdef, div_lt_iff₀ hdpos, pow2_eq_zpow]
    have h1 : (32 : ℚ) ≤ d := by exact_mod_cast hd1
    have h2 : (P : ℚ) < 16777216 := by exact_mod_cast hP
    norm_num
    linarith
  have hmin : binary32.emin ≤ -6 := by decide
  have hnorm : pow2 binary32.emin ≤ q := le_trans (pow2_le_pow2 hmin) hlo
  have hs : q < pow2 (binary32.emax + 1) := lt_of_lt_of_le hhi (pow2_le_pow2 (by decide))
  have e0 := exponent_ge binary32 hq
  have e1 := exponent_le_of_normal binary32 hq hnorm
  have e2 := exponent_lt_of_small binary32 hq hs
  set k := binary32.exponent q with hk
  have k1 : k < 19 := by
    by_contra hc
    have := pow2_le_pow2 (not_lt.mp hc)
    linarith
  have hkmax : k ≤ binary32.emax := by
    have : (binary32.emax : Int) = 127 := by decide
    omega
  obtain ⟨m, hm, _, _, _, _, hr⟩ := round_pos binary32 (by decide) hq e0 hkmax e1 e2
  have hprec : ((binary32.prec : Int) - 1) = 23 := by decide
  rw [hprec] at hm hr
  obtain ⟨j, hj⟩ : ∃ j : Nat, (j : Int) = 23 - k := ⟨(23 - k).toNat, by omega⟩
  have hj5 : 5 ≤ j := by omega
  have hu : pow2 (k - 23) = 1 / ((2 : ℚ) ^ j) := by
    rw [one_div, ← pow2_ofNat, hj, ← mul_eq_one_iff_eq_inv₀ (pow2_pos _).ne', ← pow2_add]
    have : k - 23 + (23 - k) = 0 := by ring
    rw [this, pow2_eq_zpow]; simp
  have hpow : (32 : ℚ) ≤ (2 : ℚ) ^ j := by
    have : (2 : ℚ) ^ 5 ≤ (2 : ℚ) ^ j := pow_le_pow_right₀ (by norm_num) hj5
    norm_num at this
    exact this
  have hpowpos : (0 : ℚ) < (2 : ℚ) ^ j := by positivity
  set n : Nat := P / d with hn
  -- the exact quotient lies in `[n, n + 1 - 1/d]`
  have hnq : (n : ℚ) ≤ q := by
    rw [hqdef, le_div_iff₀ hdpos]
    exact_mod_cast Nat.div_mul_le_self P d
  have hqn : q * d ≤ (n : ℚ) * d + d - 1 := by
    rw [hqdef, div_mul_cancel₀ _ hdpos.ne']
    have : P + 1 ≤ n * d + d := by
      have := Nat.lt_div_mul_add (a := P) (by omega : 0 < d)
      rw [← hn] at this
      omega
    have h' : ((P + 1 : Nat) : ℚ) ≤ ((n * d + d : Nat) : ℚ) := by exact_mod_cast this
    push_cast at h'
    linarith
  have hdiv : q / pow2 (k - 23) = q * (2 : ℚ) ^ j := by rw [hu]; field_simp
  rw [hdiv] at hm
  have hmlo : ((n * 2 ^ j : Nat) : Int) ≤ m := by
    rw [hm]
    apply le_roundHalfEven
    push_cast
    exact mul_le_mul_of_nonneg_right hnq hpowpos.le
  have hmhi : (m : ℚ) < ((n : ℚ) + 1) * (2 : ℚ) ^ j := by
    have h1 : (m : ℚ) ≤ q * (2 : ℚ) ^ j + 1 / 2 := by
      rw [hm]; exact roundHalfEven_le_add_half _
    have h2 : q ≤ (n : ℚ) + 1 - 1 / d := by
      have h5 : (q + 1 / (d : ℚ)) * d = q * d + 1 := by field_simp
      have h6 : (q + 1 / (d : ℚ)) * d ≤ ((n : ℚ) + 1) * d := by rw [h5]; linarith
      have h7 := le_of_mul_le_mul_right h6 hdpos
      linarith
    have h3 : (1 : ℚ) / 2 < (2 : ℚ) ^ j / d := by
      rw [lt_div_iff₀ hdpos]
      have : (d : ℚ) < 64 := by exact_mod_cast hd2
      linarith
    have h4 : q * (2 : ℚ) ^ j ≤ ((n : ℚ) + 1) * (2 : ℚ) ^ j - (2 : ℚ) ^ j / d := by
      have := mul_le_mul_of_nonneg_right h2 hpowpos.le
      calc q * (2 : ℚ) ^ j ≤ ((n : ℚ) + 1 - 1 / d) * (2 : ℚ) ^ j := this
        _ = ((n : ℚ) + 1) * (2 : ℚ) ^ j - (2 : ℚ) ^ j / d := by ring
    linarith
  have hmu : (m : ℚ) * pow2 (k - 23) = (m : ℚ) / (2 : ℚ) ^ j := by rw [hu]; ring
  have hrlo : (n : ℚ) ≤ (m : ℚ) / (2 : ℚ) ^ j := by
    rw [le_div_iff₀ hpowpos]
    have : (((n * 2 ^ j : Nat) : Int) : ℚ) ≤ (m : ℚ) := by exact_mod_cast hmlo
    push_cast at this
    exact this
  have hrhi : (m : ℚ) / (2 : ℚ) ^ j < (n : ℚ) + 1 := by
    rw [div_lt_iff₀ hpowpos]; exact hmhi
  have hninf : ¬ pow2 ((binary32.emax : Int) + 1) ≤ (m : ℚ) * pow2 (k - 23) := by
    rw [hmu, not_le]
    have h1 : ((n : ℚ) + 1) ≤ pow2 ((binary32.emax : Int) + 1) := by
      have : (n : ℚ) ≤ q := hnq
      have h19 : pow2 19 ≤ pow2 ((binary32.emax : Int) + 1) - 1 := by
        have : pow2 19 + pow2 0 ≤ pow2 20 := by
          simp only [pow2_eq_zpow]; norm_num
        have h20 : pow2 20 ≤ pow2 ((binary32.emax : Int) + 1) := pow2_le_pow2 (by decide)
        have h0 : pow2 0 = 1 := by rw [pow2_eq_zpow]; simp
        linarith
      linarith
    linarith
  refine ⟨(m : ℚ) / (2 : ℚ) ^ j, ?_, le_trans (by positivity) hrlo, ?_⟩
  · rw [hr, if_neg hninf, hmu]
  · rw [Int.floor_eq_iff]
    exact ⟨by exact_mod_cast hrlo, by exact_mod_cast hrhi⟩

theorem frame_repeat_sum_succ (t : List Int) {i : Nat} (h : i < t.length) :
    frame_repeat_sum t (i + 1) = frame_repeat_sum t i + (1 + t.getD i 0) := by
  have hg : t.getD i 0 = t[i] := by
    rw [List.getD_eq_getElem?_getD, List.getElem?_eq_getElem h]; rfl
  unfold frame_repeat_sum
  rw [List.take_succ, List.getElem?_eq_getElem h, hg]
  simp only [Option.toList, List.map_append, List.sum_append, List.map_cons, List.map_nil,
    List.sum_cons, List.sum_nil, add_zero]

theorem take_set_of_le {α : Type} (t : List α) {i k : Nat} (v : α) (h : k ≤ i) :
    (t.set i v).take k = t.take k := by
  apply List.ext_getElem?
  intro j
  rw [List.getElem?_take, List.getElem?_take]
  split
  · rw [List.getElem?_set_ne (by omega)]
  · rfl

theorem set_getD_self (t : List Int) {i : Nat} (h : i < t.length) :
    t.set i (t.getD i 0) = t := by
  apply List.ext_getElem?
  intro j
  by_cases hj : i = j
  · subst hj
    simp [List.getD_eq_getElem?_getD, List.getElem?_set, h]
  · rw [List.getElem?_set_ne hj]

theorem frame_repeat_sum_set_ge (t : List Int) {i k : Nat} (v : Int) (h : k ≤ i) :
    frame_repeat_sum (t.set i v) k = frame_repeat_sum t k := by
  unfold frame_repeat_sum
  rw [take_set_of_le t v h]

theorem getD_set_self (t : List Int) {i : Nat} (v : Int) (h : i < t.length) :
    (t.set i v).getD i 0 = v := by
  simp [List.getD_eq_getElem?_getD, List.getElem?_set, h]

theorem getD_set_ne (t : List Int) {i j : Nat} (v : Int) (h : i ≠ j) :
    (t.set i v).getD j 0 = t.getD j 0 := by
  simp [List.getD_eq_getElem?_getD, List.getElem?_set, h]

/-- Closed form of the inner loop of the walk: it runs `c` times, adds `c`
to the entry and to `dst_frames`, and takes `100000 * c` off `accum`; it
stops early only when `accum` has come down to at most 100000. -/
theorem walk_while_spec (i : Nat) (fuel : Nat) (w : Walk) (hi : i < w.frame_repeat.length) :
    ∃ c : Nat, c ≤ fuel ∧
      (walk_while i fuel w).frame_repeat = w.frame_repeat.set i (w.frame_repeat.getD i 0 + c) ∧
      (walk_while i fuel w).dst_frames = w.dst_frames + c ∧
      (walk_while i fuel w).accum = w.accum - 100000 * c ∧
      (c < fuel → (walk_while i fuel w).accum ≤ 100000) ∧
      (0 < c → 0 < (walk_while i fuel w).accum) := by
  induction fuel generalizing w with
  | zero =>
    refine ⟨0, le_refl _, ?_, by simp [walk_while], by simp [walk_while], by simp, by simp⟩
    simp only [walk_while, Nat.cast_zero, add_zero]
    exact (set_getD_self _ hi).symm
  | succ fuel ih =>
    unfold walk_while
    by_cases h : w.accum > 100000
    · rw [if_pos h]
      simp only
      set w1 : Walk :=
        { frame_repeat := w.frame_repeat.set i (w.frame_repeat.getD i 0 + 1)
          accum := w.accum - 100000
          max_repeat :=
            if toU32 (w.frame_repeat.getD i 0 + 1) > w.max_repeat
            then toU32 (w.frame_repeat.getD i 0 + 1) else w.max_repeat
          dst_frames := w.dst_frames + 1 } with hw1
      have hi1 : i < w1.frame_repeat.length := by simp [hw1, hi]
      obtain ⟨c, hc, h1, h2, h3, h4, h5⟩ := ih w1 hi1
      refine ⟨c + 1, by omega, ?_, ?_, ?_, ?_, ?_⟩
      · rw [h1]
        simp only [hw1, List.set_set]
        rw [getD_set_self _ _ hi]
        push_cast
        congr 1
        ring
      · rw [h2]; simp only [hw1]; push_cast; ring
      · rw [h3]; simp only [hw1]; push_cast; ring
      · intro hlt; exact h4 (by omega)
      · intro _
        by_cases hc0 : 0 < c
        · exact h5 hc0
        · have : c = 0 := by omega
          rw [h3, this]; simp only [hw1]; push_cast; omega
    · rw [if_neg h]
      refine ⟨0, by omega, ?_, by simp, by simp, fun _ => not_lt.mp h, by simp⟩
      simp only [Nat.cast_zero, add_zero]
      exact (set_getD_self _ hi).symm

/-! ## The accumulator walk -/

theorem walk_body_inv {inc : Int} {L k : Nat} {w : Walk} (h : WalkInv inc L k w) (hk : k < L) :
    WalkInv inc L (k + 1) (walk_body inc k w) := by
  obtain ⟨hlen, hsum, hent, hdst, hacc, hpos, hneg⟩ := h
  unfold walk_body
  simp only
  set w1 : Walk := { w with frame_repeat := w.frame_repeat.set k (-1), accum := w.accum + inc }
    with hw1
  have hk1 : k < w1.frame_repeat.length := by simp [hw1, hlen, hk]
  have hkw : k < w.frame_repeat.length := by omega
  obtain ⟨c, hc, h1, h2, h3, h4, h5⟩ := walk_while_spec k (w1.accum / 100000).toNat w1 hk1
  have ht : (walk_while k (w1.accum / 100000).toNat w1).frame_repeat =
      w.frame_repeat.set k (-1 + (c : Int)) := by
    rw [h1]
    simp only [hw1, List.set_set]
    rw [getD_set_self _ _ hkw]
  have hd : (walk_while k (w1.accum / 100000).toNat w1).dst_frames = w.dst_frames + c := by
    rw [h2]
  have ha : (walk_while k (w1.accum / 100000).toNat w1).accum = w.accum + inc - 100000 * c := by
    rw [h3]
  have hw1a : w1.accum = w.accum + inc := rfl
  rw [hw1a] at hc h4
  rw [ha] at h4 h5
  refine ⟨?_, ?_, ?_, ?_, ?_, ?_, ?_⟩
  · rw [ht]; simp [hlen]
  · rw [ht, hd, frame_repeat_sum_succ _ (by rw [List.length_set]; exact hkw), frame_repeat_sum_set_ge _ _ (le_refl k),
      getD_set_self _ _ hkw, hsum]
    ring
  · intro i hi
    rw [ht, hd]
    by_cases hik : i = k
    · subst hik
      rw [getD_set_self _ _ hkw]
      constructor <;> omega
    · rw [getD_set_ne _ _ (Ne.symm hik)]
      have := hent i (by omega)
      constructor <;> omega
  · rw [hd]; omega
  · rw [ha]
    by_cases hcf : c < ((w.accum + inc) / 100000).toNat
    · exact h4 hcf
    · omega
  · intro hinc
    obtain ⟨p1, p2⟩ := hpos hinc
    rw [ha, hd]
    constructor
    · by_cases hc0 : 0 < c
      · exact (h5 hc0).le
      · have : c = 0 := by omega
        subst this
        simp
        omega
    · push_cast
      linarith
  · intro hinc
    obtain ⟨n1, n2⟩ := hneg hinc
    have hc0 : c = 0 := by omega
    subst hc0
    rw [ha, hd]
    constructor
    · simp [n1]
    · simp; omega

theorem walk_for_inv {inc : Int} {L : Nat} (n : Nat) {k : Nat} {w : Walk}
    (h : WalkInv inc L k w) (hk : k + n ≤ L) :
    WalkInv inc L (k + n) (walk_for inc n k w) := by
  induction n generalizing k w with
  | zero => simpa [walk_for] using h
  | succ n ih =>
    unfold walk_for
    have := ih (walk_body_inv h (by omega)) (by omega)
    rw [show k + (n + 1) = k + 1 + n by omega]
    exact this

theorem walk_inv_init (inc : Int) (old : List Int) :
    WalkInv inc old.length 0 ⟨old, 0, 0, 0⟩ := by
  refine ⟨rfl, by simp [frame_repeat_sum], by simp, le_refl _, by norm_num, ?_, ?_⟩
  · intro _; simp
  · intro _; simp

theorem tdiv_pos_cases (x : Int) {hz : Int} (hhz : 0 < hz) :
    (0 ≤ x ∧ Int.tdiv x hz = x / hz) ∨ (x < 0 ∧ Int.tdiv x hz = -((-x) / hz)) := by
  by_cases hx : 0 ≤ x
  · exact Or.inl ⟨hx, Int.tdiv_eq_ediv hx hhz.le⟩
  · right
    refine ⟨by omega, ?_⟩
    have h1 : Int.tdiv (-(-x)) hz = -(Int.tdiv (-x) hz) := Int.neg_tdiv (-x) hz
    rw [neg_neg] at h1
    rw [h1, Int.tdiv_eq_ediv (by omega) hhz.le]

theorem near_equal_cond {hz d : Int} (hhz : hz = 50 ∨ hz = 60) (hd0 : 0 ≤ d)
    (hd1 : d ≤ 2147483647) :
    wrap32 (Int.natAbs (wrap32 (hz - d))) < 2 ↔ |hz - d| < 2 := by
  have h1 : wrap32 (hz - d) = hz - d := wrap32_of_range (by omega) (by omega)
  rw [h1]
  have h2 : ((hz - d).natAbs : Int) = |hz - d| := Int.natCast_natAbs _
  rw [h2]
  have h3 : |hz - d| < 2147483648 := by
    rw [abs_lt]; constructor <;> omega
  rw [wrap32_of_range (by have := abs_nonneg (hz - d); omega) h3]

theorem frame_repeat_sum_replicate (n : Nat) (l : List Int) :
    frame_repeat_sum (List.replicate n 0 ++ l) n = n := by
  unfold frame_repeat_sum
  rw [List.take_left' (by simp)]
  simp

/-- The walk leaves a table whose first `source_hz` entries, each counted
with the refresh that shows the frame, add up to `display_hz`. -/
theorem build_frame_repeat_sum {old t : List Int} {hz d : Int} {mr : Nat}
    (hlen : old.length = 60) (hhz : hz = 50 ∨ hz = 60) (hd0 : 0 ≤ d) (hd1 : d ≤ 2147483647)
    (hne : d = hz ∨ 2 ≤ |hz - d|) (h : build_frame_repeat old hz d = some (t, mr)) :
    frame_repeat_sum t hz.toNat = d := by
  unfold build_frame_repeat at h
  by_cases hc : |hz - d| < 2
  · rw [if_pos ((near_equal_cond hhz hd0 hd1).mpr hc)] at h
    have hdz : d = hz := by
      rcases hne with h' | h'
      · exact h'
      · omega
    subst hdz
    unfold memset_int at h
    split at h
    · simp only [Option.map_some', Option.some.injEq, Prod.mk.injEq] at h
      rw [← h.1, frame_repeat_sum_replicate]
      omega
    · simp at h
  · rw [if_neg (fun hh => hc ((near_equal_cond hhz hd0 hd1).mp hh))] at h
    simp only [Option.some.injEq, Prod.mk.injEq] at h
    obtain ⟨ht, _⟩ := h
    set inc := Int.tdiv (wrap32 (d * 100000)) hz with hinc
    have hhzpos : 0 < hz := by omega
    have hk : 0 + hz.toNat ≤ old.length := by omega
    have hinv := walk_for_inv hz.toNat (walk_inv_init inc old) hk
    set w := walk_for inc hz.toNat 0 ⟨old, 0, 0, 0⟩ with hw
    rw [Nat.zero_add] at hinv
    obtain ⟨wlen, wsum, went, wdst, _, wpos, wneg⟩ := hinv
    have hlast : (hz - 1).toNat + 1 = hz.toNat := by omega
    have hlastlt : (hz - 1).toNat < w.frame_repeat.length := by omega
    -- bound on `dst_frames`
    have hwr : -2147483648 ≤ wrap32 (d * 100000) ∧ wrap32 (d * 100000) < 2147483648 := by
      unfold wrap32; omega
    have hdstb : w.dst_frames ≤ 30000 := by
      by_cases hi : 0 ≤ inc
      · obtain ⟨a1, a2⟩ := wpos hi
        have hincb : inc ≤ 42949672 := by
          rcases tdiv_pos_cases (wrap32 (d * 100000)) hhzpos with ⟨_, e⟩ | ⟨_, e⟩
          · rw [hinc, e]
            rcases hhz with rfl | rfl <;> omega
          · rw [hinc, e]
            rcases hhz with rfl | rfl <;> omega
        have : ((hz.toNat : Nat) : Int) ≤ 60 := by omega
        nlinarith
      · have := (wneg (by omega)).1
        omega
    have hlastent := went (hz - 1).toNat (by omega)
    by_cases hdd : w.dst_frames ≠ d
    · rw [if_pos hdd] at ht
      rw [← ht, ← hlast, frame_repeat_sum_succ _ (by rw [List.length_set]; exact hlastlt),
        frame_repeat_sum_set_ge _ _ (le_refl _), getD_set_self _ _ hlastlt]
      have hs := wsum
      rw [← hlast, frame_repeat_sum_succ _ hlastlt] at hs
      rw [wrap32_of_range (x := d - w.dst_frames) (by omega) (by omega),
        wrap32_of_range (by omega) (by omega)]
      omega
    · rw [if_neg hdd] at ht
      rw [← ht, wsum]
      omega

/-! ## `render_set_video_standard` -/

/-- What `render_set_video_standard` stores when the mode is not
audio-synchronised. -/
theorem render_set_video_standard_eq {s s' : RenderState} {std : VidStd}
    (hsync : render_is_audio_sync s = false)
    (h : render_set_video_standard s std = some s') :
    ∃ t mr mb,
      build_frame_repeat s.frame_repeat (if std = VidStd.VID_PAL then 50 else 60) s.display_hz
        = some (t, mr) ∧
      min_buffered_for ((mr + 1) % 4294967296) s.sample_rate
        (if std = VidStd.VID_PAL then 50 else 60) = some mb ∧
      s' = { s with
        video_standard := std
        source_hz := if std = VidStd.VID_PAL then 50 else 60
        frame_repeat := t
        source_frame := 0
        source_frame_count := t.getD 0 0
        min_buffered := mb
        max_adjust := max_adjust_for (if std = VidStd.VID_PAL then 50 else 60) } := by
  unfold render_set_video_standard at h
  have hs : render_is_audio_sync { s with video_standard := std } = false := hsync
  rw [if_neg (by rw [hs]; decide)] at h
  obtain ⟨⟨t, mr⟩, hb, h2⟩ := Option.bind_eq_some.mp h
  obtain ⟨mb, hm, h3⟩ := Option.map_eq_some'.mp h2
  exact ⟨t, mr, mb, hb, hm, h3.symm⟩

/-- C1 (amended): in a non-audio-synchronised mode, for PAL and NTSC and for
every `display_hz` from 0 to 2147483647 that equals `source_hz` or differs
from it by at least 2, the table left by `render_set_video_standard`
satisfies: the sum of `1 + frame_repeat[i]` over `i < source_hz` is exactly
`display_hz`. -/
theorem frame_repeat_sum_eq_display_hz (s s' : RenderState) (std : VidStd)
    (hlen : s.frame_repeat.length = 60) (hsync : render_is_audio_sync s = false)
    (hd0 : 0 ≤ s.display_hz) (hd1 : s.display_hz ≤ 2147483647)
    (hne : s.display_hz = (if std = VidStd.VID_PAL then 50 else 60) ∨
      2 ≤ |(if std = VidStd.VID_PAL then 50 else 60) - s.display_hz|)
    (h : render_set_video_standard s std = some s') :
    s'.source_hz = (if std = VidStd.VID_PAL then 50 else 60) ∧
    frame_repeat_sum s'.frame_repeat s'.source_hz.toNat = s.display_hz := by
  obtain ⟨t, mr, mb, hb, _, rfl⟩ := render_set_video_standard_eq hsync h
  refine ⟨rfl, ?_⟩
  have hhz : (if std = VidStd.VID_PAL then (50 : Int) else 60) = 50 ∨
      (if std = VidStd.VID_PAL then (50 : Int) else 60) = 60 := by
    split <;> simp
  exact build_frame_repeat_sum hlen hhz hd0 hd1 hne hb

theorem round_zero (f : FloatFormat) : f.round 0 = FP.zero false := by
  unfold FloatFormat.round; simp

theorem binary32_ofInt_50 : FP.ofInt binary32 50 = FP.fin 50 := by
  have := binary32_round_int (n := 50) (by norm_num) (by norm_num)
  simpa [FP.ofInt] using this

theorem binary32_ofInt_60 : FP.ofInt binary32 60 = FP.fin 60 := by
  have := binary32_round_int (n := 60) (by norm_num) (by norm_num)
  simpa [FP.ofInt] using this

theorem binary32_ofInt_u32 {a : Nat} (h0 : 0 < a) (h1 : a < 4294967296) :
    ∃ r : ℚ, FP.ofInt binary32 (a : Int) = FP.fin r := by
  have hlo : pow2 0 ≤ ((a : Int) : ℚ) := by
    rw [pow2_eq_zpow]; simp; exact_mod_cast h0
  have hhi : ((a : Int) : ℚ) < pow2 32 := by
    rw [pow2_eq_zpow]; norm_num; exact_mod_cast h1
  obtain ⟨r, hr, _, _⟩ := @round_range binary32 (by decide) _ 0 32 (by decide)
    (by decide) hlo hhi
  exact ⟨r, hr⟩

/-- With no sample rate the threshold is 0. -/
theorem min_buffered_for_zero_rate {a : Nat} {hz : Int} (ha : a < 4294967296)
    (hhz : hz = 50 ∨ hz = 60) : min_buffered_for a 0 hz = some 0 := by
  have hz' : ∃ q : ℚ, FP.ofInt binary32 hz = FP.fin q := by
    rcases hhz with rfl | rfl
    · exact ⟨_, binary32_ofInt_50⟩
    · exact ⟨_, binary32_ofInt_60⟩
  obtain ⟨q, hq⟩ := hz'
  have h0 : FP.ofInt binary32 ((0 : Nat) : Int) = FP.zero false := by
    simp [FP.ofInt, round_zero]
  unfold min_buffered_for
  rw [h0, hq]
  rcases Nat.eq_zero_or_pos a with rfl | hpos
  · rw [h0]; simp [FP.mul, FP.div, FP.toUInt32]
  · obtain ⟨r, hr⟩ := binary32_ofInt_u32 hpos ha
    rw [hr]; simp [FP.mul, FP.div, FP.toUInt32]

/-- Below `2 ^ 24` the `float` computation of the threshold is the exact
integer quotient. -/
theorem min_buffered_for_exact {a sr : Nat} {hz : Int} (ha : 0 < a) (hsr : 0 < sr)
    (h : a * sr < 16777216) (hhz : hz = 50 ∨ hz = 60) :
    min_buffered_for a sr hz = some (a * sr / hz.toNat) := by
  have ha2 : a < 16777216 := lt_of_le_of_lt (Nat.le_mul_of_pos_right a hsr) h
  have hsr2 : sr < 16777216 := lt_of_le_of_lt (Nat.le_mul_of_pos_left sr ha) h
  have e1 : FP.ofInt binary32 (a : Int) = FP.fin (a : ℚ) := by
    have := binary32_round_int (n := (a : Int)) (by exact_mod_cast ha) (by exact_mod_cast ha2)
    simpa [FP.ofInt] using this
  have e2 : FP.ofInt binary32 (sr : Int) = FP.fin (sr : ℚ) := by
    have := binary32_round_int (n := (sr : Int)) (by exact_mod_cast hsr) (by exact_mod_cast hsr2)
    simpa [FP.ofInt] using this
  have e3 : binary32.round ((a : ℚ) * (sr : ℚ)) = FP.fin (((a * sr : Nat) : ℚ)) := by
    have := binary32_round_int (n := ((a * sr : Nat) : Int))
      (by exact_mod_cast Nat.mul_pos ha hsr) (by exact_mod_cast h)
    simpa using this
  obtain ⟨d, hd, hd1, hd2, hdz⟩ : ∃ d : Nat, FP.ofInt binary32 hz = FP.fin (d : ℚ) ∧ 32 ≤ d ∧
      d < 64 ∧ hz.toNat = d := by
    rcases hhz with rfl | rfl
    · exact ⟨50, by simpa using binary32_ofInt_50, by norm_num, by norm_num, rfl⟩
    · exact ⟨60, by simpa using binary32_ofInt_60, by norm_num, by norm_num, rfl⟩
  obtain ⟨r, hr, hr0, hfl⟩ :=
    binary32_div_floor (P := a * sr) (d := d) (Nat.mul_pos ha hsr) h hd1 hd2
  unfold min_buffered_for
  rw [e1, e2, hd]
  simp only [FP.mul, FP.div, e3, hr, FP.toUInt32]
  rw [if_neg (not_lt.mpr hr0), hfl, hdz]
  have hlt : ((a * sr / d : Nat) : Int) < 4294967296 := by
    have : a * sr / d ≤ a * sr := Nat.div_le_self _ _
    omega
  rw [if_pos hlt, Int.toNat_ofNat]

/-! ## Claims on the frame-repeat table and the sample clock -/

/-- C1 (counterexample): NTSC on a 59 Hz display takes the near-equal path;
the 60 entries are 0 and the sum of `1 + frame_repeat[i]` is 60, not the
display rate 59. -/
theorem frame_repeat_sum_ntsc_59 :
    (render_set_video_standard (video_state SyncSrc.SYNC_VIDEO 59 48000) VidStd.VID_NTSC).map
      (fun s => (s.display_hz, s.source_hz, frame_repeat_sum s.frame_repeat s.source_hz.toNat))
      = some (59, 60, 60) := by
  decide!

/-- C1 (witness): NTSC on a 144 Hz display. -/
theorem frame_repeat_sum_ntsc_144 :
    render_set_video_standard (video_state SyncSrc.SYNC_VIDEO 144 48000) VidStd.VID_NTSC
      = some ntsc_144_result ∧
    ntsc_144_result.source_hz = 60 ∧
    frame_repeat_sum ntsc_144_result.frame_repeat ntsc_144_result.source_hz.toNat = 144 :=
  have h : render_set_video_standard (video_state SyncSrc.SYNC_VIDEO 144 48000) VidStd.VID_NTSC
      = some ntsc_144_result := by decide!
  ⟨h, frame_repeat_sum_eq_display_hz (video_state SyncSrc.SYNC_VIDEO 144 48000) ntsc_144_result
    VidStd.VID_NTSC (by decide) (by decide) (by decide) (by decide) (Or.inr (by decide)) h⟩

/-- C2 (the code at the failing input): on a 49 Hz display, after
`render_set_video_standard(VID_NTSC)` (the call made at start-up) and then
`render_set_video_standard(VID_PAL)`, which takes the near-equal path with
`source_hz = 50`, the entry `frame_repeat[49]` is still the -1 of the NTSC
table: `memset` has cleared `display_hz = 49` entries only. -/
theorem near_equal_keeps_stale_entry :
    ((render_set_video_standard (video_state SyncSrc.SYNC_VIDEO 49 48000) VidStd.VID_NTSC).bind
      (fun s => render_set_video_standard s VidStd.VID_PAL)).map
      (fun s => (s.source_hz, s.frame_repeat.getD 49 0)) = some (50, -1) := by
  decide!

/-- C3 (the code at the failing input): NTSC on a 120 Hz display.  The
finished table ends in the entry 2 (its largest, after the final correction)
but the tracked `max_repeat` is 1, and `min_buffered` is sized for 2 frames
(1600 samples at 48000 Hz) instead of 3. -/
theorem max_repeat_misses_final_correction :
    (build_frame_repeat (List.replicate 60 0) 60 120).map
      (fun r => (r.1.getD 59 0, r.1.foldl max 0, r.2)) = some (2, 2, 1) ∧
    (render_set_video_standard (video_state SyncSrc.SYNC_VIDEO 120 48000) VidStd.VID_NTSC).map
      (fun s => (s.frame_repeat.getD 59 0, s.min_buffered)) = some (2, 1600) := by
  constructor <;> decide!

/-- C4 (counterexample): at a sample rate of 35999999 Hz, NTSC, on a 60 Hz
display (`max_repeat = 0`), `min_buffered` becomes 600000 although
`floor(1 * 35999999 / 60) = 599999`: the conversion of the sample rate to
`float` rounds it to 36000000. -/
theorem min_buffered_rounds_up :
    (build_frame_repeat (List.replicate 60 0) 60 60).map (fun r => r.2) = some 0 ∧
    (render_set_video_standard (video_state SyncSrc.SYNC_VIDEO 60 35999999) VidStd.VID_NTSC).map
      render_min_buffered = some 600000 ∧
    (0 + 1) * 35999999 / 60 = 599999 := by
  refine ⟨by decide!, by decide!, by decide⟩

/-- C4 (amended): in a non-audio-synchronised mode, when the table has been
built with tracked maximum `max_repeat` and
`(max_repeat + 1) * sample_rate < 2 ^ 24`, `render_set_video_standard`
returns and `render_min_buffered` is then
`floor((max_repeat + 1) * sample_rate / source_hz)`, with `source_hz` 50 for
PAL and 60 otherwise. -/
theorem min_buffered_eq_floor (s : RenderState) (std : VidStd) (t : List Int) (max_repeat : Nat)
    (hsync : render_is_audio_sync s = false)
    (hb : build_frame_repeat s.frame_repeat (if std = VidStd.VID_PAL then 50 else 60)
      s.display_hz = some (t, max_repeat))
    (hrate : (max_repeat + 1) * s.sample_rate < 16777216) :
    ∃ s', render_set_video_standard s std = some s' ∧
      render_min_buffered s' =
        (max_repeat + 1) * s.sample_rate / (if std = VidStd.VID_PAL then 50 else 60) := by
  have hhz : (if std = VidStd.VID_PAL then (50 : Int) else 60) = 50 ∨
      (if std = VidStd.VID_PAL then (50 : Int) else 60) = 60 := by
    split <;> simp
  have hnat : (if std = VidStd.VID_PAL then (50 : Int) else 60).toNat =
      (if std = VidStd.VID_PAL then 50 else 60) := by
    split <;> rfl
  have hm : min_buffered_for ((max_repeat + 1) % 4294967296) s.sample_rate
      (if std = VidStd.VID_PAL then 50 else 60) =
      some ((max_repeat + 1) * s.sample_rate / (if std = VidStd.VID_PAL then 50 else 60)) := by
    rcases Nat.eq_zero_or_pos s.sample_rate with h0 | hpos
    · rw [h0, min_buffered_for_zero_rate (Nat.mod_lt _ (by norm_num)) hhz]
      simp
    · have hlt : max_repeat + 1 < 16777216 :=
        lt_of_le_of_lt (Nat.le_mul_of_pos_right _ hpos) hrate
      rw [Nat.mod_eq_of_lt (by omega),
        min_buffered_for_exact (Nat.succ_pos _) hpos hrate hhz, hnat]
  have hs : render_is_audio_sync { s with video_standard := std } = false := hsync
  unfold render_set_video_standard
  rw [if_neg (by rw [hs]; decide)]
  simp only [hb, hm, Option.some_bind, Option.map_some']
  exact ⟨_, rfl, rfl⟩

/-- C4 (witness): 48000 Hz, NTSC and a 60 Hz display give 800. -/
theorem min_buffered_ntsc_48000 :
    ∃ s', render_set_video_standard (video_state SyncSrc.SYNC_VIDEO 60 48000) VidStd.VID_NTSC
        = some s' ∧ render_min_buffered s' = 800 :=
  min_buffered_eq_floor (video_state SyncSrc.SYNC_VIDEO 60 48000) VidStd.VID_NTSC
    (List.replicate 60 0) 0 (by decide) (by decide!) (by decide)

/-- C5 (counterexample): in `SYNC_AUDIO` mode a change to PAL stores the new
standard and nothing else; `source_hz` and `min_buffered` keep their old
values (here the initial 0). -/
theorem audio_sync_keeps_sample_clock :
    (render_set_video_standard (video_state SyncSrc.SYNC_AUDIO 60 48000) VidStd.VID_PAL).map
      (fun s => (s.video_standard, s.source_hz, s.min_buffered)) = some (VidStd.VID_PAL, 0, 0) := by
  decide!

/-- C5 (amended): in the audio-synchronised modes `render_set_video_standard`
only stores the new video standard; in the other modes, when it returns,
`source_hz` is 50 for PAL and 60 for NTSC and `min_buffered` is the threshold
computed for that rate from the tracked `max_repeat`. -/
theorem video_standard_recomputes_when_not_audio_sync (s : RenderState) (std : VidStd) :
    (render_is_audio_sync s = true →
      render_set_video_standard s std = some { s with video_standard := std }) ∧
    (render_is_audio_sync s = false → ∀ s', render_set_video_standard s std = some s' →
      s'.video_standard = std ∧
      s'.source_hz = (if std = VidStd.VID_PAL then 50 else 60) ∧
      ∃ t max_repeat,
        build_frame_repeat s.frame_repeat s'.source_hz s.display_hz = some (t, max_repeat) ∧
        min_buffered_for ((max_repeat + 1) % 4294967296) s.sample_rate s'.source_hz
          = some (render_min_buffered s')) := by
  constructor
  · intro hsync
    have hs : render_is_audio_sync { s with video_standard := std } = true := hsync
    unfold render_set_video_standard
    rw [if_pos hs]
  · intro hsync s' h
    obtain ⟨t, mr, mb, hb, hm, rfl⟩ := render_set_video_standard_eq hsync h
    exact ⟨rfl, rfl, t, mr, hb, hm⟩

/-- C5 (witness): NTSC on a 144 Hz display in video-driven mode. -/
theorem video_standard_recomputes_ntsc_144 :
    ntsc_144_result.video_standard = VidStd.VID_NTSC ∧
    ntsc_144_result.source_hz = 60 ∧
    ∃ t max_repeat,
      build_frame_repeat (video_state SyncSrc.SYNC_VIDEO 144 48000).frame_repeat
        ntsc_144_result.source_hz 144 = some (t, max_repeat) ∧
      min_buffered_for ((max_repeat + 1) % 4294967296) 48000 ntsc_144_result.source_hz
        = some (render_min_buffered ntsc_144_result) :=
  (video_standard_recomputes_when_not_audio_sync (video_state SyncSrc.SYNC_VIDEO 144 48000)
    VidStd.VID_NTSC).2 (by decide) ntsc_144_result (by decide!)

/-! ## Frame queue and buffer pool -/

theorem release_buffer_queue (s : RenderState) (b : Nat) :
    (release_buffer s b).frame_queue = s.frame_queue ∧
    (release_buffer s b).frame_queue_len = s.frame_queue_len ∧
    (release_buffer s b).frame_queue_read = s.frame_queue_read ∧
    (release_buffer s b).frame_queue_write = s.frame_queue_write ∧
    (release_buffer s b).sync_src = s.sync_src ∧
    (release_buffer s b).locked_pixels = s.locked_pixels ∧
    (release_buffer s b).callocs = s.callocs ∧
    (release_buffer s b).texture_buf = s.texture_buf := by
  unfold release_buffer
  by_cases h : s.num_buffers = s.buffer_storage
  · rw [if_pos h]; exact ⟨rfl, rfl, rfl, rfl, rfl, rfl, rfl, rfl⟩
  · rw [if_neg h]; exact ⟨rfl, rfl, rfl, rfl, rfl, rfl, rfl, rfl⟩

/-- The fields of the state after the coalescing of the entry in slot
`cur`. -/
theorem coalesce_entry_fields (s : RenderState) (cur : Int) :
    (coalesce_entry s cur).sync_src = s.sync_src ∧
    (coalesce_entry s cur).locked_pixels = s.locked_pixels ∧
    (coalesce_entry s cur).frame_queue_read = s.frame_queue_read ∧
    (coalesce_entry s cur).frame_queue_len = s.frame_queue_len - 1 ∧
    (coalesce_entry s cur).frame_queue_write = (s.frame_queue_write - 1) % 4 ∧
    (coalesce_entry s cur).frame_queue =
      (if (s.frame_queue_write - 1) % 4 ≠ cur then
        s.frame_queue.set cur.toNat (queue_at s ((s.frame_queue_write - 1) % 4))
      else s.frame_queue) := by
  obtain ⟨r1, r2, r3, r4, r5, r6, _, _⟩ :=
    release_buffer_queue { s with frame_queue_len := s.frame_queue_len - 1 }
      (queue_at { s with frame_queue_len := s.frame_queue_len - 1 } cur).buffer
  by_cases hl : (s.frame_queue_write - 1) % 4 ≠ cur
  · have e : coalesce_entry s cur =
        { release_buffer { s with frame_queue_len := s.frame_queue_len - 1 }
            (queue_at { s with frame_queue_len := s.frame_queue_len - 1 } cur).buffer with
          frame_queue :=
            (release_buffer { s with frame_queue_len := s.frame_queue_len - 1 }
              (queue_at { s with frame_queue_len := s.frame_queue_len - 1 } cur).buffer).frame_queue.set
              cur.toNat
              (queue_at (release_buffer { s with frame_queue_len := s.frame_queue_len - 1 }
                (queue_at { s with frame_queue_len := s.frame_queue_len - 1 } cur).buffer)
                ((s.frame_queue_write - 1) % 4))
          frame_queue_write := (s.frame_queue_write - 1) % 4 } := by
      unfold coalesce_entry
      exact congrArg (fun x : RenderState =>
        { x with frame_queue_write := (s.frame_queue_write - 1) % 4 }) (if_pos hl)
    rw [e, if_pos hl]
    have hq : queue_at (release_buffer { s with frame_queue_len := s.frame_queue_len - 1 }
          (queue_at { s with frame_queue_len := s.frame_queue_len - 1 } cur).buffer)
          ((s.frame_queue_write - 1) % 4) = queue_at s ((s.frame_queue_write - 1) % 4) :=
      congrArg (fun l : List Frame => l.getD ((s.frame_queue_write - 1) % 4).toNat ⟨0, 0, 0, []⟩) r1
    exact ⟨r5, r6, r3, r2, rfl, congrArg₂ (fun l f => List.set l cur.toNat f) r1 hq⟩
  · have e : coalesce_entry s cur =
        { release_buffer { s with frame_queue_len := s.frame_queue_len - 1 }
            (queue_at { s with frame_queue_len := s.frame_queue_len - 1 } cur).buffer with
          frame_queue_write := (s.frame_queue_write - 1) % 4 } := by
      unfold coalesce_entry
      exact congrArg (fun x : RenderState =>
        { x with frame_queue_write := (s.frame_queue_write - 1) % 4 }) (if_neg hl)
    rw [e, if_neg hl]
    exact ⟨r5, r6, r3, r2, rfl, r1⟩

/-- The coalescing scan either finds no entry and changes nothing, or
coalesces the first entry that `scan_slots` finds. -/
theorem coalesce_scan_eq (which : Nat) (n : Nat) (cur : Int) (s : RenderState) :
    coalesce_scan which n cur s =
      match scan_slots which n cur s.frame_queue with
      | none => s
      | some c => coalesce_entry s c := by
  induction n generalizing cur with
  | zero => rfl
  | succ n ih =>
    unfold coalesce_scan scan_slots
    by_cases h : (queue_at s cur).which = which
    · have h' : (s.frame_queue.getD cur.toNat ⟨0, 0, 0, []⟩).which = which := h
      rw [if_pos h, if_pos h']
    · have h' : ¬ (s.frame_queue.getD cur.toNat ⟨0, 0, 0, []⟩).which = which := h
      rw [if_neg h, if_neg h']
      exact ih ((cur + 1) % 4)

theorem range_three : List.range 3 = [0, 1, 2] := rfl

theorem range_two : List.range 2 = [0, 1] := rfl

theorem range_one : List.range 1 = [0] := rfl

theorem range_four : List.range 4 = [0, 1, 2, 3] := rfl

theorem scan_slots_pos {which n : Nat} {cur c : Int} {fq : List Frame}
    (h : scan_slots which n cur fq = some c) : 0 < n := by
  cases n with
  | zero => exact absurd h (by simp [scan_slots])
  | succ n => exact Nat.succ_pos n

/-- The coalescing loop acts on the queue variables as `Slots.coalesce`. -/
theorem queue_slots_coalesce_scan (s : RenderState) (which : Nat) :
    queue_slots (coalesce_scan which s.frame_queue_len.toNat s.frame_queue_read s) =
      (queue_slots s).coalesce which ∧
    (coalesce_scan which s.frame_queue_len.toNat s.frame_queue_read s).sync_src = s.sync_src ∧
    (coalesce_scan which s.frame_queue_len.toNat s.frame_queue_read s).locked_pixels =
      s.locked_pixels := by
  rw [coalesce_scan_eq]
  unfold Slots.coalesce
  have e1 : (queue_slots s).len = s.frame_queue_len := rfl
  have e2 : (queue_slots s).read = s.frame_queue_read := rfl
  have e3 : (queue_slots s).slots = s.frame_queue := rfl
  rw [e1, e2, e3]
  cases h : scan_slots which s.frame_queue_len.toNat s.frame_queue_read s.frame_queue with
  | none => exact ⟨rfl, rfl, rfl⟩
  | some c =>
    obtain ⟨f1, f2, f3, f4, f5, f6⟩ := coalesce_entry_fields s c
    refine ⟨?_, f1, f2⟩
    show Slots.mk _ _ _ _ = Slots.mk _ _ _ _
    rw [f3, f4, f5, f6]
    rfl

theorem queue_slots_enqueue_frame (s : RenderState) (which : Nat) (width : Int)
    (memory : Option (List Nat)) :
    queue_slots (enqueue_frame s which width memory) =
      (queue_slots s).enqueue ((queue_slots s).new_frame s.locked_pixels which width memory) :=
  rfl

/-- In the threaded modes `render_framebuffer_updated` waits exactly when
the queue is full, and otherwise acts on the queue variables as
`Slots.submit`. -/
theorem render_framebuffer_updated_threaded (s : RenderState) (ht : threaded s) (which : Nat)
    (width : Int) (memory : Option (List Nat)) :
    (s.frame_queue_len = 4 → render_framebuffer_updated s which width memory = none) ∧
    (s.frame_queue_len ≠ 4 →
      ∃ s', render_framebuffer_updated s which width memory =
          some (s', [Effect.SDL_CondSignal_frame_ready]) ∧
        queue_slots s' = (queue_slots s).submit s.locked_pixels which width memory ∧
        s'.sync_src = s.sync_src) := by
  have ht' : s.sync_src = SyncSrc.SYNC_AUDIO_THREAD ∨ s.sync_src = SyncSrc.SYNC_EXTERNAL := ht
  unfold render_framebuffer_updated
  rw [if_pos ht']
  constructor
  · intro h; rw [if_pos h]
  · intro h
    rw [if_neg h]
    obtain ⟨c1, c2, c3⟩ := queue_slots_coalesce_scan s which
    refine ⟨_, rfl, ?_, ?_⟩
    · rw [queue_slots_enqueue_frame, c1, c3]; rfl
    · exact c2

theorem Slots.coalesce_wf (q : Slots) (hwf : q.Wf) (which : Nat) :
    (q.coalesce which).Wf ∧ (q.coalesce which).len ≤ q.len ∧
    (q.len ≠ 4 → (q.coalesce which).len ≠ 4) := by
  obtain ⟨h4, hr0, hr1, hl0, hl1, hw⟩ := hwf
  unfold Slots.coalesce
  cases h : scan_slots which q.len.toNat q.read q.slots with
  | none => exact ⟨⟨h4, hr0, hr1, hl0, hl1, hw⟩, le_refl _, fun h => h⟩
  | some c =>
    have hpos := scan_slots_pos h
    have hlen : 1 ≤ q.len := by omega
    refine ⟨⟨?_, hr0, hr1, ?_, ?_, ?_⟩, ?_, ?_⟩
    · show (if _ then _ else _ : List Frame).length = 4
      split
      · rw [List.length_set]; exact h4
      · exact h4
    · show 0 ≤ q.len - 1; omega
    · show q.len - 1 ≤ 4; omega
    · show (q.write - 1) % 4 = (q.read + (q.len - 1)) % 4
      omega
    · show q.len - 1 ≤ q.len; omega
    · intro _; show q.len - 1 ≠ 4; omega

theorem Slots.enqueue_wf (q : Slots) (hwf : q.Wf) (hlen : q.len ≠ 4) (f : Frame) :
    (q.enqueue f).Wf := by
  obtain ⟨h4, hr0, hr1, hl0, hl1, hw⟩ := hwf
  refine ⟨?_, hr0, hr1, ?_, ?_, ?_⟩
  · show (q.slots.set q.write.toNat f).length = 4
    rw [List.length_set]; exact h4
  · show 0 ≤ q.len + 1; omega
  · show q.len + 1 ≤ 4; omega
  · show (q.write + 1) % 4 = (q.read + (q.len + 1)) % 4
    omega

theorem Slots.submit_wf (q : Slots) (hwf : q.Wf) (hlen : q.len ≠ 4) (buffer which : Nat)
    (width : Int) (memory : Option (List Nat)) : (q.submit buffer which width memory).Wf := by
  obtain ⟨c1, _, c3⟩ := q.coalesce_wf hwf which
  exact Slots.enqueue_wf _ c1 (c3 hlen) _

/-- The entry just written is the one before the write index. -/
theorem Slots.enqueue_last (q : Slots) (hwf : q.Wf) (f : Frame) :
    (q.enqueue f).slot (((q.enqueue f).write - 1) % 4) = f := by
  obtain ⟨h4, hr0, hr1, hl0, hl1, hw⟩ := hwf
  have hw0 : 0 ≤ q.write := by omega
  have hw1 : q.write < 4 := by omega
  have e : ((q.write + 1) % 4 - 1) % 4 = q.write := by omega
  show (q.slots.set q.write.toNat f).getD (((q.write + 1) % 4 - 1) % 4).toNat _ = f
  rw [e, List.getD_eq_getElem?_getD, List.getElem?_set_self (by omega)]
  rfl

/-- The dequeue takes the first of the waiting frames. -/
theorem Slots.contents_dequeue (q : Slots) (hwf : q.Wf) (hlen : q.len ≠ 0) :
    q.contents = q.slot q.read ::
      (Slots.mk q.slots ((q.read + 1) % 4) (q.len - 1) q.write).contents ∧
    (Slots.mk q.slots ((q.read + 1) % 4) (q.len - 1) q.write).Wf := by
  obtain ⟨slots, read, len, write⟩ := q
  obtain ⟨h4, hr0, hr1, hl0, hl1, hw⟩ := hwf
  simp only at h4 hr0 hr1 hl0 hl1 hw hlen
  refine ⟨?_, ⟨h4, by show 0 ≤ (read + 1) % 4; omega, by show (read + 1) % 4 < 4; omega,
    by show 0 ≤ len - 1; omega, by show len - 1 ≤ 4; omega,
    by show write = ((read + 1) % 4 + (len - 1)) % 4; omega⟩⟩
  have hr : read = 0 ∨ read = 1 ∨ read = 2 ∨ read = 3 := by omega
  have hl : len = 1 ∨ len = 2 ∨ len = 3 ∨ len = 4 := by omega
  rcases hr with rfl | rfl | rfl | rfl <;> rcases hl with rfl | rfl | rfl | rfl <;>
    simp [Slots.contents, Slots.slot, range_three, range_two, range_one, range_four]

set_option maxHeartbeats 4000000 in
/-- A submit into a well-formed queue that is not full: unless the entry
coalesced is the head of a queue of three, the waiting frames are the old
ones without the first entry of the same identifier, in the same order,
followed by the new frame. -/
theorem Slots.contents_submit (q : Slots) (hwf : q.Wf) (hlen : q.len ≠ 4)
    (buffer which : Nat) (width : Int) (memory : Option (List Nat))
    (hok : ¬ (q.len = 3 ∧ (q.slot q.read).which = which)) :
    (q.submit buffer which width memory).contents =
      q.contents.eraseP (fun f => decide (f.which = which)) ++
        [(q.coalesce which).new_frame buffer which width memory] := by
  obtain ⟨slots, read, len, write⟩ := q
  obtain ⟨h4, hr0, hr1, hl0, hl1, hw⟩ := hwf
  simp only at h4 hr0 hr1 hl0 hl1 hw hlen hok
  obtain ⟨a, b, c, d, rfl⟩ : ∃ a b c d, slots = [a, b, c, d] := by
    match slots, h4 with
    | [a, b, c, d], _ => exact ⟨a, b, c, d, rfl⟩
  have hr : read = 0 ∨ read = 1 ∨ read = 2 ∨ read = 3 := by omega
  have hl : len = 0 ∨ len = 1 ∨ len = 2 ∨ len = 3 := by omega
  rcases hr with rfl | rfl | rfl | rfl <;> rcases hl with rfl | rfl | rfl | rfl <;>
    subst hw <;>
    by_cases ha : a.which = which <;> by_cases hb : b.which = which <;>
    by_cases hc : c.which = which <;> by_cases hd : d.which = which <;>
    simp [Slots.submit, Slots.coalesce, Slots.enqueue, Slots.new_frame, Slots.contents,
      Slots.slot, scan_slots, range_three, range_two, range_one, range_four, List.eraseP_cons,
      ha, hb, hc, hd] at hok ⊢

theorem queue_step_submit (r : QueueRun) (f : Submission) :
    queue_step r (QueueOp.submit f) =
      match render_framebuffer_updated (hold_buffer r.state f.buffer) f.which f.width f.memory with
      | none => r
      | some (s, _) =>
        { state := s
          submitted := r.submitted ++ [queue_at s ((s.frame_queue_write - 1) % 4)]
          consumed := r.consumed } := rfl

theorem queue_step_consume (r : QueueRun) :
    queue_step r QueueOp.consume =
      match render_video_loop_dequeue r.state with
      | none => r
      | some (f, s) => { state := s, submitted := r.submitted, consumed := r.consumed ++ [f] } :=
  rfl

/-- What one operation of a run does, in terms of the queue variables. -/
theorem queue_step_cases (r : QueueRun) (op : QueueOp) (ht : threaded r.state)
    (hwf : (queue_slots r.state).Wf) :
    threaded (queue_step r op).state ∧ (queue_slots (queue_step r op).state).Wf ∧
    (queue_step r op = r ∨
     (∃ f, op = QueueOp.submit f ∧ r.state.frame_queue_len ≠ 4 ∧
        queue_slots (queue_step r op).state =
          (queue_slots r.state).submit f.buffer f.which f.width f.memory ∧
        (queue_step r op).submitted = r.submitted ++
          [((queue_slots r.state).coalesce f.which).new_frame f.buffer f.which f.width f.memory] ∧
        (queue_step r op).consumed = r.consumed) ∨
     (op = QueueOp.consume ∧ r.state.frame_queue_len ≠ 0 ∧
        queue_slots (queue_step r op).state =
          Slots.mk r.state.frame_queue ((r.state.frame_queue_read + 1) % 4)
            (r.state.frame_queue_len - 1) r.state.frame_queue_write ∧
        (queue_step r op).submitted = r.submitted ∧
        (queue_step r op).consumed = r.consumed ++ [queue_at r.state r.state.frame_queue_read])) := by
  cases op with
  | submit f =>
    have ht0 : threaded (hold_buffer r.state f.buffer) := ht
    obtain ⟨hfull, hfree⟩ :=
      render_framebuffer_updated_threaded (hold_buffer r.state f.buffer) ht0
        f.which f.width f.memory
    by_cases hlen : r.state.frame_queue_len = 4
    · have e : queue_step r (QueueOp.submit f) = r := by
        rw [queue_step_submit, hfull hlen]
      rw [e]
      exact ⟨ht, hwf, Or.inl rfl⟩
    · obtain ⟨s', hs', hq, hsync⟩ := hfree hlen
      have e : queue_step r (QueueOp.submit f) =
          { state := s'
            submitted := r.submitted ++ [queue_at s' ((s'.frame_queue_write - 1) % 4)]
            consumed := r.consumed } := by
        rw [queue_step_submit, hs']
      have hq' : queue_slots s' = (queue_slots r.state).submit f.buffer f.which f.width f.memory :=
        hq
      have hwf' : (queue_slots s').Wf := by
        rw [hq']; exact Slots.submit_wf _ hwf hlen _ _ _ _
      have hnew : queue_at s' ((s'.frame_queue_write - 1) % 4) =
          ((queue_slots r.state).coalesce f.which).new_frame f.buffer f.which f.width f.memory := by
        have h1 : queue_at s' ((s'.frame_queue_write - 1) % 4) =
            (queue_slots s').slot (((queue_slots s').write - 1) % 4) := rfl
        rw [h1, hq']
        exact Slots.enqueue_last _ ((queue_slots r.state).coalesce_wf hwf f.which).1 _
      rw [e]
      refine ⟨?_, hwf', Or.inr (Or.inl ⟨f, rfl, hlen, hq', ?_, rfl⟩)⟩
      · show threaded s'
        unfold threaded
        rw [hsync]
        exact ht
      · show r.submitted ++ [_] = _
        rw [hnew]
  | consume =>
    by_cases hlen : r.state.frame_queue_len = 0
    · have e : queue_step r QueueOp.consume = r := by
        rw [queue_step_consume]
        unfold render_video_loop_dequeue
        rw [if_neg (not_not.mpr hlen)]
      rw [e]
      exact ⟨ht, hwf, Or.inl rfl⟩
    · have e : queue_step r QueueOp.consume =
          { state := { r.state with
              frame_queue_read := (r.state.frame_queue_read + 1) % 4
              frame_queue_len := r.state.frame_queue_len - 1 }
            submitted := r.submitted
            consumed := r.consumed ++ [queue_at r.state r.state.frame_queue_read] } := by
        rw [queue_step_consume]
        unfold render_video_loop_dequeue
        rw [if_pos hlen]
      rw [e]
      exact ⟨ht, ((queue_slots r.state).contents_dequeue hwf hlen).2,
        Or.inr (Or.inr ⟨rfl, hlen, rfl, rfl, rfl⟩)⟩

theorem queue_run_cons (r : QueueRun) (op : QueueOp) (ops : List QueueOp) :
    queue_run r (op :: ops) = queue_run (queue_step r op) ops := rfl

theorem queue_run_wf (r : QueueRun) (ops : List QueueOp) (ht : threaded r.state)
    (hwf : (queue_slots r.state).Wf) :
    threaded (queue_run r ops).state ∧ (queue_slots (queue_run r ops).state).Wf := by
  induction ops generalizing r with
  | nil => exact ⟨ht, hwf⟩
  | cons op ops ih =>
    rw [queue_run_cons]
    obtain ⟨h1, h2, _⟩ := queue_step_cases r op ht hwf
    exact ih _ h1 h2

/-- C6: in the `SYNC_AUDIO_THREAD` and `SYNC_EXTERNAL` modes, after every
sequence of submits (`render_framebuffer_updated`, which goes on only when
the queue is not full) and consumes (the dequeue of `render_video_loop`)
from a well-formed queue, in particular from the empty one,
`frame_queue_len` lies in `[0, 4]`. -/
theorem frame_queue_len_bounded (s : RenderState) (ops : List QueueOp) (ht : threaded s)
    (hwf : (queue_slots s).Wf) :
    0 ≤ (queue_run ⟨s, [], []⟩ ops).state.frame_queue_len ∧
    (queue_run ⟨s, [], []⟩ ops).state.frame_queue_len ≤ 4 := by
  obtain ⟨_, _, _, _, h0, h4, _⟩ := queue_run_wf ⟨s, [], []⟩ ops ht hwf
  exact ⟨h0, h4⟩

/-- One operation keeps the frames consumed so far followed by the frames
waiting a subsequence of the frames submitted, unless it is a submit that
coalesces at the head of a queue of three. -/
theorem queue_step_order (r : QueueRun) (op : QueueOp) (ht : threaded r.state)
    (hwf : (queue_slots r.state).Wf)
    (hsub : (r.consumed ++ (queue_slots r.state).contents).Sublist r.submitted)
    (hok : ∀ f, op = QueueOp.submit f → coalesces_head_of_three r.state f.which = false) :
    ((queue_step r op).consumed ++ (queue_slots (queue_step r op).state).contents).Sublist
      (queue_step r op).submitted := by
  obtain ⟨_, _, h | ⟨f, hop, hlen, hq, hs, hc⟩ | ⟨hop, hlen, hq, hs, hc⟩⟩ :=
    queue_step_cases r op ht hwf
  · rw [h]; exact hsub
  · have hnb : ¬ ((queue_slots r.state).len = 3 ∧
        ((queue_slots r.state).slot (queue_slots r.state).read).which = f.which) := by
      have h := hok f hop
      unfold coalesces_head_of_three at h
      intro hc
      rw [decide_eq_true (show r.state.frame_queue_len = 3 from hc.1),
        decide_eq_true (show (queue_at r.state r.state.frame_queue_read).which = f.which
          from hc.2)] at h
      exact absurd h (by decide)
    rw [hq, hs, hc, Slots.contents_submit _ hwf hlen _ _ _ _ hnb, ← List.append_assoc]
    refine List.Sublist.append ?_ (List.Sublist.refl _)
    exact List.Sublist.trans
      (List.Sublist.append (List.Sublist.refl _) (List.eraseP_sublist _)) hsub
  · obtain ⟨hd, _⟩ := (queue_slots r.state).contents_dequeue hwf hlen
    rw [hq, hs, hc, List.append_assoc]
    rw [hd] at hsub
    exact hsub

/-- C7 (amended): in the threaded modes, for every sequence of submits and
consumes from an empty well-formed queue in which no submit coalesces with
the oldest of three waiting entries, the frames consumed, in the order of
consumption, are a subsequence of the frames submitted, in the order of
submission. -/
theorem consumed_in_submission_order (s : RenderState) (ops : List QueueOp) (ht : threaded s)
    (hwf : (queue_slots s).Wf) (hempty : s.frame_queue_len = 0)
    (hok : order_kept ⟨s, [], []⟩ ops = true) :
    (queue_run ⟨s, [], []⟩ ops).consumed.Sublist (queue_run ⟨s, [], []⟩ ops).submitted := by
  have key : ∀ (ops : List QueueOp) (r : QueueRun), threaded r.state → (queue_slots r.state).Wf →
      (r.consumed ++ (queue_slots r.state).contents).Sublist r.submitted →
      order_kept r ops = true →
      ((queue_run r ops).consumed ++ (queue_slots (queue_run r ops).state).contents).Sublist
        (queue_run r ops).submitted := by
    intro ops
    induction ops with
    | nil => intro r _ _ h _; exact h
    | cons op ops ih =>
      intro r ht hwf hsub hok
      rw [queue_run_cons]
      obtain ⟨h1, h2, _⟩ := queue_step_cases r op ht hwf
      cases op with
      | submit f =>
        obtain ⟨hk1, hk2⟩ : coalesces_head_of_three r.state f.which = false ∧
            order_kept (queue_step r (QueueOp.submit f)) ops = true := by
          have h : (!coalesces_head_of_three r.state f.which &&
              order_kept (queue_step r (QueueOp.submit f)) ops) = true := hok
          rw [Bool.and_eq_true, Bool.not_eq_true'] at h
          exact h
        refine ih _ h1 h2 (queue_step_order r _ ht hwf hsub ?_) hk2
        intro g hg
        cases hg
        exact hk1
      | consume =>
        have hk2 : order_kept (queue_step r QueueOp.consume) ops = true := hok
        refine ih _ h1 h2 (queue_step_order r _ ht hwf hsub ?_) hk2
        intro g hg
        cases hg
  have h0 : (queue_slots s).contents = [] := by
    unfold Slots.contents
    have : (queue_slots s).len = 0 := hempty
    rw [this]; rfl
  have := key ops ⟨s, [], []⟩ ht hwf (by show ([] ++ (queue_slots s).contents).Sublist []; rw [h0]; exact List.Sublist.refl _) hok
  exact List.Sublist.trans (List.sublist_append_left _ _) this

/-- C6 (witness): three submits and two consumes from the empty queue. -/
theorem frame_queue_len_bounded_fields :
    0 ≤ (queue_run ⟨queue_start, [], []⟩ field_ops).state.frame_queue_len ∧
    (queue_run ⟨queue_start, [], []⟩ field_ops).state.frame_queue_len ≤ 4 :=
  frame_queue_len_bounded queue_start field_ops (by decide) (by decide)

/-- C7 (counterexample): with frames for the odd field, the even field and
the UI waiting, the submit of the next odd frame coalesces with the oldest
entry and moves the UI frame into its slot.  The buffers are submitted in
the order 10, 11, 12, 13 and consumed in the order 12, 11, 13: the UI frame
(12) comes out before the even frame (11) that was submitted before it. -/
theorem coalescing_reorders_queue :
    (queue_run ⟨queue_start, [], []⟩ reorder_ops).submitted.map (fun f => f.buffer)
      = [10, 11, 12, 13] ∧
    (queue_run ⟨queue_start, [], []⟩ reorder_ops).consumed.map (fun f => f.buffer)
      = [12, 11, 13] ∧
    ¬ (queue_run ⟨queue_start, [], []⟩ reorder_ops).consumed.Sublist
      (queue_run ⟨queue_start, [], []⟩ reorder_ops).submitted := by
  decide!

/-- C7 (witness): odd, even and odd again, then two consumes. -/
theorem consumed_in_submission_order_fields :
    (queue_run ⟨queue_start, [], []⟩ field_ops).consumed.Sublist
      (queue_run ⟨queue_start, [], []⟩ field_ops).submitted :=
  consumed_in_submission_order queue_start field_ops (by decide) (by decide) (by decide)
    (by decide!)

theorem release_buffer_counts (s : RenderState) (b : Nat) :
    (release_buffer s b).num_buffers = s.num_buffers + 1 ∧
    (release_buffer s b).callocs = s.callocs ∧
    (release_buffer s b).released = s.released ++ [b] := by
  unfold release_buffer
  by_cases h : s.num_buffers = s.buffer_storage
  · rw [if_pos h]; exact ⟨rfl, rfl, rfl⟩
  · rw [if_neg h]; exact ⟨rfl, rfl, rfl⟩

/-- The result of `render_get_framebuffer`, by cases on the pool. -/
theorem render_get_framebuffer_cases {s s' : RenderState} {b : Nat}
    (h : render_get_framebuffer s = some (b, s')) :
    threaded s ∧ s'.locked_pixels = b ∧ s'.sync_src = s.sync_src ∧
    ((s.num_buffers ≠ 0 ∧ s'.num_buffers = s.num_buffers - 1 ∧ s'.callocs = s.callocs ∧
        b = s.frame_buffers.getD (s.num_buffers - 1) 0) ∨
     (s.num_buffers = 0 ∧ s'.num_buffers = 0 ∧ s'.callocs = s.callocs + 1 ∧
        b = s.texture_buf + (s.callocs + 1))) := by
  unfold render_get_framebuffer at h
  by_cases ht : s.sync_src = SyncSrc.SYNC_AUDIO_THREAD ∨ s.sync_src = SyncSrc.SYNC_EXTERNAL
  · rw [if_pos ht] at h
    by_cases hn : s.num_buffers ≠ 0
    · rw [if_pos hn] at h
      obtain ⟨hb, hs⟩ := Prod.mk.inj (Option.some.inj h)
      subst hs
      exact ⟨ht, hb, rfl, Or.inl ⟨hn, rfl, rfl, hb.symm⟩⟩
    · rw [if_neg hn] at h
      obtain ⟨hb, hs⟩ := Prod.mk.inj (Option.some.inj h)
      subst hs
      exact ⟨ht, hb, rfl, Or.inr ⟨not_not.mp hn, not_not.mp hn, rfl, hb.symm⟩⟩
  · rw [if_neg ht] at h
    exact absurd h (by simp)

/-- One pool operation keeps the balance of buffers. -/
theorem pool_step_balance {r r' : PoolRun} {op : PoolOp} {k : Nat}
    (hbal : r.out.length + r.state.num_buffers = k + r.state.callocs)
    (h : pool_step r op = some r') :
    r'.out.length + r'.state.num_buffers = k + r'.state.callocs := by
  cases op with
  | get =>
    obtain ⟨⟨b, s'⟩, hg, hr⟩ := Option.map_eq_some'.mp h
    subst hr
    obtain ⟨_, _, _, h1 | h1⟩ := render_get_framebuffer_cases hg
    · obtain ⟨hn, e1, e2, _⟩ := h1
      show (b :: r.out).length + s'.num_buffers = k + s'.callocs
      rw [e1, e2, List.length_cons]
      omega
    · obtain ⟨hn, e1, e2, _⟩ := h1
      show (b :: r.out).length + s'.num_buffers = k + s'.callocs
      rw [e1, e2, List.length_cons]
      omega
  | release b =>
    have h' : (if b ∈ r.out then some (PoolRun.mk (release_buffer r.state b) (r.out.erase b))
        else none) = some r' := h
    by_cases hm : b ∈ r.out
    · rw [if_pos hm] at h'
      have hr := Option.some.inj h'
      subst hr
      obtain ⟨e1, e2, _⟩ := release_buffer_counts r.state b
      show (r.out.erase b).length + (release_buffer r.state b).num_buffers =
        k + (release_buffer r.state b).callocs
      rw [e1, e2, List.length_erase_of_mem hm]
      have : 0 < r.out.length := List.length_pos_of_mem hm
      omega
    · rw [if_neg hm] at h'
      exact absurd h' (by simp)

/-- C9: in every sequence of buffer requests (`render_get_framebuffer` in the
threaded modes) and returns (`release_buffer`) of buffers that are checked
out, starting with the one pooled texture buffer, the number of buffers
checked out plus `num_buffers` is the number of buffers ever allocated, the
pooled one and the `callocs` fresh ones. -/
theorem pool_conservation (s : RenderState) (ops : List PoolOp) (r : PoolRun)
    (hstart : s.num_buffers = 1 ∧ s.callocs = 0)
    (h : pool_run ⟨s, []⟩ ops = some r) :
    r.out.length + r.state.num_buffers = 1 + r.state.callocs := by
  have key : ∀ (ops : List PoolOp) (r0 r : PoolRun),
      r0.out.length + r0.state.num_buffers = 1 + r0.state.callocs →
      pool_run r0 ops = some r → r.out.length + r.state.num_buffers = 1 + r.state.callocs := by
    intro ops
    induction ops with
    | nil =>
      intro r0 r hb h
      have : r0 = r := Option.some.inj h
      rw [← this]; exact hb
    | cons op ops ih =>
      intro r0 r hb h
      obtain ⟨r1, h1, h2⟩ := Option.bind_eq_some.mp h
      exact ih r1 r (pool_step_balance hb h1) h2
  refine key ops ⟨s, []⟩ r ?_ h
  show ([] : List Nat).length + s.num_buffers = 1 + s.callocs
  rw [hstart.1, hstart.2]
  rfl

/-- C9 (witness): requests and returns on the pool after `window_setup`; at
the end of the run both buffers are back in the pool. -/
theorem pool_conservation_run :
    pool_run ⟨queue_start, []⟩ pool_ops = some pool_ops_result ∧
    pool_ops_result.out.length + pool_ops_result.state.num_buffers =
      1 + pool_ops_result.state.callocs ∧
    pool_ops_result.out = [] ∧ pool_ops_result.state.num_buffers = 2 :=
  have h : pool_run ⟨queue_start, []⟩ pool_ops = some pool_ops_result := by decide!
  ⟨h, pool_conservation queue_start pool_ops pool_ops_result (by decide) h, by decide!,
    by decide!⟩

theorem pool_view_release_buffer (s : RenderState) (b : Nat) :
    pool_view (release_buffer s b) = (pool_view s).release b := by
  unfold release_buffer Pool.release
  by_cases h : s.num_buffers = s.buffer_storage
  · have h' : (pool_view s).num = (pool_view s).storage := h
    rw [if_pos h, if_pos h']; rfl
  · have h' : ¬ (pool_view s).num = (pool_view s).storage := h
    rw [if_neg h, if_neg h']; rfl

theorem take_succ_set {α : Type} (l : List α) {i : Nat} (b : α) (h : i < l.length) :
    (l.set i b).take (i + 1) = l.take i ++ [b] := by
  rw [List.take_succ, take_set_of_le l b (le_refl i), List.getElem?_set_self h]
  rfl

/-- The pool is a stack: a release puts the buffer on top. -/
theorem Pool.release_free (p : Pool) (hwf : p.Wf) (b : Nat) :
    (p.release b).Wf ∧ (p.release b).free = p.free ++ [b] ∧
    (p.release b).released = p.released ++ [b] := by
  obtain ⟨h1, h2, h3⟩ := hwf
  unfold Pool.release
  by_cases h : p.num = p.storage
  · rw [if_pos h]
    have hlen : p.num < (p.buffers ++ List.replicate (p.storage * 2 - p.buffers.length) 0).length := by
      rw [List.length_append, List.length_replicate]; omega
    refine ⟨⟨?_, ?_, ?_⟩, ?_, rfl⟩
    · show ((p.buffers ++ List.replicate (p.storage * 2 - p.buffers.length) 0).set p.num b).length
        = p.storage * 2
      rw [List.length_set, List.length_append, List.length_replicate]; omega
    · show p.num + 1 ≤ p.storage * 2; omega
    · show 0 < p.storage * 2; omega
    · show ((p.buffers ++ List.replicate (p.storage * 2 - p.buffers.length) 0).set p.num b).take
        (p.num + 1) = p.buffers.take p.num ++ [b]
      rw [take_succ_set _ b hlen, List.take_append_of_le_length (by omega)]
  · rw [if_neg h]
    have hlen : p.num < p.buffers.length := by omega
    refine ⟨⟨?_, ?_, h3⟩, ?_, rfl⟩
    · show (p.buffers.set p.num b).length = p.storage
      rw [List.length_set]; exact h1
    · show p.num + 1 ≤ p.storage; omega
    · show (p.buffers.set p.num b).take (p.num + 1) = p.buffers.take p.num ++ [b]
      exact take_succ_set _ b hlen

theorem Pool.free_length (p : Pool) (hwf : p.Wf) : p.free.length = p.num := by
  obtain ⟨h1, h2, _⟩ := hwf
  unfold Pool.free
  rw [List.length_take]; omega

/-- The pool variables after `render_get_framebuffer`: the top of the stack
is handed out, or a fresh buffer when the stack is empty. -/
theorem render_get_framebuffer_pool {s s' : RenderState} {b : Nat} (hwf : (pool_view s).Wf)
    (h : render_get_framebuffer s = some (b, s')) :
    threaded s' ∧ queue_slots s' = queue_slots s ∧ s'.locked_pixels = b ∧
    s'.texture_buf = s.texture_buf ∧ (pool_view s').Wf ∧
    (pool_view s').released = (pool_view s).released ∧
    ((free_pool s = free_pool s' ++ [b] ∧ s'.callocs = s.callocs) ∨
     (free_pool s = [] ∧ free_pool s' = [] ∧ s'.callocs = s.callocs + 1 ∧
        b = s.texture_buf + (s.callocs + 1))) := by
  obtain ⟨h1, h2, h3⟩ := hwf
  unfold render_get_framebuffer at h
  by_cases ht : s.sync_src = SyncSrc.SYNC_AUDIO_THREAD ∨ s.sync_src = SyncSrc.SYNC_EXTERNAL
  · rw [if_pos ht] at h
    by_cases hn : s.num_buffers ≠ 0
    · rw [if_pos hn] at h
      obtain ⟨hb, hs⟩ := Prod.mk.inj (Option.some.inj h)
      subst hs
      have hn1 : s.num_buffers - 1 < s.frame_buffers.length := by
        have : s.frame_buffers.length = s.buffer_storage := h1
        have : s.num_buffers ≤ s.buffer_storage := h2
        omega
      refine ⟨ht, rfl, hb, rfl, ⟨h1, ?_, h3⟩, rfl, Or.inl ⟨?_, rfl⟩⟩
      · show s.num_buffers - 1 ≤ s.buffer_storage
        have : s.num_buffers ≤ s.buffer_storage := h2
        omega
      · show s.frame_buffers.take s.num_buffers = s.frame_buffers.take (s.num_buffers - 1) ++ [b]
        have e : s.num_buffers = (s.num_buffers - 1) + 1 := by omega
        rw [← hb]
        conv_lhs => rw [e]
        rw [List.take_succ, List.getElem?_eq_getElem hn1, List.getD_eq_getElem?_getD,
          List.getElem?_eq_getElem hn1]
        rfl
    · rw [if_neg hn] at h
      obtain ⟨hb, hs⟩ := Prod.mk.inj (Option.some.inj h)
      subst hs
      have hz : s.num_buffers = 0 := not_not.mp hn
      refine ⟨ht, rfl, hb, rfl, ⟨h1, h2, h3⟩, rfl, Or.inr ⟨?_, ?_, rfl, hb.symm⟩⟩
      · show s.frame_buffers.take s.num_buffers = []
        rw [hz]; rfl
      · show s.frame_buffers.take s.num_buffers = []
        rw [hz]; rfl
  · rw [if_neg ht] at h
    exact absurd h (by simp)

/-- The coalescing scan finds the first waiting entry with the identifier. -/
theorem scan_slots_eq_find (which : Nat) (fq : List Frame) (n : Nat) (cur : Int)
    (h0 : 0 ≤ cur) (h4 : cur < 4) :
    scan_slots which n cur fq =
      ((List.range n).map fun i : Nat => (cur + i) % 4).find?
        (fun c => decide ((fq.getD c.toNat ⟨0, 0, 0, []⟩).which = which)) := by
  induction n generalizing cur with
  | zero => rfl
  | succ n ih =>
    have hc : (cur + ((0 : Nat) : Int)) % 4 = cur := by
      simp only [Nat.cast_zero, add_zero]; omega
    rw [List.range_succ_eq_map, List.map_cons, List.map_map, List.find?_cons, hc]
    unfold scan_slots
    by_cases h : (fq.getD cur.toNat ⟨0, 0, 0, []⟩).which = which
    · rw [if_pos h, decide_eq_true h]
    · rw [if_neg h, decide_eq_false h, ih ((cur + 1) % 4) (by omega) (by omega)]
      congr 1
      apply List.map_congr_left
      intro i _
      show ((cur + 1) % 4 + (i : Int)) % 4 = (cur + ((i + 1 : Nat) : Int)) % 4
      push_cast
      omega

/-- The entry that the scan reports is the first waiting frame with the
identifier; it reports none when no waiting frame has it. -/
theorem Slots.scan_find (q : Slots) (hwf : q.Wf) (which : Nat) :
    q.contents.find? (fun f => decide (f.which = which)) =
      (scan_slots which q.len.toNat q.read q.slots).map q.slot := by
  obtain ⟨_, hr0, hr1, _, _, _⟩ := hwf
  rw [scan_slots_eq_find which q.slots _ _ hr0 hr1]
  unfold Slots.contents
  have e : (List.range q.len.toNat).map (fun i : Nat => q.slot ((q.read + (i : Int)) % 4)) =
      ((List.range q.len.toNat).map fun i : Nat => (q.read + i) % 4).map q.slot := by
    rw [List.map_map]; rfl
  rw [e, List.find?_map]
  rfl

/-- The pool variables after the coalescing of the entry in slot `cur`. -/
theorem coalesce_entry_pool (s : RenderState) (cur : Int) :
    pool_view (coalesce_entry s cur) = (pool_view s).release (queue_at s cur).buffer ∧
    (coalesce_entry s cur).callocs = s.callocs ∧
    (coalesce_entry s cur).texture_buf = s.texture_buf := by
  have hp := pool_view_release_buffer { s with frame_queue_len := s.frame_queue_len - 1 }
    (queue_at { s with frame_queue_len := s.frame_queue_len - 1 } cur).buffer
  obtain ⟨_, _, _, _, _, _, r7, r8⟩ :=
    release_buffer_queue { s with frame_queue_len := s.frame_queue_len - 1 }
      (queue_at { s with frame_queue_len := s.frame_queue_len - 1 } cur).buffer
  by_cases hl : (s.frame_queue_write - 1) % 4 ≠ cur
  · have e : coalesce_entry s cur =
        { release_buffer { s with frame_queue_len := s.frame_queue_len - 1 }
            (queue_at { s with frame_queue_len := s.frame_queue_len - 1 } cur).buffer with
          frame_queue :=
            (release_buffer { s with frame_queue_len := s.frame_queue_len - 1 }
              (queue_at { s with frame_queue_len := s.frame_queue_len - 1 } cur).buffer).frame_queue.set
              cur.toNat
              (queue_at (release_buffer { s with frame_queue_len := s.frame_queue_len - 1 }
                (queue_at { s with frame_queue_len := s.frame_queue_len - 1 } cur).buffer)
                ((s.frame_queue_write - 1) % 4))
          frame_queue_write := (s.frame_queue_write - 1) % 4 } := by
      unfold coalesce_entry
      exact congrArg (fun x : RenderState =>
        { x with frame_queue_write := (s.frame_queue_write - 1) % 4 }) (if_pos hl)
    rw [e]
    exact ⟨hp, r7, r8⟩
  · have e : coalesce_entry s cur =
        { release_buffer { s with frame_queue_len := s.frame_queue_len - 1 }
            (queue_at { s with frame_queue_len := s.frame_queue_len - 1 } cur).buffer with
          frame_queue_write := (s.frame_queue_write - 1) % 4 } := by
      unfold coalesce_entry
      exact congrArg (fun x : RenderState =>
        { x with frame_queue_write := (s.frame_queue_write - 1) % 4 }) (if_neg hl)
    rw [e]
    exact ⟨hp, r7, r8⟩

/-- The pool variables after a submit in the threaded modes: the buffer of
the first waiting frame with the same identifier, if there is one, has been
released. -/
theorem render_framebuffer_updated_pool (s s' : RenderState) (ht : threaded s)
    (hwf : (queue_slots s).Wf) (which : Nat) (width : Int) (memory : Option (List Nat))
    (es : List Effect) (h : render_framebuffer_updated s which width memory = some (s', es)) :
    s'.callocs = s.callocs ∧ s'.texture_buf = s.texture_buf ∧
    s'.locked_pixels = s.locked_pixels ∧
    pool_view s' =
      match (queue_slots s).contents.find? (fun f => decide (f.which = which)) with
      | none => pool_view s
      | some f => (pool_view s).release f.buffer := by
  have ht' : s.sync_src = SyncSrc.SYNC_AUDIO_THREAD ∨ s.sync_src = SyncSrc.SYNC_EXTERNAL := ht
  unfold render_framebuffer_updated at h
  rw [if_pos ht'] at h
  by_cases hlen : s.frame_queue_len = 4
  · rw [if_pos hlen] at h
    exact absurd h (by simp)
  · rw [if_neg hlen] at h
    obtain ⟨hs, _⟩ := Prod.mk.inj (Option.some.inj h)
    subst hs
    rw [Slots.scan_find _ hwf, coalesce_scan_eq]
    have e1 : (queue_slots s).len = s.frame_queue_len := rfl
    have e2 : (queue_slots s).read = s.frame_queue_read := rfl
    have e3 : (queue_slots s).slots = s.frame_queue := rfl
    rw [e1, e2, e3]
    cases hsc : scan_slots which s.frame_queue_len.toNat s.frame_queue_read s.frame_queue with
    | none => exact ⟨rfl, rfl, rfl, rfl⟩
    | some c =>
      obtain ⟨p1, p2, p3⟩ := coalesce_entry_pool s c
      obtain ⟨_, f2, _⟩ := coalesce_entry_fields s c
      exact ⟨p2, p3, f2, p1⟩

theorem Slots.len_eq_length (q : Slots) (hwf : q.Wf) : q.len = (q.contents.length : Int) := by
  obtain ⟨_, _, _, hl0, _, _⟩ := hwf
  unfold Slots.contents
  rw [List.length_map, List.length_range]
  omega

theorem render_get_framebuffer_some (s : RenderState) (ht : threaded s) :
    ∃ b s', render_get_framebuffer s = some (b, s') := by
  have ht' : s.sync_src = SyncSrc.SYNC_AUDIO_THREAD ∨ s.sync_src = SyncSrc.SYNC_EXTERNAL := ht
  unfold render_get_framebuffer
  rw [if_pos ht']
  by_cases hn : s.num_buffers ≠ 0
  · rw [if_pos hn]; exact ⟨_, _, rfl⟩
  · rw [if_neg hn]; exact ⟨_, _, rfl⟩

/-- A submit, in a threaded mode, of a frame whose identifier no waiting
frame but possibly the only one has: afterwards exactly the new frame is
waiting, and the buffer of the frame it has replaced is back on the pool. -/
theorem submit_replaces_single (s : RenderState) (which : Nat) (width : Int)
    (memory : Option (List Nat)) (ht : threaded s) (hwf : (queue_slots s).Wf)
    (hpool : (pool_view s).Wf) (old : List Frame) (hc : queue_contents s = old)
    (hold : old = [] ∨ ∃ f, old = [f] ∧ f.which = which) :
    ∃ s', (render_framebuffer_updated s which width memory).map (fun q => q.1) = some s' ∧
      threaded s' ∧ (queue_slots s').Wf ∧ s'.frame_queue_len = 1 ∧
      (∃ f, queue_contents s' = [f] ∧ f.which = which ∧ f.buffer = s.locked_pixels ∧
        f.width = width) ∧
      s'.locked_pixels = s.locked_pixels ∧ s'.callocs = s.callocs ∧
      s'.texture_buf = s.texture_buf ∧ (pool_view s').Wf ∧
      free_pool s' = free_pool s ++ old.map (fun f => f.buffer) ∧
      s'.released = s.released ++ old.map (fun f => f.buffer) := by
  have hc' : (queue_slots s).contents = old := hc
  have hlen : (queue_slots s).len = (old.length : Int) := by
    rw [Slots.len_eq_length _ hwf, hc']
  have hlen1 : (queue_slots s).len ≤ 1 := by
    rw [hlen]
    rcases hold with h | ⟨f, h, _⟩ <;> rw [h] <;> simp
  have hne4 : s.frame_queue_len ≠ 4 := by
    have : s.frame_queue_len ≤ 1 := hlen1
    omega
  have hnb : ¬ ((queue_slots s).len = 3 ∧
      ((queue_slots s).slot (queue_slots s).read).which = which) := by
    intro h
    have := h.1
    omega
  obtain ⟨s', hs', hq, hsync⟩ :=
    (render_framebuffer_updated_threaded s ht which width memory).2 hne4
  obtain ⟨p1, p2, p3, p4⟩ :=
    render_framebuffer_updated_pool s s' ht hwf which width memory _ hs'
  have hwf' : (queue_slots s').Wf := by
    rw [hq]; exact Slots.submit_wf _ hwf hne4 _ _ _ _
  have hcont : (queue_slots s').contents =
      [((queue_slots s).coalesce which).new_frame s.locked_pixels which width memory] := by
    rw [hq, Slots.contents_submit _ hwf hne4 _ _ _ _ hnb, hc']
    rcases hold with h | ⟨f, h, hf⟩
    · rw [h]; rfl
    · rw [h, List.eraseP_cons_of_pos (by rw [decide_eq_true hf])]
      rfl
  have hlen' : s'.frame_queue_len = 1 := by
    have h1 := Slots.len_eq_length _ hwf'
    rw [hcont] at h1
    exact h1
  have hfind : (queue_slots s).contents.find? (fun f => decide (f.which = which)) = old.head? := by
    rw [hc']
    rcases hold with h | ⟨f, h, hf⟩
    · rw [h]; rfl
    · rw [h, List.find?_cons_of_pos _ (by rw [decide_eq_true hf])]
      rfl
  rw [hfind] at p4
  refine ⟨s', by rw [hs']; rfl, ?_, hwf', hlen', ⟨_, hcont, rfl, rfl, rfl⟩, p3, p1, p2, ?_⟩
  · show s'.sync_src = _ ∨ s'.sync_src = _
    rw [hsync]; exact ht
  · rcases hold with h | ⟨f, h, hf⟩
    · subst h
      have p4' : pool_view s' = pool_view s := p4
      have hfree : free_pool s' = free_pool s := by unfold free_pool; rw [p4']
      have hrel : s'.released = s.released := congrArg Pool.released p4'
      refine ⟨by rw [p4']; exact hpool, ?_, ?_⟩
      · rw [hfree]; simp
      · rw [hrel]; simp
    · subst h
      have p4' : pool_view s' = (pool_view s).release f.buffer := p4
      obtain ⟨w1, w2, w3⟩ := Pool.release_free _ hpool f.buffer
      refine ⟨by rw [p4']; exact w1, ?_, ?_⟩
      · show (pool_view s').free = _
        rw [p4', w2]; rfl
      · show (pool_view s').released = _
        rw [p4', w3]; rfl

theorem fresh_buffers_self (s0 : RenderState) : fresh_buffers s0 s0.callocs = [] := by
  unfold fresh_buffers
  rw [Nat.sub_self]
  rfl

theorem fresh_buffers_succ (s0 : RenderState) {c : Nat} (h : s0.callocs ≤ c) :
    fresh_buffers s0 (c + 1) = fresh_buffers s0 c ++ [s0.texture_buf + (c + 1)] := by
  unfold fresh_buffers
  rw [show c + 1 - s0.callocs = (c - s0.callocs) + 1 by omega, List.range_succ, List.map_append]
  congr 1
  show [s0.texture_buf + (s0.callocs + 1 + (c - s0.callocs))] = _
  rw [show s0.callocs + 1 + (c - s0.callocs) = c + 1 by omega]

/-- What `render_get_framebuffer` leaves of the free pool is the pool without
its top. -/
theorem free_pool_after_get {s s1 : RenderState} {b : Nat}
    (g7 : (free_pool s = free_pool s1 ++ [b] ∧ s1.callocs = s.callocs) ∨
      (free_pool s = [] ∧ free_pool s1 = [] ∧ s1.callocs = s.callocs + 1 ∧
        b = s.texture_buf + (s.callocs + 1))) :
    free_pool s1 = (free_pool s).dropLast := by
  rcases g7 with ⟨e1, _⟩ | ⟨e1, e2, _, _⟩
  · rw [e1, List.dropLast_concat]
  · rw [e1, e2]; rfl

theorem getD_append_three (pre : List Nat) (a q b : Nat) :
    (pre ++ [a, q, b]).getD (pre.length + 2) 0 = b ∧ (pre ++ [a, q, b]).getD pre.length 0 = a := by
  induction pre with
  | nil => exact ⟨rfl, rfl⟩
  | cons x pre ih => exact ih

theorem submit_round_first (s0 : RenderState) (ht : threaded s0) (hwf : (queue_slots s0).Wf)
    (hlen : s0.frame_queue_len = 0) (hp : (pool_view s0).Wf) (which : Nat)
    (width : Int) (memory : Option (List Nat)) :
    ∃ b s, submit_round s0 which width memory = some (b, s) ∧
      AfterRounds s0 which [b] width s := by
  obtain ⟨b, s1, hg⟩ := render_get_framebuffer_some s0 ht
  obtain ⟨g1, g2, g3, g4, g5, g6, g7⟩ := render_get_framebuffer_pool hp hg
  have hwf1 : (queue_slots s1).Wf := by rw [g2]; exact hwf
  have hc1 : queue_contents s1 = [] := by
    show (queue_slots s1).contents = []
    rw [g2]
    have h1 := Slots.len_eq_length _ hwf
    have h2 : (queue_slots s0).len = 0 := hlen
    rw [h2] at h1
    exact List.length_eq_zero.mp (by exact_mod_cast h1.symm)
  obtain ⟨s', e, t1, t2, t3, ⟨f, c1, c2, c3, c4⟩, t5, t6, t7, t8, t9, t10⟩ :=
    submit_replaces_single s1 which width memory g1 hwf1 g5 [] hc1 (Or.inl rfl)
  obtain ⟨q, hq, hq1⟩ := Option.map_eq_some'.mp e
  have hrel1 : s1.released = s0.released := g6
  have hfree : free_pool s' = free_pool s1 := by rw [t9]; simp
  refine ⟨b, s', ?_, t1, t2, t3, ⟨f, c1, c2, ?_, ?_, c4⟩, t8, ?_, ?_, ?_, ?_, ?_, ?_, ?_⟩
  · unfold submit_round
    rw [hg]
    show (render_framebuffer_updated s1 which width memory).map _ = _
    rw [hq, ← hq1]; rfl
  · rw [c3, g3]; rfl
  · rw [c3, t5]
  · rw [t10, hrel1]; rfl
  · rw [t9, t6]
    rcases g7 with ⟨e1, e2⟩ | ⟨e1, e2, e3, _⟩
    · rw [e1, e2]; simp
    · rw [e1, e2, e3]; simp; omega
  · rw [t7, g4]
  · rw [t6]
    rcases g7 with ⟨_, e2⟩ | ⟨_, _, e3, _⟩ <;> omega
  · exact Or.inl ⟨b, rfl, by rw [hfree]; exact free_pool_after_get g7⟩
  · intro k hk
    simp at hk
  · intro q hq'
    have hqb : q = b := by
      have : some b = some q := hq'
      exact (Option.some.inj this).symm
    subst hqb
    rw [hfree, t6]
    rcases g7 with ⟨e1, e2⟩ | ⟨e1, e2, e3, e4⟩
    · rw [e2, fresh_buffers_self, List.append_nil, e1]
      exact (List.perm_append_singleton _ _).symm
    · rw [e2, e1, e3, fresh_buffers_succ s0 (le_refl _), fresh_buffers_self, e4]
      exact List.Perm.refl _

theorem submit_round_next (s0 s : RenderState) (which : Nat) (bs : List Nat) (w : Int)
    (h : AfterRounds s0 which bs w s) (width : Int) (memory : Option (List Nat)) :
    ∃ b s', submit_round s which width memory = some (b, s') ∧
      AfterRounds s0 which (bs ++ [b]) width s' := by
  obtain ⟨ht, hwf, hlen, ⟨f, hc, hfw, hfb, hfl, hfwd⟩, hp, hrel, hcount, htb, hcal, hpool, halt,
    hperm⟩ := h
  obtain ⟨b, s1, hg⟩ := render_get_framebuffer_some s ht
  obtain ⟨g1, g2, g3, g4, g5, g6, g7⟩ := render_get_framebuffer_pool hp hg
  have hwf1 : (queue_slots s1).Wf := by rw [g2]; exact hwf
  have hc1 : queue_contents s1 = [f] := by
    show (queue_slots s1).contents = [f]
    rw [g2]; exact hc
  obtain ⟨s', e, t1, t2, t3, ⟨f', c1, c2, c3, c4⟩, t5, t6, t7, t8, t9, t10⟩ :=
    submit_replaces_single s1 which width memory g1 hwf1 g5 [f] hc1 (Or.inr ⟨f, rfl, hfw⟩)
  obtain ⟨q, hq, hq1⟩ := Option.map_eq_some'.mp e
  have hrel1 : s1.released = s.released := g6
  have hfree : free_pool s' = (free_pool s).dropLast ++ [f.buffer] := by
    rw [t9, free_pool_after_get g7]; rfl
  have hbs : bs = bs.dropLast ++ [f.buffer] :=
    (List.dropLast_append_getLast? f.buffer (by rw [hfb]; exact rfl)).symm
  refine ⟨b, s', ?_, t1, t2, t3, ⟨f', c1, c2, ?_, ?_, c4⟩, t8, ?_, ?_, ?_, ?_, ?_, ?_, ?_⟩
  · unfold submit_round
    rw [hg]
    show (render_framebuffer_updated s1 which width memory).map _ = _
    rw [hq, ← hq1]; rfl
  · rw [c3, g3, List.getLast?_append]; rfl
  · rw [c3, t5]
  · rw [t10, hrel1, hrel, List.dropLast_concat, List.append_assoc]
    show _ ++ (bs.dropLast ++ [f.buffer]) = _
    rw [← hbs]
  · rw [t9, t6]
    rcases g7 with ⟨e1, e2⟩ | ⟨e1, e2, e3, _⟩
    · rw [e1] at hcount
      rw [e2]
      simp at hcount ⊢
      omega
    · rw [e1] at hcount
      rw [e2, e3]
      simp at hcount ⊢
      omega
  · rw [t7, g4, htb]
  · rw [t6]
    rcases g7 with ⟨_, e2⟩ | ⟨_, _, e3, _⟩ <;> omega
  · right
    rcases hpool with ⟨b0, hb0, hf0⟩ | ⟨pre, a, q0, hb0, hf0⟩
    · have hfb0 : f.buffer = b0 := by
        rw [hb0] at hfb
        exact (Option.some.inj hfb).symm
      refine ⟨[], b0, b, by rw [hb0]; rfl, ?_⟩
      rw [hfree, hf0, hfb0]
    · have hfq : f.buffer = q0 := by
        rw [hb0, show pre ++ [a, q0] = (pre ++ [a]) ++ [q0] by simp, List.getLast?_concat] at hfb
        exact (Option.some.inj hfb).symm
      refine ⟨pre ++ [a], q0, b, by rw [hb0]; simp, ?_⟩
      rw [hfree, hf0, List.dropLast_concat, hfq]
  · intro k hk
    rw [List.length_append, List.length_singleton] at hk
    by_cases hk2 : k + 2 < bs.length
    · rw [List.getD_append _ _ _ _ hk2, List.getD_append _ _ _ _ (by omega)]
      exact halt k hk2
    · have hkl : bs.length = k + 2 := by omega
      rcases hpool with ⟨b0, hb0, _⟩ | ⟨pre, a, q0, hb0, hf0⟩
      · rw [hb0] at hkl
        simp at hkl
      · have hpl : pre.length = k := by
          rw [hb0] at hkl
          simp at hkl
          exact hkl
        have hba : b = a := by
          rcases g7 with ⟨e1, _⟩ | ⟨e1, _⟩
          · rw [hf0] at e1
            exact (List.append_inj_right' e1 rfl |> List.singleton_inj.mp).symm
          · rw [hf0] at e1
            exact absurd e1 (by simp)
        subst hba
        subst hpl
        rw [hb0, show pre ++ [b, q0] ++ [b] = pre ++ [b, q0, b] by simp]
        obtain ⟨x1, x2⟩ := getD_append_three pre b q0 b
        rw [x1, x2]
  · intro q' hq'
    have hqb : q' = b := by
      rw [List.getLast?_concat] at hq'
      exact (Option.some.inj hq').symm
    subst hqb
    have hprev := hperm f.buffer hfb
    rw [hfree, t6]
    rcases g7 with ⟨e1, e2⟩ | ⟨e1, e2, e3, e4⟩
    · rw [e2]
      rw [e1] at hprev
      rw [e1, List.dropLast_concat]
      refine List.Perm.trans ?_ hprev
      have p1 : (q' :: (free_pool s1 ++ [f.buffer])).Perm (q' :: f.buffer :: free_pool s1) :=
        List.Perm.cons _ (List.perm_append_singleton _ _)
      have p2 : (f.buffer :: (free_pool s1 ++ [q'])).Perm (f.buffer :: q' :: free_pool s1) :=
        List.Perm.cons _ (List.perm_append_singleton _ _)
      exact (p1.trans (List.Perm.swap _ _ _)).trans p2.symm
    · rw [e3, fresh_buffers_succ s0 hcal, ← List.append_assoc]
      rw [e1] at hprev ⊢
      rw [htb] at e4
      rw [e4]
      have p1 : ((s0.texture_buf + (s.callocs + 1)) :: ([].dropLast ++ [f.buffer])).Perm
          ([f.buffer] ++ [s0.texture_buf + (s.callocs + 1)]) := List.Perm.swap _ _ _
      exact p1.trans (List.Perm.append_right _ hprev)

theorem submit_rounds_after (s0 : RenderState) (which : Nat)
    (fs : List (Int × Option (List Nat))) :
    ∀ (s : RenderState) (bs : List Nat) (w : Int), AfterRounds s0 which bs w s →
      ∃ cs s', submit_rounds s which fs = some (cs, s') ∧ cs.length = fs.length ∧
        AfterRounds s0 which (bs ++ cs) ((fs.map fun f => f.1).getLastD w) s' := by
  induction fs with
  | nil =>
    intro s bs w h
    exact ⟨[], s, rfl, rfl, by rw [List.append_nil]; exact h⟩
  | cons f fs ih =>
    intro s bs w h
    obtain ⟨b, s1, e1, a1⟩ := submit_round_next s0 s which bs w h f.1 f.2
    obtain ⟨cs, s2, e2, l2, a2⟩ := ih s1 (bs ++ [b]) f.1 a1
    refine ⟨b :: cs, s2, ?_, ?_, ?_⟩
    · show (submit_round s which f.1 f.2).bind _ = _
      rw [e1]
      show (submit_rounds s1 which fs).map _ = _
      rw [e2]; rfl
    · rw [List.length_cons, List.length_cons, l2]
    · have hw : ((f :: fs).map fun f => f.1).getLastD w = (fs.map fun f => f.1).getLastD f.1 := by
        cases fs <;> rfl
      rw [hw]
      have hb : bs ++ b :: cs = bs ++ [b] ++ cs := by simp
      rw [hb]; exact a2

/-- Rounds run one after the other: the rounds of a list that is split in two
are the rounds of the first part followed by those of the second. -/
theorem submit_rounds_append (which : Nat) (fs1 fs2 : List (Int × Option (List Nat))) :
    ∀ s : RenderState, submit_rounds s which (fs1 ++ fs2) =
      (submit_rounds s which fs1).bind fun r =>
        (submit_rounds r.2 which fs2).map fun t => (r.1 ++ t.1, t.2) := by
  induction fs1 with
  | nil =>
    intro s
    show submit_rounds s which fs2 = (submit_rounds s which fs2).map fun t => ([] ++ t.1, t.2)
    cases submit_rounds s which fs2 <;> rfl
  | cons f fs1 ih =>
    intro s
    show (submit_round s which f.1 f.2).bind _ = ((submit_round s which f.1 f.2).bind _).bind _
    cases h1 : submit_round s which f.1 f.2 with
    | none => rfl
    | some r =>
      show (submit_rounds r.2 which (fs1 ++ fs2)).map _ =
        ((submit_rounds r.2 which fs1).map _).bind _
      rw [ih r.2]
      cases h2 : submit_rounds r.2 which fs1 with
      | none => rfl
      | some t =>
        show ((submit_rounds t.2 which fs2).map _).map _ = (submit_rounds t.2 which fs2).map _
        cases h3 : submit_rounds t.2 which fs2 with
        | none => rfl
        | some u => rfl

/-- The state after a non-empty list of rounds from an empty queue. -/
theorem submit_rounds_invariant (s0 : RenderState) (which : Nat)
    (fs : List (Int × Option (List Nat))) (ht : threaded s0)
    (hwf : (queue_slots s0).Wf) (hlen : s0.frame_queue_len = 0)
    (hp : (pool_view s0).Wf) (hfs : fs ≠ []) :
    ∃ bs s w, submit_rounds s0 which fs = some (bs, s) ∧ bs.length = fs.length ∧
      (fs.map fun x => x.1).getLast? = some w ∧ AfterRounds s0 which bs w s := by
  cases fs with
  | nil => exact absurd rfl hfs
  | cons f0 fs =>
    obtain ⟨b, s1, e1, a1⟩ := submit_round_first s0 ht hwf hlen hp which f0.1 f0.2
    obtain ⟨cs, s2, e2, l2, a2⟩ := submit_rounds_after s0 which fs s1 [b] f0.1 a1
    refine ⟨b :: cs, s2, _, ?_, ?_, ?_, a2⟩
    · show (submit_round s0 which f0.1 f0.2).bind _ = _
      rw [e1]
      show (submit_rounds s1 which fs).map _ = _
      rw [e2]; rfl
    · rw [List.length_cons, List.length_cons, l2]
    · show ((f0.1 :: fs.map fun x => x.1)).getLast? = _
      rw [List.getLast?_cons, List.getLastD_eq_getLast?]

theorem getD_append_two (pre : List Nat) (a q : Nat) :
    (pre ++ [a, q]).getD pre.length 0 = a := by
  induction pre with
  | nil => rfl
  | cons x pre ih => exact ih

/-- C8: in the threaded modes, from any state with an empty frame queue, `n ≥ 1`
consecutive rounds (request a buffer, submit it) with the same framebuffer
identifier and no consume in between all go through, and afterwards the queue
holds exactly one entry: it has that identifier, the width of the last frame
and the buffer of the last frame.  The calls of `release_buffer` made are
exactly one for the buffer of each of the `n - 1` earlier frames, in order,
and each of them puts the buffer on the free pool: after the `k`-th
submission (`k ≥ 2`) the buffer of frame `k - 1` is on top of the pool, and
at the end the pool holds the buffers it held at the start except the two on
top (one after a single round), with the buffer of the frame before the last
on top of them.  A buffer so returned is the one handed out in the round after
the next.  No buffer is lost: the buffer in the queue and the buffers in the
free pool are, each once, the buffers that the pool held at the start and
those obtained from `calloc` since. -/
theorem coalescing_keeps_latest (s0 : RenderState) (which : Nat)
    (fs : List (Int × Option (List Nat))) (ht : threaded s0)
    (hwf : (queue_slots s0).Wf) (hlen : s0.frame_queue_len = 0)
    (hp : (pool_view s0).Wf) (hfs : fs ≠ []) :
    ∃ bs s, submit_rounds s0 which fs = some (bs, s) ∧ bs.length = fs.length ∧
      s.frame_queue_len = 1 ∧
      (∃ f, queue_contents s = [f] ∧ f.which = which ∧ bs.getLast? = some f.buffer ∧
        (fs.map fun x => x.1).getLast? = some f.width ∧
        (f.buffer :: free_pool s).Perm (free_pool s0 ++ fresh_buffers s0 s.callocs)) ∧
      s.released = s0.released ++ bs.dropLast ∧
      (free_pool s).length + 1 + s0.callocs = (free_pool s0).length + s.callocs ∧
      (bs.length = 1 → free_pool s = (free_pool s0).dropLast) ∧
      (∀ a, bs.dropLast.getLast? = some a →
        free_pool s = (free_pool s0).dropLast.dropLast ++ [a]) ∧
      (∀ k, 2 ≤ k → k ≤ fs.length →
        ∃ sk, submit_rounds s0 which (fs.take k) = some (bs.take k, sk) ∧
          (free_pool sk).getLast? = some (bs.getD (k - 2) 0)) ∧
      (∀ k, k + 2 < bs.length → bs.getD (k + 2) 0 = bs.getD k 0) := by
  obtain ⟨bs, s, w, e, l, hw, a⟩ := submit_rounds_invariant s0 which fs ht hwf hlen hp hfs
  obtain ⟨_, _, h3, ⟨f, c1, c2, c3, _, c5⟩, _, h6, h7, _, _, hpool, halt, hperm⟩ := a
  refine ⟨bs, s, e, l, h3, ⟨f, c1, c2, c3, by rw [hw, c5], hperm f.buffer c3⟩, h6, h7, ?_, ?_, ?_,
    halt⟩
  · intro h1
    rcases hpool with ⟨b0, _, hf0⟩ | ⟨pre, a, q, hb0, _⟩
    · exact hf0
    · rw [hb0] at h1
      simp at h1
  · intro a ha
    rcases hpool with ⟨b0, hb0, _⟩ | ⟨pre, a', q, hb0, hf0⟩
    · rw [hb0] at ha
      exact absurd ha (by simp)
    · rw [hb0, show pre ++ [a', q] = (pre ++ [a']) ++ [q] by simp, List.dropLast_concat,
        List.getLast?_concat] at ha
      rw [hf0, Option.some.inj ha]
  · intro k hk2 hkl
    have hne : fs.take k ≠ [] := by
      intro h0
      rcases List.take_eq_nil_iff.mp h0 with h | h
      · omega
      · exact hfs h
    obtain ⟨bs1, sk, w1, e1, l1, _, a1⟩ :=
      submit_rounds_invariant s0 which (fs.take k) ht hwf hlen hp hne
    have hl1 : bs1.length = k := by rw [l1, List.length_take]; omega
    have happ := submit_rounds_append which (fs.take k) (fs.drop k) s0
    rw [List.take_append_drop, e, e1] at happ
    obtain ⟨t, _, ht2⟩ := Option.map_eq_some'.mp happ.symm
    have hbs : bs = bs1 ++ t.1 := (Prod.mk.inj ht2).1.symm
    have htake : bs.take k = bs1 := by rw [hbs, ← hl1, List.take_left']; rfl
    obtain ⟨_, _, _, _, _, _, _, _, _, hpool1, _, _⟩ := a1
    rcases hpool1 with ⟨b0, hb0, _⟩ | ⟨pre, a', q, hb0, hf0⟩
    · rw [hb0] at hl1
      simp at hl1
      omega
    · have hpl : pre.length = k - 2 := by
        rw [hb0] at hl1
        simp at hl1
        omega
      refine ⟨sk, by rw [htake]; exact e1, ?_⟩
      rw [hf0, List.getLast?_concat, hbs, List.getD_append _ _ _ _ (by omega), hb0, ← hpl,
        getD_append_two]

theorem coalescing_keeps_latest_five :
    (threaded queue_start ∧ (queue_slots queue_start).Wf ∧ queue_start.frame_queue_len = 0 ∧
      (pool_view queue_start).Wf ∧ five_frames ≠ []) ∧
    (∃ bs s, submit_rounds queue_start FRAMEBUFFER_ODD five_frames = some (bs, s) ∧
      bs.length = five_frames.length ∧ s.frame_queue_len = 1 ∧
      (∃ f, queue_contents s = [f] ∧ f.which = FRAMEBUFFER_ODD ∧
        bs.getLast? = some f.buffer ∧
        (five_frames.map fun x => x.1).getLast? = some f.width ∧
        (f.buffer :: free_pool s).Perm
          (free_pool queue_start ++ fresh_buffers queue_start s.callocs)) ∧
      s.released = queue_start.released ++ bs.dropLast ∧
      (free_pool s).length + 1 + queue_start.callocs =
        (free_pool queue_start).length + s.callocs ∧
      (bs.length = 1 → free_pool s = (free_pool queue_start).dropLast) ∧
      (∀ a, bs.dropLast.getLast? = some a →
        free_pool s = (free_pool queue_start).dropLast.dropLast ++ [a]) ∧
      (∀ k, 2 ≤ k → k ≤ five_frames.length →
        ∃ sk, submit_rounds queue_start FRAMEBUFFER_ODD (five_frames.take k) =
            some (bs.take k, sk) ∧
          (free_pool sk).getLast? = some (bs.getD (k - 2) 0)) ∧
      (∀ k, k + 2 < bs.length → bs.getD (k + 2) 0 = bs.getD k 0)) ∧
    (submit_rounds queue_start FRAMEBUFFER_ODD five_frames).map
        (fun r => (r.1, (queue_contents r.2).map (fun f => f.buffer), free_pool r.2,
          r.2.released, r.2.callocs)) =
      some ([1, 2, 1, 2, 1], [1], [2], [1, 2, 1, 2], 1) ∧
    free_pool queue_start = [1] ∧ queue_start.released = [] ∧ queue_start.callocs = 0 :=
  ⟨by decide!,
    coalescing_keeps_latest queue_start FRAMEBUFFER_ODD five_frames (by decide!) (by decide!)
      (by decide!) (by decide!) (by decide),
    by decide!, by decide!, by decide!, by decide!⟩

theorem cast_ne_nan (f : FloatFormat) {x : FP} (h : x ≠ FP.nan) : FP.cast f x ≠ FP.nan := by
  cases x with
  | nan => exact absurd rfl h
  | inf n => simp [FP.cast]
  | zero n => simp [FP.cast]
  | fin q => exact round_ne_nan f q

theorem div_fin_ne_nan (f : FloatFormat) {x : FP} (h : x ≠ FP.nan) (q : ℚ) :
    FP.div f x (FP.fin q) ≠ FP.nan := by
  cases x with
  | nan => exact absurd rfl h
  | inf n => simp [FP.div]
  | zero n => simp [FP.div]
  | fin p => exact round_ne_nan f _

theorem fin_mul_ne_nan (f : FloatFormat) (q : ℚ) {y : FP} (h : y ≠ FP.nan) :
    FP.mul f (FP.fin q) y ≠ FP.nan := by
  cases y with
  | nan => exact absurd rfl h
  | inf n => simp [FP.mul]
  | zero n => simp [FP.mul]
  | fin p => exact round_ne_nan f _

theorem lt_nan_left (y : FP) : FP.lt FP.nan y = false := by
  cases y <;> rfl

theorem lt_nan_right (x : FP) : FP.lt x FP.nan = false := by
  cases x <;> rfl

theorem div_nan_right (f : FloatFormat) (x : FP) : FP.div f x FP.nan = FP.nan := by
  cases x <;> rfl

/-- The clamp `if (fabsf(x) > m) x = x > 0 ? m : -m;` leaves a number that
is not a NaN between `-m` and `m`. -/
theorem clamp_within {m : ℚ} (hm : 0 < m) {x : FP} (hx : x ≠ FP.nan) :
    FP.le (FP.neg (FP.fin m))
        (if FP.lt (FP.fin m) (FP.abs x) then
          (if FP.lt (FP.zero false) x then FP.fin m else FP.neg (FP.fin m))
         else x) = true ∧
    FP.le
        (if FP.lt (FP.fin m) (FP.abs x) then
          (if FP.lt (FP.zero false) x then FP.fin m else FP.neg (FP.fin m))
         else x) (FP.fin m) = true := by
  have h1 : FP.le (FP.neg (FP.fin m)) (FP.fin m) = true := by
    simp only [FP.neg, FP.le, decide_eq_true_eq]; linarith
  have h2 : FP.le (FP.fin m) (FP.fin m) = true := by
    simp only [FP.le, decide_eq_true_eq, le_refl]
  have h3 : FP.le (FP.neg (FP.fin m)) (FP.neg (FP.fin m)) = true := by
    simp only [FP.neg, FP.le, decide_eq_true_eq, le_refl]
  by_cases hc : FP.lt (FP.fin m) (FP.abs x) = true
  · rw [if_pos hc]
    by_cases hp : FP.lt (FP.zero false) x = true
    · rw [if_pos hp]; exact ⟨h1, h2⟩
    · rw [if_neg hp]; exact ⟨h3, h1⟩
  · rw [if_neg hc]
    cases x with
    | nan => exact absurd rfl hx
    | inf n => exact absurd rfl hc
    | zero n =>
      constructor
      · simp only [FP.neg, FP.le, decide_eq_true_eq]; linarith
      · simp only [FP.le, decide_eq_true_eq]; exact hm
    | fin q =>
      have hq : |q| ≤ m := by
        simp only [FP.abs, FP.lt, decide_eq_true_eq, not_lt] at hc
        exact hc
      obtain ⟨q1, q2⟩ := abs_le.mp hq
      constructor
      · simp only [FP.neg, FP.le, decide_eq_true_eq]; exact q1
      · simp only [FP.le, decide_eq_true_eq]; exact q2

theorem lit_neg_1_0_eq : lit_neg_1_0 = FP.fin (-1) := by decide!

theorem lit_2_5_mul_50 : FP.mul binary64 lit_2_5 (FP.ofInt binary64 50) = FP.fin 125 := by
  decide!

theorem lit_2_5_mul_60 : FP.mul binary64 lit_2_5 (FP.ofInt binary64 60) = FP.fin 150 := by
  decide!

theorem max_adjust_for_50 : max_adjust_for 50 = FP.fin (8589935 / 34359738368) := by decide!

theorem max_adjust_for_60 : max_adjust_for 60 = FP.fin (7158279 / 34359738368) := by decide!

theorem max_adjust_for_pos {hz : Int} (h : hz = 50 ∨ hz = 60) :
    ∃ m : ℚ, 0 < m ∧ max_adjust_for hz = FP.fin m := by
  rcases h with h | h
  · exact ⟨_, by norm_num, h ▸ max_adjust_for_50⟩
  · exact ⟨_, by norm_num, h ▸ max_adjust_for_60⟩

/-- The number of samples per frame, `(float)sample_rate / (float)source_hz`,
converted to `double`, is a finite number. -/
theorem per_frame_fin {a : Nat} (h0 : 0 < a) (h1 : a < 4294967296) {hz : Int}
    (h : hz = 50 ∨ hz = 60) :
    ∃ y : ℚ, FP.cast binary64
      (FP.div binary32 (FP.ofInt binary32 (a : Int)) (FP.ofInt binary32 hz)) = FP.fin y := by
  have hlo : pow2 0 ≤ ((a : Int) : ℚ) := by
    rw [pow2_eq_zpow]; simp; exact_mod_cast h0
  have hhi : ((a : Int) : ℚ) < pow2 32 := by
    rw [pow2_eq_zpow]; norm_num; exact_mod_cast h1
  obtain ⟨r, hr, r1, r2⟩ := @round_range binary32 (by decide) _ 0 32 (by decide)
    (by decide) hlo hhi
  have hr' : FP.ofInt binary32 (a : Int) = FP.fin r := hr
  rw [pow2_eq_zpow] at r1 r2
  have r1' : (1 : ℚ) ≤ r := by simpa using r1
  have r2' : r ≤ 4294967296 := by norm_num at r2; exact r2
  have key : ∀ d : ℚ, 50 ≤ d → d ≤ 60 → ∃ y : ℚ,
      FP.cast binary64 (FP.div binary32 (FP.fin r) (FP.fin d)) = FP.fin y := by
    intro d d1 d2
    have dpos : (0 : ℚ) < d := by linarith
    have q1 : pow2 (-6) ≤ r / d := by
      rw [pow2_eq_zpow, le_div_iff₀ dpos]
      norm_num
      linarith
    have q2 : r / d < pow2 27 := by
      rw [pow2_eq_zpow, div_lt_iff₀ dpos]
      norm_num
      linarith
    obtain ⟨y, hy, y1, y2⟩ := @round_range binary32 (by decide) _ (-6) 27 (by decide)
      (by decide) q1 q2
    have y2' : y < pow2 28 := lt_of_le_of_lt y2 (pow2_lt_pow2 (by decide))
    obtain ⟨z, hz, _, _⟩ := @round_range binary64 (by decide) _ (-6) 28 (by decide)
      (by decide) y1 y2'
    refine ⟨z, ?_⟩
    show FP.cast binary64 (binary32.round (r / d)) = FP.fin z
    rw [hy]
    exact hz
  rw [hr']
  rcases h with h | h
  · rw [h, binary32_ofInt_50]; exact key 50 (by norm_num) (by norm_num)
  · rw [h, binary32_ofInt_60]; exact key 60 (by norm_num) (by norm_num)

/-- The value of `adjust_ratio` in the proportional branch lies between
`-max_adjust` and `max_adjust` when the average change is not a NaN. -/
theorem proportional_adjust_within (s : RenderState) (hrate : 0 < s.sample_rate)
    (hrate2 : s.sample_rate < 4294967296) (hhz : s.source_hz = 50 ∨ s.source_hz = 60)
    (hmax : s.max_adjust = max_adjust_for s.source_hz) {ac : FP} (hac : ac ≠ FP.nan) :
    FP.le (FP.neg s.max_adjust) (proportional_adjust s ac) = true ∧
    FP.le (proportional_adjust s ac) s.max_adjust = true := by
  obtain ⟨m, hm, hmm⟩ := max_adjust_for_pos hhz
  obtain ⟨y, hy⟩ := per_frame_fin hrate hrate2 hhz
  have hd : ∃ d : ℚ, FP.mul binary64 lit_2_5 (FP.ofInt binary64 s.source_hz) = FP.fin d := by
    rcases hhz with h | h
    · exact ⟨_, h ▸ lit_2_5_mul_50⟩
    · exact ⟨_, h ▸ lit_2_5_mul_60⟩
  obtain ⟨d, hd⟩ := hd
  unfold proportional_adjust
  simp only
  rw [hy, hd, hmax, hmm, lit_neg_1_0_eq]
  exact clamp_within hm
    (cast_ne_nan _ (div_fin_ne_nan _ (cast_ne_nan _ (cast_ne_nan _
      (div_fin_ne_nan _ (fin_mul_ne_nan _ _ (cast_ne_nan _ hac)) _))) _))

theorem max_adjust_within {hz : Int} (h : hz = 50 ∨ hz = 60) :
    FP.le (FP.neg (max_adjust_for hz)) (max_adjust_for hz) = true ∧
    FP.le (max_adjust_for hz) (max_adjust_for hz) = true ∧
    FP.le (FP.neg (max_adjust_for hz)) (FP.zero false) = true ∧
    FP.le (FP.zero false) (max_adjust_for hz) = true := by
  obtain ⟨m, hm, hmm⟩ := max_adjust_for_pos h
  rw [hmm]
  simp only [FP.neg, FP.le, decide_eq_true_eq]
  refine ⟨by linarith, le_refl _, by linarith, hm⟩

/-- The final value of `adjust_ratio` lies between `-max_adjust` and
`max_adjust`, and a call of `render_audio_adjust_speed` passes that value. -/
theorem drift_control_within (s : RenderState) (hrate : 0 < s.sample_rate)
    (hrate2 : s.sample_rate < 4294967296) (hhz : s.source_hz = 50 ∨ s.source_hz = 60)
    (hmax : s.max_adjust = max_adjust_for s.source_hz) :
    FP.le (FP.neg (max_adjust_for s.source_hz)) (drift_control s).2.1 = true ∧
    FP.le (drift_control s).2.1 (max_adjust_for s.source_hz) = true ∧
    ∀ r, Effect.render_audio_adjust_speed r ∈ (drift_control s).2.2 →
      r = (drift_control s).2.1 := by
  obtain ⟨w1, w2, w3, w4⟩ := max_adjust_within hhz
  unfold drift_control
  lift_lets
  extract_lets ac lcm lmr s1 ftp hard r src
  clear_value ac
  have hs1 : s1.max_adjust = max_adjust_for s.source_hz := hmax
  have A : FP.le (FP.neg (max_adjust_for s.source_hz)) r.2.1 = true ∧
      FP.le r.2.1 (max_adjust_for s.source_hz) = true ∧
      ∀ x, Effect.render_audio_adjust_speed x ∉ r.2.2 := by
    by_cases hh : hard = true
    · by_cases hneg : s1.cur_min_buffered < 0
      · simp only [r, if_pos hh, if_pos hneg, s1, hmax]
        exact ⟨w1, w2, fun x hx => by simp at hx⟩
      · have hac : ac ≠ FP.nan := by
          intro hnan
          apply hneg
          simp only [hard, ftp, hnan, lt_nan_left, lt_nan_right, div_nan_right, Bool.false_and,
            Bool.false_or, Bool.or_false, if_false, Bool.false_eq_true, decide_eq_true_eq] at hh
          exact hh
        obtain ⟨p1, p2⟩ := proportional_adjust_within s1 hrate hrate2 hhz hmax hac
        rw [hs1] at p1 p2
        simp only [r, if_pos hh, if_neg hneg]
        exact ⟨p1, p2, fun x hx => by simp at hx⟩
    · by_cases hlow : toU32 lcm < s1.min_buffered / 2
      · simp only [r, if_neg hh, if_pos hlow, s1, hmax]
        exact ⟨w1, w2, fun x hx => by simp at hx⟩
      · simp only [r, if_neg hh, if_neg hlow]
        exact ⟨w3, w4, fun x hx => by simp at hx⟩
  obtain ⟨a1, a2, a3⟩ := A
  by_cases hne : FP.ne r.2.1 (FP.zero false) = true
  · rw [if_pos hne]
    refine ⟨a1, a2, ?_⟩
    intro x hx
    rcases List.mem_append.mp hx with h | h
    · exact absurd h (a3 x)
    · exact Effect.render_audio_adjust_speed.inj (List.mem_singleton.mp h)
  · rw [if_neg hne]
    exact ⟨a1, a2, fun x hx => absurd hx (a3 x)⟩

/-- C10: with an open audio device (a non-zero `uint32_t` sample rate), in PAL
or NTSC and with `max_adjust` as `render_set_video_standard` sets it
(`0.0125 / source_hz`), for every drift state (average change, last reading)
and every occupancy reading, a ratio that one run of the drift controller
passes to `render_audio_adjust_speed` satisfies
`-max_adjust <= ratio <= max_adjust`. -/
theorem adjust_ratio_within_max_adjust (s : RenderState) (hrate : 0 < s.sample_rate)
    (hrate2 : s.sample_rate < 4294967296) (hhz : s.source_hz = 50 ∨ s.source_hz = 60)
    (hmax : s.max_adjust = max_adjust_for s.source_hz) (r : FP)
    (hr : Effect.render_audio_adjust_speed r ∈ (drift_control s).2.2) :
    FP.le (FP.neg (max_adjust_for s.source_hz)) r = true ∧
    FP.le r (max_adjust_for s.source_hz) = true := by
  obtain ⟨h1, h2, h3⟩ := drift_control_within s hrate hrate2 hhz hmax
  rw [h3 r hr]
  exact ⟨h1, h2⟩

theorem adjust_ratio_within_max_adjust_draining :
    (0 < drift_state.sample_rate ∧ drift_state.sample_rate < 4294967296 ∧
      (drift_state.source_hz = 50 ∨ drift_state.source_hz = 60) ∧
      drift_state.max_adjust = max_adjust_for drift_state.source_hz ∧
      Effect.render_audio_adjust_speed drift_ratio ∈ (drift_control drift_state).2.2) ∧
    FP.le (FP.neg (max_adjust_for drift_state.source_hz)) drift_ratio = true ∧
    FP.le drift_ratio (max_adjust_for drift_state.source_hz) = true :=
  ⟨by decide!,
    adjust_ratio_within_max_adjust drift_state (by decide) (by decide) (by decide!) (by decide!)
      drift_ratio (by decide!)⟩

theorem hard_trigger_of_underflow (s : RenderState) (h : s.cur_min_buffered < 0) :
    hard_trigger s = true := by
  unfold hard_trigger
  rw [decide_eq_true h, Bool.or_true]

/-- The drift controller is the smoothing followed by the adjustment. -/
theorem drift_control_eq (s : RenderState) : drift_control s = drift_adjust (drift_smooth s) := by
  unfold drift_control
  lift_lets
  extract_lets ac lcm lmr s1 ftp hard r src
  have hs1 : drift_smooth s = s1 := rfl
  have hhard : hard_trigger s1 = hard := rfl
  rw [hs1]
  unfold drift_adjust
  lift_lets
  extract_lets ratio rec
  have hr : r = (rec.1, ratio, rec.2) := by
    by_cases hh : hard = true
    · have hh1 : hard_trigger s1 = true := hhard.trans hh
      by_cases hneg : s1.cur_min_buffered < 0
      · simp only [r, rec, ratio, chosen_ratio, if_pos hh, if_pos hh1, if_pos hneg]
      · simp only [r, rec, ratio, chosen_ratio, if_pos hh, if_pos hh1, if_neg hneg]
    · have hh1 : ¬ hard_trigger s1 = true := fun h => hh (hhard.symm.trans h)
      have hneg : ¬ s1.cur_min_buffered < 0 := fun h => hh1 (hard_trigger_of_underflow s1 h)
      by_cases hlow : toU32 lcm < s1.min_buffered / 2
      · have hlow' : toU32 s1.cur_min_buffered < s1.min_buffered / 2 := hlow
        simp only [r, rec, ratio, chosen_ratio, if_neg hh, if_neg hh1, if_neg hneg, if_pos hlow,
          if_pos hlow']
      · have hlow' : ¬ toU32 s1.cur_min_buffered < s1.min_buffered / 2 := hlow
        simp only [r, rec, ratio, chosen_ratio, if_neg hh, if_neg hh1, if_neg hneg, if_neg hlow,
          if_neg hlow']
  clear_value r rec ratio
  subst hr
  rfl

theorem drift_adjust_ratio (s : RenderState) : (drift_adjust s).2.1 = chosen_ratio s := by
  unfold drift_adjust
  lift_lets
  extract_lets ratio rec src
  by_cases hne : FP.ne ratio (FP.zero false) = true
  · rw [if_pos hne]
  · rw [if_neg hne]

theorem drift_adjust_effects (s : RenderState) :
    (drift_adjust s).2.2 =
      (if s.cur_min_buffered < 0 then [Effect.SDL_PauseAudio 1] else []) ++
      (if FP.ne (chosen_ratio s) (FP.zero false) then
        [Effect.render_audio_adjust_speed (chosen_ratio s)] else []) := by
  unfold drift_adjust
  lift_lets
  extract_lets ratio rec src
  have hrec : rec.2 = if s.cur_min_buffered < 0 then [Effect.SDL_PauseAudio 1] else [] := by
    by_cases hneg : s.cur_min_buffered < 0
    · simp only [rec, if_pos hneg]
    · simp only [rec, if_neg hneg]
  by_cases hne : FP.ne ratio (FP.zero false) = true
  · rw [if_pos hne, if_pos hne, ← hrec]
  · rw [if_neg hne, if_neg hne, ← hrec, List.append_nil]

/-- The variables of the drift state after the adjustment. -/
theorem drift_adjust_state (s : RenderState) :
    (drift_adjust s).1.average_change =
      (if FP.ne (chosen_ratio s) (FP.zero false) then FP.zero false else s.average_change) ∧
    (drift_adjust s).1.last_buffered =
      (if s.cur_min_buffered < 0 then NO_LAST_BUFFERED else s.last_buffered) ∧
    (drift_adjust s).1.cur_min_buffered =
      (if s.cur_min_buffered < 0 then 0 else s.cur_min_buffered) := by
  unfold drift_adjust
  lift_lets
  extract_lets ratio rec src
  have hrec : rec.1.average_change = s.average_change ∧
      rec.1.last_buffered = (if s.cur_min_buffered < 0 then NO_LAST_BUFFERED else s.last_buffered) ∧
      rec.1.cur_min_buffered = (if s.cur_min_buffered < 0 then 0 else s.cur_min_buffered) := by
    by_cases hneg : s.cur_min_buffered < 0
    · simp only [rec, if_pos hneg, and_self]
    · simp only [rec, if_neg hneg, and_self]
  obtain ⟨h1, h2, h3⟩ := hrec
  by_cases hne : FP.ne ratio (FP.zero false) = true
  · rw [if_pos hne, if_pos hne]; exact ⟨rfl, h2, h3⟩
  · rw [if_neg hne, if_neg hne]; exact ⟨h1, h2, h3⟩

/-- The variables of the frame scheduler and the configuration are not
touched by the drift controller. -/
theorem drift_control_keeps (s : RenderState) :
    (drift_control s).1.sync_src = s.sync_src ∧
    (drift_control s).1.source_frame = s.source_frame ∧
    (drift_control s).1.source_frame_count = s.source_frame_count ∧
    (drift_control s).1.source_hz = s.source_hz ∧
    (drift_control s).1.frame_repeat = s.frame_repeat ∧
    (drift_control s).1.min_buffered = s.min_buffered ∧
    (drift_control s).1.max_adjust = s.max_adjust ∧
    (drift_control s).1.sample_rate = s.sample_rate := by
  rw [drift_control_eq]
  unfold drift_adjust
  lift_lets
  extract_lets ratio rec src
  have hrec : rec.1.sync_src = s.sync_src ∧ rec.1.source_frame = s.source_frame ∧
      rec.1.source_frame_count = s.source_frame_count ∧ rec.1.source_hz = s.source_hz ∧
      rec.1.frame_repeat = s.frame_repeat ∧ rec.1.min_buffered = s.min_buffered ∧
      rec.1.max_adjust = s.max_adjust ∧ rec.1.sample_rate = s.sample_rate := by
    by_cases hneg : (drift_smooth s).cur_min_buffered < 0
    · simp only [rec, if_pos hneg]; exact ⟨rfl, rfl, rfl, rfl, rfl, rfl, rfl, rfl⟩
    · simp only [rec, if_neg hneg]; exact ⟨rfl, rfl, rfl, rfl, rfl, rfl, rfl, rfl⟩
  by_cases hne : FP.ne ratio (FP.zero false) = true
  · rw [if_pos hne]; exact hrec
  · rw [if_neg hne]; exact hrec

theorem ne_zero_of_fin_pos {m : ℚ} (n : Bool) : FP.ne (FP.fin m) (FP.zero n) = true := rfl

theorem chosen_ratio_underflow (s : RenderState) (h : s.cur_min_buffered < 0) :
    chosen_ratio s = s.max_adjust := by
  unfold chosen_ratio
  rw [if_pos (hard_trigger_of_underflow s h), if_pos h]

theorem chosen_ratio_hard (s : RenderState) (hh : hard_trigger s = true)
    (h : 0 ≤ s.cur_min_buffered) :
    chosen_ratio s = proportional_adjust s s.average_change := by
  unfold chosen_ratio
  rw [if_pos hh, if_neg (not_lt.mpr h)]

/-- C11: with `max_adjust` as `render_set_video_standard` sets it for PAL or
NTSC, for every drift state in which `cur_min_buffered` is negative, one run
of the drift controller calls `SDL_PauseAudio(1)` and then
`render_audio_adjust_speed(max_adjust)`, and leaves `last_buffered` at
`NO_LAST_BUFFERED`, `cur_min_buffered` at 0 and `average_change` at 0. -/
theorem underflow_recovery (s : RenderState) (hhz : s.source_hz = 50 ∨ s.source_hz = 60)
    (hmax : s.max_adjust = max_adjust_for s.source_hz) (hneg : s.cur_min_buffered < 0) :
    (drift_control s).2.2 =
      [Effect.SDL_PauseAudio 1, Effect.render_audio_adjust_speed (max_adjust_for s.source_hz)] ∧
    (drift_control s).1.last_buffered = NO_LAST_BUFFERED ∧
    (drift_control s).1.cur_min_buffered = 0 ∧
    (drift_control s).1.average_change = FP.zero false := by
  have hneg1 : (drift_smooth s).cur_min_buffered < 0 := hneg
  have hm1 : (drift_smooth s).max_adjust = max_adjust_for s.source_hz := hmax
  have hr : chosen_ratio (drift_smooth s) = max_adjust_for s.source_hz := by
    rw [chosen_ratio_underflow _ hneg1, hm1]
  obtain ⟨m, _, hmm⟩ := max_adjust_for_pos hhz
  have hne : FP.ne (max_adjust_for s.source_hz) (FP.zero false) = true := by
    rw [hmm]; rfl
  obtain ⟨h1, h2, h3⟩ := drift_adjust_state (drift_smooth s)
  rw [drift_control_eq, drift_adjust_effects, h1, h2, h3, hr]
  simp only [if_pos hne, if_pos hneg1, and_true]
  rfl

theorem underflow_recovery_ntsc :
    ((underflow_state.source_hz = 50 ∨ underflow_state.source_hz = 60) ∧
      underflow_state.max_adjust = max_adjust_for underflow_state.source_hz ∧
      underflow_state.cur_min_buffered < 0) ∧
    (drift_control underflow_state).2.2 =
      [Effect.SDL_PauseAudio 1,
        Effect.render_audio_adjust_speed (max_adjust_for underflow_state.source_hz)] ∧
    (drift_control underflow_state).1.last_buffered = NO_LAST_BUFFERED ∧
    (drift_control underflow_state).1.cur_min_buffered = 0 ∧
    (drift_control underflow_state).1.average_change = FP.zero false :=
  ⟨by decide!, underflow_recovery underflow_state (by decide!) (by decide!) (by decide!)⟩

/-- C19: the smoothing step of the drift controller, when the difference of
the two readings fits `int32_t`.  If `last_buffered` holds a reading (it is
greater than `NO_LAST_BUFFERED`), `average_change` becomes
`average_change * 0.9f + (cur_min_buffered - last_buffered) * 0.1f`, each
operation in `float` and the literals being the `float` numbers nearest to
0.9 and 0.1; otherwise (the sentinel) `average_change` is left as it is.  In
both cases `last_buffered` becomes `cur_min_buffered`, and the rest of the
controller works on the state so obtained. -/
theorem smoothing_step (s : RenderState)
    (h1 : -2147483648 ≤ s.cur_min_buffered - s.last_buffered)
    (h2 : s.cur_min_buffered - s.last_buffered < 2147483648) :
    (drift_smooth s).average_change =
      (if s.last_buffered > NO_LAST_BUFFERED then
        FP.add binary32 (FP.mul binary32 s.average_change lit_0_9f)
          (FP.mul binary32 (FP.ofInt binary32 (s.cur_min_buffered - s.last_buffered)) lit_0_1f)
       else s.average_change) ∧
    lit_0_9f = FP.fin (15099494 / 16777216) ∧ lit_0_1f = FP.fin (13421773 / 134217728) ∧
    (drift_smooth s).last_buffered = s.cur_min_buffered ∧
    drift_control s = drift_adjust (drift_smooth s) := by
  refine ⟨?_, by decide!, by decide!, rfl, drift_control_eq s⟩
  show (if s.last_buffered > NO_LAST_BUFFERED then
        FP.add binary32 (FP.mul binary32 s.average_change lit_0_9f)
          (FP.mul binary32 (FP.ofInt binary32 (wrap32 (s.cur_min_buffered - s.last_buffered)))
            lit_0_1f)
       else s.average_change) = _
  rw [wrap32_of_range h1 h2]

theorem smoothing_step_draining :
    (-2147483648 ≤ drift_state.cur_min_buffered - drift_state.last_buffered ∧
      drift_state.cur_min_buffered - drift_state.last_buffered < 2147483648) ∧
    (drift_smooth drift_state).average_change =
      (if drift_state.last_buffered > NO_LAST_BUFFERED then
        FP.add binary32 (FP.mul binary32 drift_state.average_change lit_0_9f)
          (FP.mul binary32
            (FP.ofInt binary32 (drift_state.cur_min_buffered - drift_state.last_buffered))
            lit_0_1f)
       else drift_state.average_change) ∧
    lit_0_9f = FP.fin (15099494 / 16777216) ∧ lit_0_1f = FP.fin (13421773 / 134217728) ∧
    (drift_smooth drift_state).last_buffered = drift_state.cur_min_buffered ∧
    drift_control drift_state = drift_adjust (drift_smooth drift_state) :=
  ⟨by decide, smoothing_step drift_state (by decide) (by decide)⟩

theorem floorLog2From_le_or_eq {a : ℚ} (ha : 0 < a) (n : Nat) (e : Int) :
    pow2 (floorLog2From a n e) ≤ a ∨ floorLog2From a n e = e := by
  induction n generalizing e with
  | zero => exact Or.inr rfl
  | succ n ih =>
    unfold floorLog2From
    by_cases h : pow2Le (e + 1) a = true
    · rw [if_pos h]
      have hle := (pow2Le_iff ha (e + 1)).mp h
      rcases ih (e + 1) with h1 | h1
      · exact Or.inl h1
      · rw [h1]; exact Or.inl hle
    · rw [if_neg h]; exact Or.inr rfl

/-- The shape of a rounding: with `u` the unit in the last place at the
exponent of `|q|` and `m` the nearest integer to `|q| / u`, the result is an
infinity, a zero or `± m * u`, with the sign of `q`. -/
theorem round_cases (f : FloatFormat) {q : ℚ} (hq : q ≠ 0) :
    ∃ (m : Int) (u : ℚ), 0 ≤ m ∧ 0 < u ∧ u = pow2 (f.exponent |q| - ((f.prec : Int) - 1)) ∧
      abs ((m : ℚ) * u - abs q) ≤ u / 2 ∧
      (f.round q = FP.inf (decide (q < 0)) ∧ pow2 ((f.emax : Int) + 1) ≤ (m : ℚ) * u ∨
       f.round q = FP.zero (decide (q < 0)) ∧ m = 0 ∨
       f.round q = FP.fin (if q < 0 then -((m : ℚ) * u) else (m : ℚ) * u) ∧ 0 < m ∧
         (m : ℚ) * u < pow2 ((f.emax : Int) + 1)) := by
  set u := pow2 (f.exponent |q| - ((f.prec : Int) - 1)) with hu
  have hupos : 0 < u := pow2_pos _
  have ha : 0 < |q| := abs_pos.mpr hq
  have hx : 0 ≤ |q| / u := div_nonneg ha.le hupos.le
  have hm0 : (0 : Int) ≤ roundHalfEven (|q| / u) := le_roundHalfEven (by exact_mod_cast hx)
  have herr : abs ((roundHalfEven (|q| / u) : ℚ) * u - abs q) ≤ u / 2 := by
    have e1 := roundHalfEven_le_add_half (|q| / u)
    have e2 := sub_half_le_roundHalfEven (|q| / u)
    have e3 : |q| = |q| / u * u := by field_simp
    rw [abs_le]
    constructor
    · have := mul_le_mul_of_nonneg_right e2 hupos.le
      nlinarith
    · have := mul_le_mul_of_nonneg_right e1 hupos.le
      nlinarith
  refine ⟨roundHalfEven (|q| / u), u, hm0, hupos, rfl, herr, ?_⟩
  unfold FloatFormat.round
  simp only [if_neg hq, ← hu]
  by_cases h1 : pow2 ((f.emax : Int) + 1) ≤ (roundHalfEven (|q| / u) : ℚ) * u
  · rw [if_pos h1]; exact Or.inl ⟨rfl, h1⟩
  · rw [if_neg h1]
    by_cases h2 : roundHalfEven (|q| / u) = 0
    · rw [if_pos h2]; exact Or.inr (Or.inl ⟨rfl, h2⟩)
    · rw [if_neg h2]
      exact Or.inr (Or.inr ⟨rfl, lt_of_le_of_ne hm0 (Ne.symm h2), not_le.mp h1⟩)

theorem round_signBit (f : FloatFormat) {q : ℚ} (hq : q < 0) :
    FP.signBit (f.round q) = true := by
  obtain ⟨m, u, hm, hu, _, _, h⟩ := round_cases f hq.ne
  rcases h with ⟨h, _⟩ | ⟨h, _⟩ | ⟨h, hm1, _⟩
  · rw [h]; simp [FP.signBit, hq]
  · rw [h]; simp [FP.signBit, hq]
  · rw [h, if_pos hq]
    have : 0 < (m : ℚ) * u := mul_pos (by exact_mod_cast hm1) hu
    simp only [FP.signBit, decide_eq_true_eq]
    linarith

theorem round_isPos (f : FloatFormat) {q : ℚ} (hq : 0 < q) : FP.isPos (f.round q) = true := by
  obtain ⟨m, u, hm, hu, _, _, h⟩ := round_cases f hq.ne'
  have hn : ¬ q < 0 := not_lt.mpr hq.le
  rcases h with ⟨h, _⟩ | ⟨h, _⟩ | ⟨h, hm1, _⟩
  · rw [h]; simp [FP.isPos, hn]
  · rw [h]; simp [FP.isPos, hn]
  · rw [h, if_neg hn]
    have : 0 < (m : ℚ) * u := mul_pos (by exact_mod_cast hm1) hu
    simp only [FP.isPos, decide_eq_true_eq]
    exact this

theorem isPos_of_zero_lt {x : FP} (h : FP.lt (FP.zero false) x = true) : FP.isPos x = true := by
  cases x with
  | nan => exact absurd h (by simp [FP.lt])
  | inf n => simpa [FP.lt, FP.isPos] using h
  | zero n => exact absurd h (by simp [FP.lt])
  | fin q => simpa [FP.lt, FP.isPos] using h

theorem signBit_of_lt_zero {x : FP} (h : FP.lt x (FP.zero false) = true) :
    FP.signBit x = true := by
  cases x with
  | nan => exact absurd h (by simp [FP.lt])
  | inf n => simpa [FP.lt, FP.signBit] using h
  | zero n => exact absurd h (by simp [FP.lt])
  | fin q => simpa [FP.lt, FP.signBit] using h

theorem cast_signBit (f : FloatFormat) {x : FP} (h : FP.signBit x = true) :
    FP.signBit (FP.cast f x) = true := by
  cases x with
  | nan => exact h
  | inf n => exact h
  | zero n => exact h
  | fin q =>
    have hq : q < 0 := by simpa [FP.signBit] using h
    exact round_signBit f hq

theorem cast_isPos (f : FloatFormat) {x : FP} (h : FP.isPos x = true) :
    FP.isPos (FP.cast f x) = true := by
  cases x with
  | nan => exact h
  | inf n => exact h
  | zero n => exact h
  | fin q =>
    have hq : 0 < q := by simpa [FP.isPos] using h
    exact round_isPos f hq

theorem div_fin_signBit (f : FloatFormat) {x : FP} (h : FP.signBit x = true) {y : ℚ}
    (hy : 0 < y) : FP.signBit (FP.div f x (FP.fin y)) = true := by
  have hn : ¬ y < 0 := not_lt.mpr hy.le
  cases x with
  | nan => exact absurd h (by simp [FP.signBit])
  | inf n =>
    have hn1 : n = true := h
    simp [FP.div, FP.signBit, hn1, hn]
  | zero n =>
    have hn1 : n = true := h
    simp [FP.div, FP.signBit, hn1, hn]
  | fin q =>
    have hq : q < 0 := by simpa [FP.signBit] using h
    exact round_signBit f (div_neg_of_neg_of_pos hq hy)

theorem div_fin_isPos (f : FloatFormat) {x : FP} (h : FP.isPos x = true) {y : ℚ}
    (hy : 0 < y) : FP.isPos (FP.div f x (FP.fin y)) = true := by
  have hn : ¬ y < 0 := not_lt.mpr hy.le
  cases x with
  | nan => exact absurd h (by simp [FP.isPos])
  | inf n =>
    have hn1 : n = false := by simpa [FP.isPos] using h
    simp [FP.div, FP.isPos, FP.signBit, hn1, hn]
  | zero n =>
    have hn1 : n = false := by simpa [FP.isPos] using h
    simp [FP.div, FP.isPos, FP.signBit, hn1, hn]
  | fin q =>
    have hq : 0 < q := by simpa [FP.isPos] using h
    exact round_isPos f (div_pos hq hy)

theorem neg_one_mul_signBit (f : FloatFormat) {x : FP} (h : FP.isPos x = true) :
    FP.signBit (FP.mul f (FP.fin (-1)) x) = true := by
  cases x with
  | nan => exact absurd h (by simp [FP.isPos])
  | inf n =>
    have hn1 : n = false := by simpa [FP.isPos] using h
    simp [FP.mul, FP.signBit, hn1]
  | zero n =>
    have hn1 : n = false := by simpa [FP.isPos] using h
    simp [FP.mul, FP.signBit, hn1]
  | fin q =>
    have hq : 0 < q := by simpa [FP.isPos] using h
    exact round_signBit f (by linarith)

theorem neg_one_mul_isPos (f : FloatFormat) {x : FP} (h : FP.signBit x = true) :
    FP.isPos (FP.mul f (FP.fin (-1)) x) = true := by
  cases x with
  | nan => exact absurd h (by simp [FP.signBit])
  | inf n =>
    have hn1 : n = true := h
    simp [FP.mul, FP.isPos, FP.signBit, hn1]
  | zero n =>
    have hn1 : n = true := h
    simp [FP.mul, FP.isPos, FP.signBit, hn1]
  | fin q =>
    have hq : q < 0 := by simpa [FP.signBit] using h
    exact round_isPos f (by linarith)

/-- The clamp keeps the sign of a negative number. -/
theorem clamp_signBit {m : ℚ} (hm : 0 < m) {x : FP} (hx : FP.signBit x = true) :
    FP.signBit
      (if FP.lt (FP.fin m) (FP.abs x) then
        (if FP.lt (FP.zero false) x then FP.fin m else FP.neg (FP.fin m))
       else x) = true := by
  have hlt : ¬ FP.lt (FP.zero false) x = true := by
    cases x with
    | nan => simp [FP.lt]
    | inf n =>
      have hn1 : n = true := hx
      simp [FP.lt, hn1]
    | zero n => simp [FP.lt]
    | fin q =>
      have hq : q < 0 := by simpa [FP.signBit] using hx
      simp [FP.lt, hq.le]
  by_cases hc : FP.lt (FP.fin m) (FP.abs x) = true
  · rw [if_pos hc, if_neg hlt]
    simp [FP.neg, FP.signBit, hm]
  · rw [if_neg hc]; exact hx

/-- The clamp keeps the sign of a positive number. -/
theorem clamp_isPos {m : ℚ} (hm : 0 < m) {x : FP} (hx : FP.isPos x = true) :
    FP.isPos
      (if FP.lt (FP.fin m) (FP.abs x) then
        (if FP.lt (FP.zero false) x then FP.fin m else FP.neg (FP.fin m))
       else x) = true := by
  by_cases hc : FP.lt (FP.fin m) (FP.abs x) = true
  · have hlt : FP.lt (FP.zero false) x = true := by
      cases x with
      | nan => exact absurd hx (by simp [FP.isPos])
      | inf n =>
        have hn1 : n = false := by simpa [FP.isPos] using hx
        simp [FP.lt, hn1]
      | zero n =>
        have : ¬ m < 0 := not_lt.mpr hm.le
        exact absurd hc (by simp [FP.lt, FP.abs, this])
      | fin q =>
        have hq : 0 < q := by simpa [FP.isPos] using hx
        simp [FP.lt, hq]
    rw [if_pos hc, if_pos hlt]
    simp [FP.isPos, hm]
  · rw [if_neg hc]; exact hx

theorem lt_zero_of_signBit {x : FP} (hx : FP.signBit x = true)
    (hne : FP.ne x (FP.zero false) = true) : FP.lt x (FP.zero false) = true := by
  cases x with
  | nan => exact absurd hx (by simp [FP.signBit])
  | inf n =>
    have hn1 : n = true := hx
    simp [FP.lt, hn1]
  | zero n => exact absurd hne (by simp [FP.ne])
  | fin q =>
    have hq : q < 0 := by simpa [FP.signBit] using hx
    simp [FP.lt, hq]

theorem zero_lt_of_isPos {x : FP} (hx : FP.isPos x = true)
    (hne : FP.ne x (FP.zero false) = true) : FP.lt (FP.zero false) x = true := by
  cases x with
  | nan => exact absurd hx (by simp [FP.isPos])
  | inf n =>
    have hn1 : n = false := by simpa [FP.isPos] using hx
    simp [FP.lt, hn1]
  | zero n => exact absurd hne (by simp [FP.ne])
  | fin q =>
    have hq : 0 < q := by simpa [FP.isPos] using hx
    simp [FP.lt, hq]

/-- The number of samples per frame, converted to `double`, is a positive
number. -/
theorem per_frame_pos {a : Nat} (h0 : 0 < a) (h1 : a < 4294967296) {hz : Int}
    (h : hz = 50 ∨ hz = 60) :
    ∃ y : ℚ, 0 < y ∧ FP.cast binary64
      (FP.div binary32 (FP.ofInt binary32 (a : Int)) (FP.ofInt binary32 hz)) = FP.fin y := by
  have hlo : pow2 0 ≤ ((a : Int) : ℚ) := by
    rw [pow2_eq_zpow]; simp; exact_mod_cast h0
  have hhi : ((a : Int) : ℚ) < pow2 32 := by
    rw [pow2_eq_zpow]; norm_num; exact_mod_cast h1
  obtain ⟨r, hr, r1, r2⟩ := @round_range binary32 (by decide) _ 0 32 (by decide)
    (by decide) hlo hhi
  have hr' : FP.ofInt binary32 (a : Int) = FP.fin r := hr
  rw [pow2_eq_zpow] at r1 r2
  have r1' : (1 : ℚ) ≤ r := by simpa using r1
  have r2' : r ≤ 4294967296 := by norm_num at r2; exact r2
  have key : ∀ d : ℚ, 50 ≤ d → d ≤ 60 → ∃ y : ℚ, 0 < y ∧
      FP.cast binary64 (FP.div binary32 (FP.fin r) (FP.fin d)) = FP.fin y := by
    intro d d1 d2
    have dpos : (0 : ℚ) < d := by linarith
    have q1 : pow2 (-6) ≤ r / d := by
      rw [pow2_eq_zpow, le_div_iff₀ dpos]
      norm_num
      linarith
    have q2 : r / d < pow2 27 := by
      rw [pow2_eq_zpow, div_lt_iff₀ dpos]
      norm_num
      linarith
    obtain ⟨y, hy, y1, y2⟩ := @round_range binary32 (by decide) _ (-6) 27 (by decide)
      (by decide) q1 q2
    have y2' : y < pow2 28 := lt_of_le_of_lt y2 (pow2_lt_pow2 (by decide))
    obtain ⟨z, hz, z1, _⟩ := @round_range binary64 (by decide) _ (-6) 28 (by decide)
      (by decide) y1 y2'
    refine ⟨z, lt_of_lt_of_le (pow2_pos _) z1, ?_⟩
    show FP.cast binary64 (binary32.round (r / d)) = FP.fin z
    rw [hy]
    exact hz
  rw [hr']
  rcases h with h | h
  · rw [h, binary32_ofInt_50]; exact key 50 (by norm_num) (by norm_num)
  · rw [h, binary32_ofInt_60]; exact key 60 (by norm_num) (by norm_num)

/-- The proportional correction has the sign opposite to the drift's. -/
theorem proportional_adjust_sign (s : RenderState) (hrate : 0 < s.sample_rate)
    (hrate2 : s.sample_rate < 4294967296) (hhz : s.source_hz = 50 ∨ s.source_hz = 60)
    (hmax : s.max_adjust = max_adjust_for s.source_hz) (ac : FP) :
    (FP.lt (FP.zero false) ac = true → FP.signBit (proportional_adjust s ac) = true) ∧
    (FP.lt ac (FP.zero false) = true → FP.isPos (proportional_adjust s ac) = true) := by
  obtain ⟨m, hm, hmm⟩ := max_adjust_for_pos hhz
  obtain ⟨y, hy0, hy⟩ := per_frame_pos hrate hrate2 hhz
  have hd : ∃ d : ℚ, 0 < d ∧
      FP.mul binary64 lit_2_5 (FP.ofInt binary64 s.source_hz) = FP.fin d := by
    rcases hhz with h | h
    · exact ⟨_, by norm_num, h ▸ lit_2_5_mul_50⟩
    · exact ⟨_, by norm_num, h ▸ lit_2_5_mul_60⟩
  obtain ⟨d, hd0, hd⟩ := hd
  unfold proportional_adjust
  simp only
  rw [hy, hd, hmax, hmm, lit_neg_1_0_eq]
  constructor
  · intro h
    exact clamp_signBit hm
      (cast_signBit _ (div_fin_signBit _ (cast_signBit _ (cast_signBit _
        (div_fin_signBit _ (neg_one_mul_signBit _ (cast_isPos _ (isPos_of_zero_lt h))) hy0)))
        hd0))
  · intro h
    exact clamp_isPos hm
      (cast_isPos _ (div_fin_isPos _ (cast_isPos _ (cast_isPos _
        (div_fin_isPos _ (neg_one_mul_isPos _ (cast_signBit _ (signBit_of_lt_zero h))) hy0)))
        hd0))

theorem proportional_adjust_smooth (s : RenderState) (ac : FP) :
    proportional_adjust (drift_smooth s) ac = proportional_adjust s ac := rfl

/-- With a NaN for the average change only the underflow test can fire. -/
theorem hard_trigger_nan (s : RenderState) (h : s.average_change = FP.nan) :
    hard_trigger s = decide (s.cur_min_buffered < 0) := by
  unfold hard_trigger frames_to_problem
  rw [h]
  simp only [lt_nan_left, lt_nan_right, div_nan_right, Bool.false_and, Bool.false_or,
    Bool.or_false, if_false, Bool.false_eq_true]

theorem adjust_mem (s : RenderState) (r : FP) :
    Effect.render_audio_adjust_speed r ∈ (drift_control s).2.2 ↔
      FP.ne (chosen_ratio (drift_smooth s)) (FP.zero false) = true ∧
        r = chosen_ratio (drift_smooth s) := by
  rw [drift_control_eq, drift_adjust_effects]
  by_cases hneg : (drift_smooth s).cur_min_buffered < 0 <;>
    by_cases hne : FP.ne (chosen_ratio (drift_smooth s)) (FP.zero false) = true <;>
    simp [hneg, hne]

theorem lit_2_5_eq : lit_2_5 = FP.fin (5 / 2) := by decide!

/-- The proportional correction written out: the literals are `-1.0` and
`2.5`, the products and quotients are those of `double` but for the number of
samples per frame, and both assignments round to `float`. -/
theorem proportional_adjust_eq (s : RenderState) (ac : FP) :
    proportional_adjust s ac =
      (if FP.lt s.max_adjust
          (FP.abs
            (FP.cast binary32
              (FP.div binary64
                (FP.cast binary64
                  (FP.cast binary32
                    (FP.div binary64 (FP.mul binary64 (FP.fin (-1)) (FP.cast binary64 ac))
                      (FP.cast binary64
                        (FP.div binary32 (FP.ofInt binary32 s.sample_rate)
                          (FP.ofInt binary32 s.source_hz))))))
                (FP.mul binary64 (FP.fin (5 / 2)) (FP.ofInt binary64 s.source_hz))))) then
        (if FP.lt (FP.zero false)
            (FP.cast binary32
              (FP.div binary64
                (FP.cast binary64
                  (FP.cast binary32
                    (FP.div binary64 (FP.mul binary64 (FP.fin (-1)) (FP.cast binary64 ac))
                      (FP.cast binary64
                        (FP.div binary32 (FP.ofInt binary32 s.sample_rate)
                          (FP.ofInt binary32 s.source_hz))))))
                (FP.mul binary64 (FP.fin (5 / 2)) (FP.ofInt binary64 s.source_hz)))) then
          s.max_adjust
        else FP.neg s.max_adjust)
      else
        FP.cast binary32
          (FP.div binary64
            (FP.cast binary64
              (FP.cast binary32
                (FP.div binary64 (FP.mul binary64 (FP.fin (-1)) (FP.cast binary64 ac))
                  (FP.cast binary64
                    (FP.div binary32 (FP.ofInt binary32 s.sample_rate)
                      (FP.ofInt binary32 s.source_hz))))))
            (FP.mul binary64 (FP.fin (5 / 2)) (FP.ofInt binary64 s.source_hz)))) := by
  unfold proportional_adjust
  simp only
  rw [lit_neg_1_0_eq, lit_2_5_eq]

/-- C17: with an open audio device (a non-zero `uint32_t` sample rate), in PAL
or NTSC and with `max_adjust` as `render_set_video_standard` sets it, namely
`(float)(0.0125 / source_hz)`, let `r` be a ratio that one run of the drift
controller passes to `render_audio_adjust_speed`.  Then `average_change` is 0
afterwards.  If a hard trigger has fired on the smoothed drift and there is no
underflow (`cur_min_buffered >= 0`), then with
`x = (float)((double)(float)(-1.0 * drift / (double)((float)sample_rate /
(float)source_hz)) / (2.5 * source_hz))`, the products and quotients being
those of `double` but for the `float` quotient `sample_rate / source_hz`, the
ratio `r` is `x` clamped: `max_adjust` if `x > max_adjust`, `-max_adjust` if
`x < -max_adjust`, and `x` itself otherwise.  It lies between `-max_adjust`
and `max_adjust`, and its sign is opposite to the drift's. -/
theorem proportional_correction (s : RenderState) (hrate : 0 < s.sample_rate)
    (hrate2 : s.sample_rate < 4294967296) (hhz : s.source_hz = 50 ∨ s.source_hz = 60)
    (hmax : s.max_adjust = max_adjust_for s.source_hz) (r : FP)
    (hr : Effect.render_audio_adjust_speed r ∈ (drift_control s).2.2) :
    (drift_control s).1.average_change = FP.zero false ∧
    s.max_adjust =
      FP.cast binary32 (FP.div binary64 (binary64.round (1 / 80)) (FP.ofInt binary64 s.source_hz)) ∧
    (hard_trigger (drift_smooth s) = true → 0 ≤ s.cur_min_buffered →
      (∃ x : FP,
        x = FP.cast binary32
          (FP.div binary64
            (FP.cast binary64
              (FP.cast binary32
                (FP.div binary64
                  (FP.mul binary64 (FP.fin (-1))
                    (FP.cast binary64 (drift_smooth s).average_change))
                  (FP.cast binary64
                    (FP.div binary32 (FP.ofInt binary32 s.sample_rate)
                      (FP.ofInt binary32 s.source_hz))))))
            (FP.mul binary64 (FP.fin (5 / 2)) (FP.ofInt binary64 s.source_hz))) ∧
        r = (if FP.lt s.max_adjust (FP.abs x) then
              (if FP.lt (FP.zero false) x then s.max_adjust else FP.neg s.max_adjust)
             else x)) ∧
      FP.le (FP.neg (max_adjust_for s.source_hz)) r = true ∧
      FP.le r (max_adjust_for s.source_hz) = true ∧
      (FP.lt (FP.zero false) (drift_smooth s).average_change = true →
        FP.lt r (FP.zero false) = true) ∧
      (FP.lt (drift_smooth s).average_change (FP.zero false) = true →
        FP.lt (FP.zero false) r = true)) := by
  obtain ⟨hne, hrr⟩ := (adjust_mem s r).mp hr
  refine ⟨?_, hmax, ?_⟩
  · rw [drift_control_eq, (drift_adjust_state (drift_smooth s)).1, if_pos hne]
  · intro hh hcur
    have hcur1 : 0 ≤ (drift_smooth s).cur_min_buffered := hcur
    have hc := chosen_ratio_hard (drift_smooth s) hh hcur1
    rw [proportional_adjust_smooth] at hc
    have hac : (drift_smooth s).average_change ≠ FP.nan := by
      intro hnan
      rw [hard_trigger_nan _ hnan, decide_eq_true_eq] at hh
      exact absurd hh (not_lt.mpr hcur1)
    obtain ⟨b1, b2⟩ := proportional_adjust_within s hrate hrate2 hhz hmax hac
    obtain ⟨g1, g2⟩ :=
      proportional_adjust_sign s hrate hrate2 hhz hmax (drift_smooth s).average_change
    rw [hmax] at b1 b2
    rw [hc] at hne
    rw [hrr, hc]
    exact ⟨⟨_, rfl, proportional_adjust_eq s _⟩, b1, b2,
      fun h => lt_zero_of_signBit (g1 h) hne, fun h => zero_lt_of_isPos (g2 h) hne⟩

theorem proportional_correction_draining :
    (0 < drift_state.sample_rate ∧ drift_state.sample_rate < 4294967296 ∧
      (drift_state.source_hz = 50 ∨ drift_state.source_hz = 60) ∧
      drift_state.max_adjust = max_adjust_for drift_state.source_hz ∧
      Effect.render_audio_adjust_speed (FP.fin (5726623 / 137438953472)) ∈
        (drift_control drift_state).2.2 ∧
      hard_trigger (drift_smooth drift_state) = true ∧ 0 ≤ drift_state.cur_min_buffered ∧
      FP.lt (drift_smooth drift_state).average_change (FP.zero false) = true) ∧
    ((drift_control drift_state).1.average_change = FP.zero false ∧
      drift_state.max_adjust =
        FP.cast binary32
          (FP.div binary64 (binary64.round (1 / 80)) (FP.ofInt binary64 drift_state.source_hz)) ∧
      (hard_trigger (drift_smooth drift_state) = true → 0 ≤ drift_state.cur_min_buffered →
        (∃ x : FP,
          x = FP.cast binary32
            (FP.div binary64
              (FP.cast binary64
                (FP.cast binary32
                  (FP.div binary64
                    (FP.mul binary64 (FP.fin (-1))
                      (FP.cast binary64 (drift_smooth drift_state).average_change))
                    (FP.cast binary64
                      (FP.div binary32 (FP.ofInt binary32 drift_state.sample_rate)
                        (FP.ofInt binary32 drift_state.source_hz))))))
              (FP.mul binary64 (FP.fin (5 / 2)) (FP.ofInt binary64 drift_state.source_hz))) ∧
          FP.fin (5726623 / 137438953472) =
            (if FP.lt drift_state.max_adjust (FP.abs x) then
              (if FP.lt (FP.zero false) x then drift_state.max_adjust
               else FP.neg drift_state.max_adjust)
             else x)) ∧
        FP.le (FP.neg (max_adjust_for drift_state.source_hz))
          (FP.fin (5726623 / 137438953472)) = true ∧
        FP.le (FP.fin (5726623 / 137438953472)) (max_adjust_for drift_state.source_hz) = true ∧
        (FP.lt (FP.zero false) (drift_smooth drift_state).average_change = true →
          FP.lt (FP.fin (5726623 / 137438953472)) (FP.zero false) = true) ∧
        (FP.lt (drift_smooth drift_state).average_change (FP.zero false) = true →
          FP.lt (FP.zero false) (FP.fin (5726623 / 137438953472)) = true))) ∧
    (drift_smooth drift_state).average_change = FP.fin (-5) ∧
    drift_state.max_adjust = FP.fin (7158279 / 34359738368) ∧
    (drift_control drift_state).2.2 =
      [Effect.render_audio_adjust_speed (FP.fin (5726623 / 137438953472))] ∧
    |(5726623 / 137438953472 : ℚ) - -(-5) / (48000 / 60) / (5 / 2 * 60)| ≤ 1 / 10 ^ 12 ∧
    |(7158279 / 34359738368 : ℚ) - (1 / 80) / 60| ≤ 1 / 10 ^ 11 :=
  ⟨by decide!,
    proportional_correction drift_state (by decide) (by decide) (by decide!) (by decide!)
      (FP.fin (5726623 / 137438953472)) (by decide!),
    by decide!, by decide!, by decide!, by norm_num [abs_le], by norm_num [abs_le]⟩

/-- C18 (counterexample): NTSC at 44100 Hz, `min_buffered` 735.  The level
551 is below 75% of 735 (`4 * 551 < 3 * 735`) and the drift is negative, but
551 is not below `3 * 735 / 4 = 551`, no other trigger fires and the
controller does nothing. -/
theorem below_three_quarters_without_trigger :
    0 ≤ boundary_state.cur_min_buffered ∧
    4 * boundary_state.cur_min_buffered < 3 * (boundary_state.min_buffered : Int) ∧
    FP.lt (drift_smooth boundary_state).average_change (FP.zero false) = true ∧
    hard_trigger (drift_smooth boundary_state) = false ∧
    (drift_control boundary_state).2.1 = FP.zero false ∧
    (drift_control boundary_state).2.2 = [] := by
  decide!

/-- C18 (amended): for every drift state without underflow and every
`min_buffered` below 2^32 / 5: if the smoothed drift is negative and
`cur_min_buffered < 3 * min_buffered / 4` (integer division), or the drift is
positive and `cur_min_buffered > 5 * min_buffered / 4`, the hard trigger
fires and `adjust_ratio` is the proportional correction, which is passed to
`render_audio_adjust_speed` when it is not zero, whatever
`frames_to_problem` is. -/
theorem level_trigger_intervenes (s : RenderState) (hcur : 0 ≤ s.cur_min_buffered)
    (hcur2 : s.cur_min_buffered < 2147483648) (hmb : 5 * s.min_buffered < 4294967296)
    (htrig :
      (FP.lt (drift_smooth s).average_change (FP.zero false) = true ∧
        s.cur_min_buffered < ((3 * s.min_buffered / 4 : Nat) : Int)) ∨
      (FP.lt (FP.zero false) (drift_smooth s).average_change = true ∧
        ((5 * s.min_buffered / 4 : Nat) : Int) < s.cur_min_buffered)) :
    hard_trigger (drift_smooth s) = true ∧
    (drift_control s).2.1 = proportional_adjust s (drift_smooth s).average_change ∧
    (drift_control s).2.2 =
      (if FP.ne (proportional_adjust s (drift_smooth s).average_change) (FP.zero false) then
        [Effect.render_audio_adjust_speed
          (proportional_adjust s (drift_smooth s).average_change)]
       else []) := by
  have hu : (toU32 s.cur_min_buffered : Int) = s.cur_min_buffered :=
    toU32_of_range hcur (by omega)
  have h3 : 3 * s.min_buffered % 4294967296 = 3 * s.min_buffered :=
    Nat.mod_eq_of_lt (by omega)
  have h5 : 5 * s.min_buffered % 4294967296 = 5 * s.min_buffered :=
    Nat.mod_eq_of_lt hmb
  have hh : hard_trigger (drift_smooth s) = true := by
    unfold hard_trigger
    have e1 : (drift_smooth s).cur_min_buffered = s.cur_min_buffered := rfl
    have e2 : (drift_smooth s).min_buffered = s.min_buffered := rfl
    rw [e1, e2, h3, h5]
    rcases htrig with ⟨t1, t2⟩ | ⟨t1, t2⟩
    · have : toU32 s.cur_min_buffered < 3 * s.min_buffered / 4 := by
        have : (toU32 s.cur_min_buffered : Int) < ((3 * s.min_buffered / 4 : Nat) : Int) := by
          rw [hu]; exact t2
        exact_mod_cast this
      rw [t1, decide_eq_true this]
      simp
    · have : toU32 s.cur_min_buffered > 5 * s.min_buffered / 4 := by
        have : ((5 * s.min_buffered / 4 : Nat) : Int) < (toU32 s.cur_min_buffered : Int) := by
          rw [hu]; exact t2
        exact_mod_cast this
      rw [t1, decide_eq_true this]
      simp
  have hc := chosen_ratio_hard (drift_smooth s) hh hcur
  rw [proportional_adjust_smooth] at hc
  have hn : ¬ (drift_smooth s).cur_min_buffered < 0 := not_lt.mpr hcur
  refine ⟨hh, ?_, ?_⟩
  · rw [drift_control_eq, drift_adjust_ratio, hc]
  · rw [drift_control_eq, drift_adjust_effects, hc, if_neg hn, List.nil_append]

theorem level_trigger_intervenes_draining :
    (0 ≤ drift_state.cur_min_buffered ∧ drift_state.cur_min_buffered < 2147483648 ∧
      5 * drift_state.min_buffered < 4294967296 ∧
      FP.lt (drift_smooth drift_state).average_change (FP.zero false) = true ∧
      drift_state.cur_min_buffered < ((3 * drift_state.min_buffered / 4 : Nat) : Int)) ∧
    hard_trigger (drift_smooth drift_state) = true ∧
    (drift_control drift_state).2.1 =
      proportional_adjust drift_state (drift_smooth drift_state).average_change ∧
    (drift_control drift_state).2.2 =
      (if FP.ne (proportional_adjust drift_state (drift_smooth drift_state).average_change)
          (FP.zero false) then
        [Effect.render_audio_adjust_speed
          (proportional_adjust drift_state (drift_smooth drift_state).average_change)]
       else []) :=
  ⟨by decide!,
    level_trigger_intervenes drift_state (by decide) (by decide) (by decide)
      (Or.inl (by decide!))⟩

/-- C12: the sync mode that `window_setup` chooses depends on the
external-sync flag and the configured sync-source string alone, and is the
one the specification names: `SYNC_EXTERNAL` with the flag set, whatever the
string; otherwise `SYNC_AUDIO` for `audio` and for an absent option,
`SYNC_AUDIO_THREAD` for `audio_thread` and `SYNC_VIDEO` for every other
string. -/
theorem window_setup_sync_src (s : RenderState) (external_sync : Bool)
    (sync_src_str : Option String) :
    (window_setup s external_sync sync_src_str).sync_src =
      sync_mode_for external_sync sync_src_str := by
  unfold window_setup
  lift_lets
  extract_lets str m s1
  have key : ∀ a b : RenderState, a.sync_src = m → b.sync_src = m →
      ∀ (c : Prop) [Decidable c], (if c then a else b).sync_src = m := by
    intro a b ha hb c _
    by_cases h : c
    · rw [if_pos h]; exact ha
    · rw [if_neg h]; exact hb
  rw [key _ _ rfl rfl]
  cases external_sync with
  | true => rfl
  | false =>
    cases sync_src_str with
    | none => rfl
    | some str => rfl

theorem repeat_loop_eq (n : Nat) :
    repeat_loop n (n : Int) = (0, List.replicate n Effect.render_update_display) := by
  induction n with
  | zero => rfl
  | succ n ih =>
    unfold repeat_loop
    have h : ((n + 1 : Nat) : Int) > 0 := by omega
    have e : ((n + 1 : Nat) : Int) - 1 = (n : Int) := by omega
    rw [if_pos h]
    simp only [e, ih]
    rfl

theorem repeat_loop_toNat {c : Int} (hc : 0 ≤ c) :
    repeat_loop c.toNat c = (0, List.replicate c.toNat Effect.render_update_display) := by
  have e : c = (c.toNat : Int) := (Int.toNat_of_nonneg hc).symm
  conv_lhs => rw [e, Int.toNat_ofNat]
  exact repeat_loop_eq c.toNat

theorem render_is_audio_sync_video (s : RenderState) (h : s.sync_src = SyncSrc.SYNC_VIDEO) :
    render_is_audio_sync s = false := by
  unfold render_is_audio_sync
  rw [h]; rfl

/-- The drift controller makes no call of `render_update_display`. -/
theorem drift_control_no_display (s : RenderState) :
    Effect.render_update_display ∉ (drift_control s).2.2 := by
  rw [drift_control_eq, drift_adjust_effects]
  by_cases hneg : (drift_smooth s).cur_min_buffered < 0 <;>
    by_cases hne : FP.ne (chosen_ratio (drift_smooth s)) (FP.zero false) = true <;>
    simp [hneg, hne]

theorem advance_source_frame_some (s : RenderState) (hsf : 0 ≤ s.source_frame)
    (hhz : s.source_hz ≤ 60) (hlen : s.frame_repeat.length = 60) :
    ∃ s', advance_source_frame s = some s' ∧
      s'.source_frame = (if s.source_frame + 1 ≥ s.source_hz then 0 else s.source_frame + 1) ∧
      s.frame_repeat.get? s'.source_frame.toNat = some s'.source_frame_count := by
  unfold advance_source_frame
  lift_lets
  extract_lets sf1 sf2
  have h0 : 0 ≤ sf2 := by
    by_cases h : sf1 ≥ s.source_hz
    · simp only [sf2, if_pos h]; exact le_refl _
    · simp only [sf2, if_neg h, sf1]; omega
  have h1 : sf2 < 60 := by
    by_cases h : sf1 ≥ s.source_hz
    · simp only [sf2, if_pos h]; decide
    · simp only [sf2, if_neg h]; omega
  have hlt : sf2.toNat < s.frame_repeat.length := by omega
  have hr : read_int s.frame_repeat sf2 = some (s.frame_repeat.get ⟨sf2.toNat, hlt⟩) := by
    unfold read_int
    rw [if_pos h0, List.get?_eq_get hlt]
  rw [hr]
  exact ⟨_, rfl, rfl, List.get?_eq_get hlt⟩

/-- C16: in video-driven mode, with `source_frame >= 0` and `source_hz` at
most 60, the length of `frame_repeat`, a frame of one of the two main
framebuffers handed to `process_framebuffer` while `source_frame_count` is
`c >= 0` is presented once, and after the drift controller has run it is
presented exactly `c` more times, `1 + c` calls of `render_update_display` in
all; then `source_frame` advances by one, going to 0 when it reaches
`source_hz`, and `source_frame_count` is loaded with
`frame_repeat[source_frame]`. -/
theorem frame_repeat_presentations (s : RenderState) (buffer which : Nat) (width : Int)
    (memory : Option (List Nat)) (hmode : s.sync_src = SyncSrc.SYNC_VIDEO)
    (hwhich : which ≤ FRAMEBUFFER_EVEN) (hc : 0 ≤ s.source_frame_count)
    (hsf : 0 ≤ s.source_frame) (hhz : s.source_hz ≤ 60) (hlen : s.frame_repeat.length = 60) :
    ∃ s', process_framebuffer s buffer which width memory =
        some (s', [Effect.render_update_display] ++ (drift_control s).2.2 ++
          List.replicate s.source_frame_count.toNat Effect.render_update_display) ∧
      ([Effect.render_update_display] ++ (drift_control s).2.2 ++
          List.replicate s.source_frame_count.toNat Effect.render_update_display).count
        Effect.render_update_display = 1 + s.source_frame_count.toNat ∧
      s'.source_frame = (if s.source_frame + 1 ≥ s.source_hz then 0 else s.source_frame + 1) ∧
      s.frame_repeat.get? s'.source_frame.toNat = some s'.source_frame_count := by
  obtain ⟨k1, k2, k3, k4, k5, _⟩ := drift_control_keeps s
  have hskip : ¬ (s.sync_src = SyncSrc.SYNC_VIDEO ∧ which ≤ FRAMEBUFFER_EVEN ∧
      s.source_frame_count < 0) := fun h => absurd h.2.2 (not_lt.mpr hc)
  have hsync : (!render_is_audio_sync s) = true := by
    rw [render_is_audio_sync_video s hmode]; rfl
  have hloop := repeat_loop_toNat hc
  have hadv := advance_source_frame_some
    { (drift_control s).1 with source_frame_count := 0 } (by show 0 ≤ (drift_control s).1.source_frame; rw [k2]; exact hsf)
    (by show (drift_control s).1.source_hz ≤ 60; rw [k4]; exact hhz)
    (by show (drift_control s).1.frame_repeat.length = 60; rw [k5]; exact hlen)
  obtain ⟨s', e1, e2, e3⟩ := hadv
  refine ⟨s', ?_, ?_, ?_, ?_⟩
  · unfold process_framebuffer
    rw [if_neg hskip]
    simp only [if_pos hwhich, hsync, if_true, k3, hloop]
    rw [e1]
    rfl
  · rw [List.count_append, List.count_append, List.count_replicate_self,
      List.count_eq_zero_of_not_mem (drift_control_no_display s)]
    rfl
  · rw [e2]
    show (if (drift_control s).1.source_frame + 1 ≥ (drift_control s).1.source_hz then 0
      else (drift_control s).1.source_frame + 1) = _
    rw [k2, k4]
  · have : ({ (drift_control s).1 with source_frame_count := 0 } : RenderState).frame_repeat
        = s.frame_repeat := k5
    rw [← this]; exact e3

theorem frame_repeat_presentations_twice :
    (repeat_state.sync_src = SyncSrc.SYNC_VIDEO ∧ FRAMEBUFFER_ODD ≤ FRAMEBUFFER_EVEN ∧
      0 ≤ repeat_state.source_frame_count ∧ 0 ≤ repeat_state.source_frame ∧
      repeat_state.source_hz ≤ 60 ∧ repeat_state.frame_repeat.length = 60) ∧
    ∃ s', process_framebuffer repeat_state 1 FRAMEBUFFER_ODD 320 none =
        some (s', [Effect.render_update_display] ++ (drift_control repeat_state).2.2 ++
          List.replicate repeat_state.source_frame_count.toNat Effect.render_update_display) ∧
      ([Effect.render_update_display] ++ (drift_control repeat_state).2.2 ++
          List.replicate repeat_state.source_frame_count.toNat
            Effect.render_update_display).count
        Effect.render_update_display = 1 + repeat_state.source_frame_count.toNat ∧
      s'.source_frame =
        (if repeat_state.source_frame + 1 ≥ repeat_state.source_hz then 0
         else repeat_state.source_frame + 1) ∧
      repeat_state.frame_repeat.get? s'.source_frame.toNat = some s'.source_frame_count :=
  ⟨by decide!,
    frame_repeat_presentations repeat_state 1 FRAMEBUFFER_ODD 320 none (by decide!) (by decide)
      (by decide!) (by decide!) (by decide!) (by decide!)⟩

theorem Pool.release_released (p : Pool) (b : Nat) :
    (p.release b).released = p.released ++ [b] := by
  unfold Pool.release
  by_cases h : p.num = p.storage
  · rw [if_pos h]
  · rw [if_neg h]

theorem Slots.coalesce_len (q : Slots) (hwf : q.Wf) (which : Nat) :
    (q.coalesce which).len =
      (if (q.contents.find? (fun f => decide (f.which = which))).isSome then q.len - 1
       else q.len) := by
  rw [Slots.scan_find q hwf which]
  unfold Slots.coalesce
  cases h : scan_slots which q.len.toNat q.read q.slots with
  | none => rfl
  | some c => rfl

/-- C14 (counterexample): the queue is full and its oldest entry has the
identifier of the frame being submitted, yet `render_framebuffer_updated`
does not get past `while (frame_queue_len == 4)`: nothing is coalesced or
enqueued before the consumer has taken an entry. -/
theorem full_queue_waits_before_coalescing :
    full_queue.frame_queue_len = 4 ∧
    (queue_contents full_queue).map (fun f => f.which) = [FRAMEBUFFER_ODD, 1, 2, 3] ∧
    render_framebuffer_updated full_queue FRAMEBUFFER_ODD 320 none = none := by
  decide!

/-- C14 (amended): in the threaded modes `render_framebuffer_updated` waits
exactly while the queue is full, whatever its entries are.  With fewer than
four entries it goes on without the consumer: the first waiting entry with
the identifier of the new frame, if there is one, is dropped and its buffer
passed to `release_buffer`; then the new frame is put into the queue and
`frame_ready` is signalled. -/
theorem submit_waits_while_full (s : RenderState) (which : Nat) (width : Int)
    (memory : Option (List Nat)) (ht : threaded s) (hwf : (queue_slots s).Wf) :
    (render_framebuffer_updated s which width memory = none ↔ s.frame_queue_len = 4) ∧
    (s.frame_queue_len ≠ 4 →
      ∃ s', render_framebuffer_updated s which width memory =
          some (s', [Effect.SDL_CondSignal_frame_ready]) ∧
        s'.frame_queue_len =
          (if ((queue_contents s).find? (fun f => decide (f.which = which))).isSome
           then s.frame_queue_len else s.frame_queue_len + 1) ∧
        s'.released = s.released ++
          (((queue_contents s).find? (fun f => decide (f.which = which))).toList.map
            fun f => f.buffer) ∧
        (queue_at s' ((s'.frame_queue_write - 1) % 4)).buffer = s.locked_pixels ∧
        (queue_at s' ((s'.frame_queue_write - 1) % 4)).which = which ∧
        (queue_at s' ((s'.frame_queue_write - 1) % 4)).width = width) := by
  obtain ⟨h1, h2⟩ := render_framebuffer_updated_threaded s ht which width memory
  constructor
  · constructor
    · intro hnone
      by_contra hlen
      obtain ⟨s', e, _⟩ := h2 hlen
      rw [hnone] at e
      exact absurd e (by simp)
    · exact h1
  · intro hlen
    obtain ⟨s', e, hq, _⟩ := h2 hlen
    obtain ⟨_, _, _, p4⟩ := render_framebuffer_updated_pool s s' ht hwf which width memory _ e
    obtain ⟨c1, _, _⟩ := (queue_slots s).coalesce_wf hwf which
    refine ⟨s', e, ?_, ?_, ?_⟩
    · have e1 : s'.frame_queue_len = (queue_slots s').len := rfl
      rw [e1, hq]
      show ((queue_slots s).coalesce which).len + 1 = _
      rw [Slots.coalesce_len _ hwf]
      show _ = if ((queue_slots s).contents.find? _).isSome then (queue_slots s).len
        else (queue_slots s).len + 1
      split <;> omega
    · show (pool_view s').released = _
      rw [p4]
      show _ = s.released ++ (((queue_slots s).contents.find? _).toList.map fun f => f.buffer)
      cases (queue_slots s).contents.find? (fun f => decide (f.which = which)) with
      | none => simp [pool_view]
      | some f => rw [Pool.release_released]; rfl
    · have hl := Slots.enqueue_last ((queue_slots s).coalesce which) c1
        (((queue_slots s).coalesce which).new_frame s.locked_pixels which width memory)
      have e2 : queue_at s' ((s'.frame_queue_write - 1) % 4) =
          (queue_slots s').slot (((queue_slots s').write - 1) % 4) := rfl
      rw [e2, hq]
      unfold Slots.submit
      rw [hl]
      exact ⟨rfl, rfl, rfl⟩

theorem submit_waits_while_full_coalesces :
    (threaded (hold_buffer (queue_run ⟨queue_start, [], []⟩ field_ops).state 14) ∧
      (queue_slots (hold_buffer (queue_run ⟨queue_start, [], []⟩ field_ops).state 14)).Wf ∧
      (hold_buffer (queue_run ⟨queue_start, [], []⟩ field_ops).state 14).frame_queue_len ≠ 4) ∧
    (render_framebuffer_updated full_queue FRAMEBUFFER_ODD 320 none = none ↔
      full_queue.frame_queue_len = 4) ∧
    ∃ s', render_framebuffer_updated
          (hold_buffer (queue_run ⟨queue_start, [], []⟩ field_ops).state 14)
          FRAMEBUFFER_ODD 320 none = some (s', [Effect.SDL_CondSignal_frame_ready]) ∧
      (queue_at s' ((s'.frame_queue_write - 1) % 4)).buffer = 14 :=
  have h := submit_waits_while_full
    (hold_buffer (queue_run ⟨queue_start, [], []⟩ field_ops).state 14) FRAMEBUFFER_ODD 320 none
    (by decide!) (by decide!)
  have h2 := h.2 (by decide!)
  ⟨by decide!,
    (submit_waits_while_full full_queue FRAMEBUFFER_ODD 320 none (by decide!) (by decide!)).1,
    h2.elim fun s' hs => ⟨s', hs.1, hs.2.2.2.1⟩⟩

theorem audio_callback_loop_calls (quitting : Bool) (obs : List (Bool × Bool)) :
    ∀ c ∈ (audio_callback_loop quitting obs).1, c = AudioCall.SDL_CondWait_audio_ready := by
  induction obs generalizing quitting with
  | nil => intro c hc; exact absurd hc (by simp [audio_callback_loop])
  | cons o obs ih =>
    obtain ⟨a, w⟩ := o
    intro c hc
    unfold audio_callback_loop at hc
    by_cases h1 : (!quitting && !a) = true
    · rw [if_pos h1] at hc
      by_cases h2 : (!w && !a) = true
      · rw [if_pos h2] at hc
        rcases List.mem_cons.mp hc with h | h
        · exact h
        · exact ih w c h
      · rw [if_neg h2] at hc
        exact List.mem_singleton.mp hc
    · rw [if_neg h1] at hc
      exact absurd hc (by simp)

theorem audio_callback_loop_quitting (obs : List (Bool × Bool)) :
    (audio_callback_loop true obs).2 = none ∨ (audio_callback_loop true obs).2 = some true := by
  cases obs with
  | nil => exact Or.inl rfl
  | cons o obs => exact Or.inr rfl

theorem wait_drained_calls (fp : Bool) (obs : List Bool) :
    ∀ c ∈ (wait_drained fp obs).1, c = AudioCall.SDL_CondWait_source_cond := by
  induction obs generalizing fp with
  | nil =>
    intro c hc
    unfold wait_drained at hc
    cases fp with
    | true => exact List.mem_singleton.mp hc
    | false => exact absurd hc (by simp)
  | cons v obs ih =>
    intro c hc
    unfold wait_drained at hc
    cases fp with
    | true =>
      rcases List.mem_cons.mp hc with h | h
      · exact h
      · exact ih v c h
    | false => exact absurd hc (by simp)

/-- The calls of `audio_callback`: the lock, waits on `audio_ready`, the
mixing when `quitting` is not set at the end of the loop, the unlock. -/
theorem audio_callback_calls (quitting : Bool) (obs : List (Bool × Bool)) :
    ∀ c ∈ audio_callback quitting obs,
      c = AudioCall.SDL_LockMutex_audio_mutex ∨ c = AudioCall.SDL_CondWait_audio_ready ∨
      (c = AudioCall.mix_and_convert ∧ (audio_callback_loop quitting obs).2 = some false) ∨
      c = AudioCall.SDL_UnlockMutex_audio_mutex := by
  intro c hc
  unfold audio_callback at hc
  simp only [List.mem_append, List.mem_singleton] at hc
  rcases hc with (h | h) | h
  · exact Or.inl h
  · exact Or.inr (Or.inl (audio_callback_loop_calls quitting obs c h))
  · cases hq : (audio_callback_loop quitting obs).2 with
    | none => rw [hq] at h; exact absurd h (by simp)
    | some q =>
      rw [hq] at h
      cases q with
      | true =>
        simp at h
        exact Or.inr (Or.inr (Or.inr h))
      | false =>
        simp at h
        rcases h with h | h
        · exact Or.inr (Or.inr (Or.inl ⟨h, rfl⟩))
        · exact Or.inr (Or.inr (Or.inr h))

/-- C15 (counterexample): with `quitting` set, the callbacks installed in the
video-driven, external and audio-thread modes still call `mix_and_convert`
(here with no underflow pending and no current system). -/
theorem quitting_ignored_outside_audio_mode :
    AudioCall.mix_and_convert ∈
      (invoke_callback (init_audio_callback SyncSrc.SYNC_VIDEO) true [] false {} (100, 200)).1 ∧
    AudioCall.mix_and_convert ∈
      (invoke_callback (init_audio_callback SyncSrc.SYNC_EXTERNAL) true [] false {}
        (100, 200)).1 ∧
    AudioCall.mix_and_convert ∈
      (invoke_callback (init_audio_callback SyncSrc.SYNC_AUDIO_THREAD) true [] false {}
        (100, 200)).1 := by
  decide

/-- C15 (amended): in `SYNC_AUDIO` mode, an invocation of the device callback
(`audio_callback`) that finds `quitting` set when it starts, or when its wait
loop ends, does not call `mix_and_convert`. -/
theorem quitting_stops_audio_callback (sync_src : SyncSrc) (quitting : Bool)
    (obs : List (Bool × Bool)) (current_system : Bool) (s : RenderState) (mixed : Int × Nat)
    (hmode : sync_src = SyncSrc.SYNC_AUDIO)
    (hq : quitting = true ∨ (audio_callback_loop quitting obs).2 = some true) :
    AudioCall.mix_and_convert ∉
      (invoke_callback (init_audio_callback sync_src) quitting obs current_system s mixed).1 := by
  subst hmode
  show AudioCall.mix_and_convert ∉ audio_callback quitting obs
  intro hc
  rcases audio_callback_calls quitting obs _ hc with h | h | ⟨_, h⟩ | h
  · exact absurd h (by decide)
  · exact absurd h (by decide)
  · rcases hq with hq | hq
    · subst hq
      rcases audio_callback_loop_quitting obs with h1 | h1
      · rw [h1] at h; exact absurd h (by simp)
      · rw [h1] at h; exact absurd h (by simp)
    · rw [hq] at h; exact absurd h (by simp)
  · exact absurd h (by decide)

theorem quitting_stops_audio_callback_woken :
    ((audio_callback_loop false [(false, true)]).2 = some true ∧
      (audio_callback_loop false [(false, true)]).1 = [AudioCall.SDL_CondWait_audio_ready]) ∧
    AudioCall.mix_and_convert ∉
      (invoke_callback (init_audio_callback SyncSrc.SYNC_AUDIO) false [(false, true)] true {}
        (100, 200)).1 :=
  ⟨by decide,
    quitting_stops_audio_callback SyncSrc.SYNC_AUDIO false [(false, true)] true {} (100, 200) rfl
      (Or.inr (by decide))⟩

/-- C13 (counterexample): in `SYNC_AUDIO_THREAD` mode `render_close_audio`
signals `audio_ready`, a condition of the AudioCallback-mode protocol. -/
theorem close_audio_signals_audio_ready :
    AudioCall.SDL_CondSignal_audio_ready ∈
      audio_op_calls { sync_src := SyncSrc.SYNC_AUDIO_THREAD } true AudioOp.render_close_audio ∧
    audio_callback_protocol AudioCall.SDL_CondSignal_audio_ready = true := by
  decide

/-- C13 (amended): let `c` be a call made by one of the operations (the
device callback that `init_audio` installs, `render_do_audio_ready`,
`render_audio_created`, `render_source_paused`, `render_source_resumed`,
`render_close_audio`).  In `SYNC_AUDIO_THREAD` mode `c` is a wait or signal
of the AudioCallback-mode conditions only if it is the signal of
`audio_ready` that `render_close_audio` makes in every mode.  In `SYNC_AUDIO`
mode `c` is never a call of the AudioThread protocol. -/
theorem mode_exclusivity (s : RenderState) (current_system : Bool) (op : AudioOp)
    (c : AudioCall) (hc : c ∈ audio_op_calls s current_system op) :
    (s.sync_src = SyncSrc.SYNC_AUDIO_THREAD → audio_callback_protocol c = true →
      op = AudioOp.render_close_audio ∧ c = AudioCall.SDL_CondSignal_audio_ready) ∧
    (s.sync_src = SyncSrc.SYNC_AUDIO → audio_thread_protocol c = false) := by
  constructor
  · intro hm hp
    cases op with
    | device_callback quitting obs mixed =>
      have e : audio_op_calls s current_system (AudioOp.device_callback quitting obs mixed) =
          audio_callback_run_on_audio current_system := by
        show (invoke_callback (init_audio_callback s.sync_src) _ _ _ _ _).1 = _
        rw [hm]; rfl
      rw [e] at hc
      unfold audio_callback_run_on_audio at hc
      cases current_system <;> simp at hc
      · subst hc; exact absurd hp (by decide)
      · rcases hc with h | h <;> subst h <;> exact absurd hp (by decide)
    | render_do_audio_ready src all_ready drained audio_paused =>
      have e : audio_op_calls s current_system
          (AudioOp.render_do_audio_ready src all_ready drained audio_paused) =
          (if all_ready then [AudioCall.system_request_exit] else []) := by
        show (render_do_audio_ready s src all_ready drained audio_paused).1 = _
        unfold render_do_audio_ready
        rw [if_pos hm]
      rw [e] at hc
      cases all_ready <;> simp at hc
      subst hc
      exact absurd hp (by decide)
    | render_audio_created audio_paused =>
      have hc' : c ∈ render_audio_created s current_system audio_paused := hc
      unfold render_audio_created at hc'
      rw [hm] at hc'
      cases current_system <;> simp at hc'
      subst hc'
      exact absurd hp (by decide)
    | render_source_paused remaining_sources =>
      have hc' : c ∈ render_source_paused s remaining_sources := hc
      unfold render_source_paused at hc'
      rw [hm] at hc'
      simp at hc'
      rcases hc' with ⟨_, h⟩
      rcases h with h | h <;> subst h <;> exact absurd hp (by decide)
    | render_source_resumed audio_paused =>
      have hc' : c ∈ render_source_resumed s current_system audio_paused := hc
      unfold render_source_resumed at hc'
      rw [hm] at hc'
      cases current_system <;> simp at hc'
      subst hc'
      exact absurd hp (by decide)
    | render_close_audio =>
      refine ⟨rfl, ?_⟩
      have hc' : c ∈ render_close_audio.2 := hc
      unfold render_close_audio at hc'
      simp at hc'
      rcases hc' with h | h | h | h <;> subst h
      · exact absurd hp (by decide)
      · rfl
      · exact absurd hp (by decide)
      · exact absurd hp (by decide)
  · intro hm
    cases op with
    | device_callback quitting obs mixed =>
      have e : audio_op_calls s current_system (AudioOp.device_callback quitting obs mixed) =
          audio_callback quitting obs := by
        show (invoke_callback (init_audio_callback s.sync_src) _ _ _ _ _).1 = _
        rw [hm]; rfl
      rw [e] at hc
      rcases audio_callback_calls quitting obs _ hc with h | h | ⟨h, _⟩ | h <;> subst h <;> rfl
    | render_do_audio_ready src all_ready drained audio_paused =>
      have hc' : c ∈ (render_do_audio_ready s src all_ready drained audio_paused).1 := hc
      unfold render_do_audio_ready at hc'
      have hne : ¬ s.sync_src = SyncSrc.SYNC_AUDIO_THREAD := by rw [hm]; decide
      rw [if_neg hne, if_pos hm] at hc'
      have hw := wait_drained_calls src.front_populated drained
      by_cases hd : (wait_drained src.front_populated drained).2 = true
      · simp only [hd, if_true, List.mem_append, List.mem_singleton, List.mem_cons,
          List.mem_nil_iff, or_false] at hc'
        rcases hc' with (h | h) | h | h
        · subst h; rfl
        · rw [hw c h]; rfl
        · subst h; rfl
        · subst h; rfl
      · simp only [hd, if_false, List.mem_append, List.mem_singleton, Bool.false_eq_true]
          at hc'
        rcases hc' with h | h
        · subst h; rfl
        · rw [hw c h]; rfl
    | render_audio_created audio_paused =>
      have hc' : c ∈ render_audio_created s current_system audio_paused := hc
      unfold render_audio_created at hc'
      rw [hm] at hc'
      cases audio_paused <;> simp at hc'
      subst hc'
      rfl
    | render_source_paused remaining_sources =>
      have hc' : c ∈ render_source_paused s remaining_sources := hc
      unfold render_source_paused at hc'
      rw [hm] at hc'
      simp at hc'
      rcases hc' with h | ⟨_, h⟩ <;> subst h <;> rfl
    | render_source_resumed audio_paused =>
      have hc' : c ∈ render_source_resumed s current_system audio_paused := hc
      unfold render_source_resumed at hc'
      rw [hm] at hc'
      cases audio_paused <;> simp at hc'
      subst hc'
      rfl
    | render_close_audio =>
      have hc' : c ∈ render_close_audio.2 := hc
      unfold render_close_audio at hc'
      simp at hc'
      rcases hc' with h | h | h | h <;> subst h <;> rfl

theorem binary32_round_err {q : ℚ} (hq : |q| ≤ 2 ^ 127) :
    FP.isFinite (binary32.round q) = true ∧
    |FP.toRat (binary32.round q) - q| ≤ |q| / 2 ^ 24 + 1 / 2 ^ 150 := by
  by_cases h0 : q = 0
  · subst h0
    rw [round_zero]
    simp [FP.isFinite, FP.toRat]
  obtain ⟨m, u, hm, hu, hue, herr, hc⟩ := round_cases binary32 h0
  have ha : 0 < |q| := abs_pos.mpr h0
  have hhalf : u / 2 ≤ |q| / 2 ^ 24 + 1 / 2 ^ 150 := by
    rcases floorLog2From_le_or_eq ha (2 * binary32.emax) binary32.emin with h | h
    · have e : u = pow2 (binary32.exponent |q|) * pow2 (-23) := by
        rw [hue, ← pow2_add]; rfl
      have e2 : pow2 (binary32.exponent |q|) ≤ |q| := h
      have e3 : pow2 (-23) = 1 / 2 ^ 23 := by rw [pow2_eq_zpow]; norm_num
      rw [e, e3]
      have : pow2 (binary32.exponent |q|) * (1 / 2 ^ 23) / 2 ≤ |q| / 2 ^ 24 := by
        have := mul_le_mul_of_nonneg_right e2 (by norm_num : (0 : ℚ) ≤ 1 / 2 ^ 24)
        calc pow2 (binary32.exponent |q|) * (1 / 2 ^ 23) / 2
            = pow2 (binary32.exponent |q|) * (1 / 2 ^ 24) := by ring
          _ ≤ |q| * (1 / 2 ^ 24) := this
          _ = |q| / 2 ^ 24 := by ring
      linarith [show (0 : ℚ) ≤ 1 / 2 ^ 150 by norm_num]
    · have e : binary32.exponent |q| = binary32.emin := h
      have e3 : u = 1 / 2 ^ 149 := by
        rw [hue, e, pow2_eq_zpow]
        have : binary32.emin - ((binary32.prec : Int) - 1) = -149 := by
          unfold FloatFormat.emin binary32; norm_num
        rw [this]; norm_num
      rw [e3]
      have : (0 : ℚ) ≤ |q| / 2 ^ 24 := div_nonneg (abs_nonneg _) (by norm_num)
      have e4 : (1 : ℚ) / 2 ^ 149 / 2 = 1 / 2 ^ 150 := by norm_num
      linarith
  have hmu : (m : ℚ) * u ≤ |q| + u / 2 := by
    have := (abs_le.mp herr).2
    linarith
  have hsmall : (m : ℚ) * u < pow2 ((binary32.emax : Int) + 1) := by
    have e : pow2 ((binary32.emax : Int) + 1) = 2 ^ 128 := by
      rw [pow2_eq_zpow]
      have : ((binary32.emax : Int) + 1) = 128 := by
        unfold binary32; norm_num
      rw [this]; norm_num
    rw [e]
    have h1 : |q| / 2 ^ 24 ≤ 2 ^ 127 / 2 ^ 24 := by
      apply div_le_div_of_nonneg_right hq (by norm_num)
    have h2 : (2 : ℚ) ^ 127 + (2 ^ 127 / 2 ^ 24 + 1 / 2 ^ 150) < 2 ^ 128 := by norm_num
    linarith
  have hval : abs ((if q < 0 then -((m : ℚ) * u) else (m : ℚ) * u) - q) =
      abs ((m : ℚ) * u - abs q) := by
    by_cases hn : q < 0
    · rw [if_pos hn, abs_of_neg hn]
      rw [show -((m : ℚ) * u) - q = -((m : ℚ) * u - -q) by ring, abs_neg]
    · rw [if_neg hn, abs_of_nonneg (not_lt.mp hn)]
  rcases hc with ⟨_, h⟩ | ⟨h, hm0⟩ | ⟨h, _, _⟩
  · exact absurd h (not_le.mpr hsmall)
  · rw [h]
    refine ⟨rfl, ?_⟩
    show |(0 : ℚ) - q| ≤ _
    have : abs ((m : ℚ) * u - abs q) = abs q := by
      rw [hm0]; simp
    rw [zero_sub, abs_neg]
    rw [this] at herr
    linarith
  · rw [h]
    refine ⟨rfl, ?_⟩
    show |(if q < 0 then -((m : ℚ) * u) else (m : ℚ) * u) - q| ≤ _
    rw [hval]
    linarith

/-- The absolute value of a rounded number. -/
theorem binary32_round_abs {q : ℚ} (hq : |q| ≤ 2 ^ 127) :
    FP.isFinite (binary32.round q) = true ∧
    |FP.toRat (binary32.round q)| ≤ |q| * (1 + 1 / 2 ^ 24) + 1 / 2 ^ 150 := by
  obtain ⟨h1, h2⟩ := binary32_round_err hq
  refine ⟨h1, ?_⟩
  have := abs_sub_abs_le_abs_sub (FP.toRat (binary32.round q)) q
  have e : |q| * (1 + 1 / 2 ^ 24) = |q| + |q| / 2 ^ 24 := by ring
  rw [e]
  linarith

theorem mul32_abs {x y : FP} (hx : x.isFinite = true) (hy : y.isFinite = true)
    (h : |x.toRat * y.toRat| ≤ 2 ^ 127) :
    FP.isFinite (FP.mul binary32 x y) = true ∧
    |FP.toRat (FP.mul binary32 x y)| ≤ |x.toRat * y.toRat| * (1 + 1 / 2 ^ 24) + 1 / 2 ^ 150 := by
  have hz : ∀ n : Bool, FP.isFinite (FP.zero n) = true ∧
      |FP.toRat (FP.zero n)| ≤ |x.toRat * y.toRat| * (1 + 1 / 2 ^ 24) + 1 / 2 ^ 150 := by
    intro n
    refine ⟨rfl, ?_⟩
    show |(0 : ℚ)| ≤ _
    rw [abs_zero]
    exact add_nonneg (mul_nonneg (abs_nonneg _) (by norm_num)) (by norm_num)
  cases x with
  | nan => exact absurd hx (by simp [FP.isFinite])
  | inf a => exact absurd hx (by simp [FP.isFinite])
  | zero a =>
    cases y with
    | nan => exact absurd hy (by simp [FP.isFinite])
    | inf b => exact absurd hy (by simp [FP.isFinite])
    | zero b => exact hz _
    | fin q => exact hz _
  | fin p =>
    cases y with
    | nan => exact absurd hy (by simp [FP.isFinite])
    | inf b => exact absurd hy (by simp [FP.isFinite])
    | zero b => exact hz _
    | fin q => exact binary32_round_abs h

theorem add32_abs {x y : FP} (hx : x.isFinite = true) (hy : y.isFinite = true)
    (h : |x.toRat + y.toRat| ≤ 2 ^ 127) :
    FP.isFinite (FP.add binary32 x y) = true ∧
    |FP.toRat (FP.add binary32 x y)| ≤ |x.toRat + y.toRat| * (1 + 1 / 2 ^ 24) + 1 / 2 ^ 150 := by
  cases x with
  | nan => exact absurd hx (by simp [FP.isFinite])
  | inf a => exact absurd hx (by simp [FP.isFinite])
  | zero a =>
    cases y with
    | nan => exact absurd hy (by simp [FP.isFinite])
    | inf b => exact absurd hy (by simp [FP.isFinite])
    | zero b =>
      refine ⟨rfl, ?_⟩
      show |(0 : ℚ)| ≤ _
      rw [abs_zero]
      exact add_nonneg (mul_nonneg (abs_nonneg _) (by norm_num)) (by norm_num)
    | fin q =>
      have e : (FP.zero a).toRat + (FP.fin q).toRat = q := by simp [FP.toRat]
      rw [e] at h ⊢
      exact binary32_round_abs h
  | fin p =>
    cases y with
    | nan => exact absurd hy (by simp [FP.isFinite])
    | inf b => exact absurd hy (by simp [FP.isFinite])
    | zero b =>
      have e : (FP.fin p).toRat + (FP.zero b).toRat = p := by simp [FP.toRat]
      rw [e] at h ⊢
      exact binary32_round_abs h
    | fin q => exact binary32_round_abs h

theorem lit_0_9f_eq : lit_0_9f = FP.fin (15099494 / 16777216) := by decide!

theorem lit_0_1f_eq : lit_0_1f = FP.fin (13421773 / 134217728) := by decide!

/-- One smoothing step in numbers: from an average of absolute value at most
`X` and a change of absolute value at most `B`, the new average is a number
of absolute value at most `ρ X + (c B + e) (1 - ρ)` with
`ρ = 0.9000001`, `c = 1.000002` and `e = 2^-145`. -/
theorem smooth_bound {avg : FP} {X : ℚ} {d : Int} {B : Nat} (hfin : avg.isFinite = true)
    (hX : |avg.toRat| ≤ X) (hXM : X ≤ 2 ^ 101) (hd : |d| ≤ (B : Int)) (hB : B < 2147483648) :
    FP.isFinite (FP.add binary32 (FP.mul binary32 avg lit_0_9f)
      (FP.mul binary32 (FP.ofInt binary32 d) lit_0_1f)) = true ∧
    |FP.toRat (FP.add binary32 (FP.mul binary32 avg lit_0_9f)
      (FP.mul binary32 (FP.ofInt binary32 d) lit_0_1f))| ≤
      9000001 / 10000000 * X + (1000002 / 1000000 * (B : ℚ) + 1 / 2 ^ 145) *
        (1 - 9000001 / 10000000) := by
  rw [lit_0_9f_eq, lit_0_1f_eq]
  have hX0 : 0 ≤ X := le_trans (abs_nonneg _) hX
  have hBq : (0 : ℚ) ≤ (B : ℚ) := Nat.cast_nonneg B
  have hBM : (B : ℚ) ≤ 2147483648 := by exact_mod_cast hB.le
  have hdq : |(d : ℚ)| ≤ (B : ℚ) := by
    have : ((|d| : Int) : ℚ) ≤ ((B : Int) : ℚ) := by exact_mod_cast hd
    simpa using this
  -- the product with 0.9f
  have hp0 : |avg.toRat * (FP.fin (15099494 / 16777216)).toRat| ≤ X * (15099494 / 16777216) := by
    show |avg.toRat * (15099494 / 16777216)| ≤ _
    rw [abs_mul, abs_of_pos (by norm_num : (0 : ℚ) < 15099494 / 16777216)]
    exact mul_le_mul_of_nonneg_right hX (by norm_num)
  obtain ⟨p1, p2⟩ := mul32_abs hfin (show (FP.fin (15099494 / 16777216)).isFinite = true from rfl)
    (le_trans hp0 (by linarith))
  -- the change as a float
  obtain ⟨t1, t2⟩ := binary32_round_abs (q := (d : ℚ)) (le_trans hdq (by linarith))
  have t1' : (FP.ofInt binary32 d).isFinite = true := t1
  have t2' : |(FP.ofInt binary32 d).toRat| ≤ (B : ℚ) * (1 + 1 / 2 ^ 24) + 1 / 2 ^ 150 := by
    refine le_trans t2 ?_
    have := mul_le_mul_of_nonneg_right hdq (by norm_num : (0 : ℚ) ≤ 1 + 1 / 2 ^ 24)
    linarith
  -- the product with 0.1f
  have ht0 : |(FP.ofInt binary32 d).toRat * (FP.fin (13421773 / 134217728)).toRat| ≤
      ((B : ℚ) * (1 + 1 / 2 ^ 24) + 1 / 2 ^ 150) * (13421773 / 134217728) := by
    show |(FP.ofInt binary32 d).toRat * (13421773 / 134217728)| ≤ _
    rw [abs_mul, abs_of_pos (by norm_num : (0 : ℚ) < 13421773 / 134217728)]
    exact mul_le_mul_of_nonneg_right t2' (by norm_num)
  obtain ⟨q1, q2⟩ := mul32_abs t1' (show (FP.fin (13421773 / 134217728)).isFinite = true from rfl)
    (le_trans ht0 (by nlinarith))
  -- the sum
  have hs : |(FP.mul binary32 avg (FP.fin (15099494 / 16777216))).toRat +
      (FP.mul binary32 (FP.ofInt binary32 d) (FP.fin (13421773 / 134217728))).toRat| ≤
      (X * (15099494 / 16777216) * (1 + 1 / 2 ^ 24) + 1 / 2 ^ 150) +
      (((B : ℚ) * (1 + 1 / 2 ^ 24) + 1 / 2 ^ 150) * (13421773 / 134217728) * (1 + 1 / 2 ^ 24)
        + 1 / 2 ^ 150) := by
    refine le_trans (abs_add _ _) (add_le_add ?_ ?_)
    · refine le_trans p2 ?_
      have := mul_le_mul_of_nonneg_right hp0 (by norm_num : (0 : ℚ) ≤ 1 + 1 / 2 ^ 24)
      linarith
    · refine le_trans q2 ?_
      have := mul_le_mul_of_nonneg_right ht0 (by norm_num : (0 : ℚ) ≤ 1 + 1 / 2 ^ 24)
      linarith
  obtain ⟨r1, r2⟩ := add32_abs p1 q1 (le_trans hs (by nlinarith))
  refine ⟨r1, le_trans r2 ?_⟩
  have := mul_le_mul_of_nonneg_right hs (by norm_num : (0 : ℚ) ≤ 1 + 1 / 2 ^ 24)
  nlinarith

/-- A step of a run without calls: there was no underflow before or after
the reading, the average is the smoothed one and `last_buffered` is the
reading. -/
theorem quiet_step (s : RenderState) (r : Int × Nat) (hq : (drift_step s r).2 = []) :
    (drift_step s r).1.average_change =
      (if s.last_buffered > NO_LAST_BUFFERED then
        FP.add binary32 (FP.mul binary32 s.average_change lit_0_9f)
          (FP.mul binary32 (FP.ofInt binary32 (wrap32 (r.1 - s.last_buffered))) lit_0_1f)
       else s.average_change) ∧
    (drift_step s r).1.last_buffered = r.1 ∧ 0 ≤ r.1 := by
  have hq' : (drift_control (audio_callback_drc s r).2).2.2 = [] := hq
  show (drift_control (audio_callback_drc s r).2).1.average_change = _ ∧
    (drift_control (audio_callback_drc s r).2).1.last_buffered = _ ∧ _
  by_cases hneg : s.cur_min_buffered < 0
  · have e : (audio_callback_drc s r).2 = s := by
      unfold audio_callback_drc; rw [if_pos hneg]
    rw [e, drift_control_eq, drift_adjust_effects] at hq'
    have hneg1 : (drift_smooth s).cur_min_buffered < 0 := hneg
    rw [if_pos hneg1] at hq'
    exact absurd hq' (by simp)
  · have e : (audio_callback_drc s r).2 =
        { s with cur_min_buffered := r.1, min_remaining_buffer := r.2 } := by
      unfold audio_callback_drc; rw [if_neg hneg]
    rw [e] at hq' ⊢
    generalize hs1 : ({ s with cur_min_buffered := r.1, min_remaining_buffer := r.2 } :
      RenderState) = s1 at hq' ⊢
    have c1 : s1.cur_min_buffered = r.1 := by rw [← hs1]
    have c2 : s1.last_buffered = s.last_buffered := by rw [← hs1]
    have c3 : s1.average_change = s.average_change := by rw [← hs1]
    rw [drift_control_eq, drift_adjust_effects] at hq'
    obtain ⟨h1, h2⟩ := List.append_eq_nil.mp hq'
    have hcur : ¬ (drift_smooth s1).cur_min_buffered < 0 := by
      intro h; rw [if_pos h] at h1; exact absurd h1 (by simp)
    have hne : ¬ FP.ne (chosen_ratio (drift_smooth s1)) (FP.zero false) = true := by
      intro h; rw [if_pos h] at h2; exact absurd h2 (by simp)
    obtain ⟨a1, a2, _⟩ := drift_adjust_state (drift_smooth s1)
    rw [drift_control_eq, a1, a2, if_neg hne, if_neg hcur]
    have hcur' : 0 ≤ s1.cur_min_buffered := not_lt.mp hcur
    refine ⟨?_, c1, by rw [← c1]; exact hcur'⟩
    show (if s1.last_buffered > NO_LAST_BUFFERED then
        FP.add binary32 (FP.mul binary32 s1.average_change lit_0_9f)
          (FP.mul binary32 (FP.ofInt binary32 (wrap32 (s1.cur_min_buffered - s1.last_buffered)))
            lit_0_1f)
       else s1.average_change) = _
    rw [c1, c2, c3]

theorem drift_run_cons (s : RenderState) (r : Int × Nat) (rs : List (Int × Nat)) :
    drift_run s (r :: rs) =
      ((drift_run (drift_step s r).1 rs).1, (drift_step s r).2 ++ (drift_run (drift_step s r).1 rs).2) :=
  rfl

theorem pow_rate_le_one (n : Nat) : ((9000001 : ℚ) / 10000000) ^ n ≤ 1 :=
  pow_le_one₀ (by norm_num) (by norm_num)

/-- The bound along a run without calls. -/
theorem drift_run_bound (B : Nat) (hB : B < 2147483648) (rs : List (Int × Nat)) :
    ∀ (s : RenderState) (X : ℚ), s.last_buffered > NO_LAST_BUFFERED →
      s.average_change.isFinite = true → |s.average_change.toRat| ≤ X → X ≤ 2 ^ 101 →
      changes_bounded B s.last_buffered rs → (drift_run s rs).2 = [] →
      (drift_run s rs).1.average_change.isFinite = true ∧
      |(drift_run s rs).1.average_change.toRat| ≤
        (9000001 / 10000000) ^ rs.length * X +
          (1000002 / 1000000 * (B : ℚ) + 1 / 2 ^ 145) *
            (1 - (9000001 / 10000000) ^ rs.length) := by
  induction rs with
  | nil =>
    intro s X _ hfin hX _ _ _
    refine ⟨hfin, ?_⟩
    show |s.average_change.toRat| ≤ _
    simp only [List.length_nil, pow_zero, one_mul, sub_self, mul_zero, add_zero]
    exact hX
  | cons r rs ih =>
    intro s X hlast hfin hX hXM hch hq
    rw [drift_run_cons] at hq ⊢
    obtain ⟨hq1, hq2⟩ := List.append_eq_nil.mp hq
    obtain ⟨e1, e2, e3⟩ := quiet_step s r hq1
    rw [if_pos hlast] at e1
    obtain ⟨hc1, hc2⟩ := hch
    have hw : wrap32 (r.1 - s.last_buffered) = r.1 - s.last_buffered := by
      have := abs_le.mp hc1
      exact wrap32_of_range (by omega) (by omega)
    rw [hw] at e1
    obtain ⟨b1, b2⟩ := smooth_bound hfin hX hXM hc1 hB
    rw [← e1] at b1 b2
    have hBq : (0 : ℚ) ≤ (B : ℚ) := Nat.cast_nonneg B
    have hBM : (B : ℚ) ≤ 2147483648 := by exact_mod_cast hB.le
    have hX0 : 0 ≤ X := le_trans (abs_nonneg _) hX
    have hX1 : 9000001 / 10000000 * X + (1000002 / 1000000 * (B : ℚ) + 1 / 2 ^ 145) *
        (1 - 9000001 / 10000000) ≤ 2 ^ 101 := by nlinarith
    have hl : (drift_step s r).1.last_buffered > NO_LAST_BUFFERED := by
      rw [e2]
      have : NO_LAST_BUFFERED < 0 := by decide
      omega
    have hch' : changes_bounded B (drift_step s r).1.last_buffered rs := by rw [e2]; exact hc2
    obtain ⟨f1, f2⟩ := ih (drift_step s r).1 _ hl b1 b2 hX1 hch' hq2
    refine ⟨f1, le_trans f2 (le_of_eq ?_)⟩
    rw [List.length_cons, pow_succ]
    ring

/-- C20 (counterexample): two runs of one quiet invocation.  From no drift and
a change of one sample (`B = 1`) the average becomes the `float` `0.1f`,
which is greater than `0.9^1 * 0 + 1 * (1 - 0.9^1) = 0.1`.  From the smallest
positive `float` `2^-149` and no change (`B = 0`) the average stays `2^-149`,
which is greater than `0.9^1 * 2^-149`: it does not go to 0. -/
theorem smoothed_average_exceeds_bound :
    (changes_bounded 1 steady_state.last_buffered [(801, 4000)] ∧
      (drift_run steady_state [(801, 4000)]).2 = [] ∧
      ¬ |(drift_run steady_state [(801, 4000)]).1.average_change.toRat| ≤
        (9 / 10) ^ 1 * |steady_state.average_change.toRat| + 1 * (1 - (9 / 10) ^ 1)) ∧
    (changes_bounded 0 tiny_drift_state.last_buffered [(800, 4000)] ∧
      (drift_run tiny_drift_state [(800, 4000)]).2 = [] ∧
      ¬ |(drift_run tiny_drift_state [(800, 4000)]).1.average_change.toRat| ≤
        (9 / 10) ^ 1 * |tiny_drift_state.average_change.toRat| + 0 * (1 - (9 / 10) ^ 1)) := by
  have h1 : (drift_run steady_state [(801, 4000)]).1.average_change =
      FP.fin (13421773 / 134217728) := by decide!
  have h2 : (drift_run tiny_drift_state [(800, 4000)]).1.average_change =
      FP.fin (1 / 2 ^ 149) := by decide!
  have h3 : steady_state.average_change = FP.zero false := rfl
  have h4 : tiny_drift_state.average_change = FP.fin (1 / 2 ^ 149) := rfl
  refine ⟨⟨by decide!, by decide!, ?_⟩, by decide!, by decide!, ?_⟩
  · rw [h1, h3]
    simp only [FP.toRat]
    rw [abs_of_pos (by norm_num : (0 : ℚ) < 13421773 / 134217728)]
    norm_num
  · rw [h2, h4]
    simp only [FP.toRat]
    rw [abs_of_pos (by norm_num : (0 : ℚ) < 1 / 2 ^ 149)]
    norm_num

/-- C20 (amended): let the drift controller be invoked on `n` readings whose
change from one to the next (the first from `last_buffered`, which holds a
reading) is at most `B < 2^31` in absolute value, and let it make no call (no
intervention).  If the average is at first a number `avg_0` with
`|avg_0| <= 2^100`, it is at the end a number `avg_n` with
`|avg_n| <= r^n * |avg_0| + c * B * (1 - r^n) + 2^-145`, where
`r = 0.9000001` and `c = 1.000002` allow for the rounding of the `float`
operations.  With `B = 0` it comes within `2^-145` of 0 geometrically. -/
theorem smoothed_average_bound (s : RenderState) (readings : List (Int × Nat)) (B : Nat)
    (hB : B < 2147483648) (hlast : s.last_buffered > NO_LAST_BUFFERED)
    (hfin : s.average_change.isFinite = true) (ha : |s.average_change.toRat| ≤ 2 ^ 100)
    (hch : changes_bounded B s.last_buffered readings)
    (hquiet : (drift_run s readings).2 = []) :
    (drift_run s readings).1.average_change.isFinite = true ∧
    |(drift_run s readings).1.average_change.toRat| ≤
      (9000001 / 10000000) ^ readings.length * |s.average_change.toRat| +
        1000002 / 1000000 * (B : ℚ) * (1 - (9000001 / 10000000) ^ readings.length) +
        1 / 2 ^ 145 := by
  obtain ⟨h1, h2⟩ := drift_run_bound B hB readings s |s.average_change.toRat| hlast hfin
    (le_refl _) (le_trans ha (by norm_num)) hch hquiet
  refine ⟨h1, le_trans h2 ?_⟩
  have hp := pow_rate_le_one readings.length
  have hp0 : (0 : ℚ) ≤ (9000001 / 10000000) ^ readings.length := pow_nonneg (by norm_num) _
  nlinarith

theorem smoothed_average_bound_steady :
    ((1 : Nat) < 2147483648 ∧ steady_state.last_buffered > NO_LAST_BUFFERED ∧
      steady_state.average_change.isFinite = true ∧
      changes_bounded 1 steady_state.last_buffered steady_readings ∧
      (drift_run steady_state steady_readings).2 = []) ∧
    (drift_run steady_state steady_readings).1.average_change.isFinite = true ∧
    |(drift_run steady_state steady_readings).1.average_change.toRat| ≤
      (9000001 / 10000000) ^ steady_readings.length * |steady_state.average_change.toRat| +
        1000002 / 1000000 * ((1 : Nat) : ℚ) *
          (1 - (9000001 / 10000000) ^ steady_readings.length) +
        1 / 2 ^ 145 :=
  ⟨by decide!,
    smoothed_average_bound steady_state steady_readings 1 (by decide) (by decide!) (by decide!)
      (by show |(0 : ℚ)| ≤ _; rw [abs_zero]; norm_num) (by decide!) (by decide!)⟩

/-- C13 (witness): `render_do_audio_ready` in `SYNC_AUDIO` mode signals
`audio_ready`, which is not a call of the AudioThread protocol. -/
theorem mode_exclusivity_audio_ready :
    AudioCall.SDL_CondSignal_audio_ready ∈
      audio_op_calls { sync_src := SyncSrc.SYNC_AUDIO } true
        (AudioOp.render_do_audio_ready idle_source true [] false) ∧
    audio_thread_protocol AudioCall.SDL_CondSignal_audio_ready = false :=
  ⟨by decide,
    (mode_exclusivity { sync_src := SyncSrc.SYNC_AUDIO } true
      (AudioOp.render_do_audio_ready idle_source true [] false)
      AudioCall.SDL_CondSignal_audio_ready (by decide)).2 rfl⟩

/-! ## The table on the walk path -/

theorem memset_int_length {a t : List Int} {n : Nat} (h : memset_int a n = some t) :
    t.length = a.length := by
  unfold memset_int at h
  by_cases hn : n ≤ a.length
  · rw [if_pos hn] at h
    rw [← Option.some.inj h, List.length_append, List.length_replicate, List.length_drop]
    omega
  · rw [if_neg hn] at h
    exact absurd h (by simp)

/-- On the walk path the table is the walk's table with the final
correction of the last entry. -/
theorem build_frame_repeat_walk (old : List Int) {hz d : Int}
    (hc : ¬ wrap32 (Int.natAbs (wrap32 (hz - d))) < 2) :
    build_frame_repeat old hz d =
      some
        ((if (accumulator_walk old hz d).dst_frames ≠ d then
            (accumulator_walk old hz d).frame_repeat.set (hz - 1).toNat
              (wrap32 ((accumulator_walk old hz d).frame_repeat.getD (hz - 1).toNat 0 +
                wrap32 (d - (accumulator_walk old hz d).dst_frames)))
          else (accumulator_walk old hz d).frame_repeat),
          (accumulator_walk old hz d).max_repeat) := by
  unfold build_frame_repeat
  rw [if_neg hc]
  rfl

/-- The invariant of the walk after all `source_hz` frames. -/
theorem accumulator_walk_inv (old : List Int) {hz : Int} (d : Int) (hlen : old.length = 60)
    (hhz : hz = 50 ∨ hz = 60) :
    WalkInv (Int.tdiv (wrap32 (d * 100000)) hz) 60 hz.toNat (accumulator_walk old hz d) := by
  have hk : 0 + hz.toNat ≤ old.length := by omega
  have hinv := walk_for_inv hz.toNat (walk_inv_init (Int.tdiv (wrap32 (d * 100000)) hz) old) hk
  rw [Nat.zero_add, hlen] at hinv
  exact hinv

/-- Without overflow the increment is the quotient rounded down. -/
theorem walk_inc_exact {hz d : Int} (hhz : hz = 50 ∨ hz = 60) (hd0 : 0 ≤ d) (hd1 : d ≤ 21474) :
    Int.tdiv (wrap32 (d * 100000)) hz = d * 100000 / hz := by
  rw [wrap32_of_range (by omega) (by omega)]
  exact Int.tdiv_eq_ediv (by omega) (by omega)

/-- The walk never counts more display frames than the display has, and at
most 30000. -/
theorem accumulator_walk_dst_le (old : List Int) {hz d : Int} (hlen : old.length = 60)
    (hhz : hz = 50 ∨ hz = 60) (hd0 : 0 ≤ d) :
    (accumulator_walk old hz d).dst_frames ≤ d ∧
    (accumulator_walk old hz d).dst_frames ≤ 30000 := by
  obtain ⟨_, _, _, wdst, _, wpos, wneg⟩ := accumulator_walk_inv old d hlen hhz
  have hhzpos : 0 < hz := by omega
  have hcast : ((hz.toNat : Nat) : Int) = hz := Int.toNat_of_nonneg (by omega)
  by_cases hi : 0 ≤ Int.tdiv (wrap32 (d * 100000)) hz
  · obtain ⟨a1, a2⟩ := wpos hi
    rw [hcast] at a2
    rcases tdiv_pos_cases (wrap32 (d * 100000)) hhzpos with ⟨hx, e⟩ | ⟨hx, e⟩
    · rw [e] at a2
      have hq1 : hz * (wrap32 (d * 100000) / hz) ≤ wrap32 (d * 100000) :=
        Int.mul_ediv_self_le (by omega)
      have hw1 : wrap32 (d * 100000) ≤ d * 100000 := by unfold wrap32; omega
      have hw2 : wrap32 (d * 100000) < 2147483648 := by unfold wrap32; omega
      constructor <;> omega
    · rw [e] at hi a2
      have hq0 : 0 ≤ -wrap32 (d * 100000) / hz := Int.ediv_nonneg (by omega) (by omega)
      have hz0 : -wrap32 (d * 100000) / hz = 0 := by omega
      rw [hz0] at a2
      constructor <;> omega
  · have := (wneg (by omega)).1
    constructor <;> omega

/-- The finished table on the walk path: the last entry of the walk's table
receives the correction `display_hz - dst_frames`, which is not negative. -/
theorem build_frame_repeat_shape (old : List Int) {hz d : Int} (hlen : old.length = 60)
    (hhz : hz = 50 ∨ hz = 60) (hd0 : 0 ≤ d) (hd1 : d ≤ 2147483647) (hne : 2 ≤ |hz - d|) :
    0 ≤ d - (accumulator_walk old hz d).dst_frames ∧
    build_frame_repeat old hz d =
      some ((accumulator_walk old hz d).frame_repeat.set (hz - 1).toNat
        ((accumulator_walk old hz d).frame_repeat.getD (hz - 1).toNat 0 +
          (d - (accumulator_walk old hz d).dst_frames)),
        (accumulator_walk old hz d).max_repeat) := by
  obtain ⟨wlen, _, went, wdst, _, _, _⟩ := accumulator_walk_inv old d hlen hhz
  obtain ⟨hle, hle2⟩ := accumulator_walk_dst_le old hlen hhz hd0
  have hcond : ¬ wrap32 (Int.natAbs (wrap32 (hz - d))) < 2 := by
    rw [near_equal_cond hhz hd0 hd1]
    omega
  have hlastlt : (hz - 1).toNat < (accumulator_walk old hz d).frame_repeat.length := by omega
  have hlastent := went (hz - 1).toNat (by omega)
  refine ⟨by omega, ?_⟩
  rw [build_frame_repeat_walk old hcond]
  by_cases hdd : (accumulator_walk old hz d).dst_frames ≠ d
  · rw [if_pos hdd, wrap32_of_range (x := d - (accumulator_walk old hz d).dst_frames)
      (by omega) (by omega), wrap32_of_range (by omega) (by omega)]
  · rw [if_neg hdd]
    have hd' : (accumulator_walk old hz d).dst_frames = d := not_not.mp hdd
    rw [hd', sub_self, add_zero, set_getD_self _ hlastlt]

/-- Every entry of the finished table that belongs to a source frame is at
least -1, and the table keeps its 60 entries. -/
theorem build_frame_repeat_ge (old : List Int) {hz d : Int} (hlen : old.length = 60)
    (hhz : hz = 50 ∨ hz = 60) (hd0 : 0 ≤ d) (hd1 : d ≤ 2147483647) (hne : 2 ≤ |hz - d|) :
    ∃ t mr, build_frame_repeat old hz d = some (t, mr) ∧ t.length = 60 ∧
      ∀ i, i < hz.toNat → -1 ≤ t.getD i 0 := by
  obtain ⟨wlen, _, went, _, _, _, _⟩ := accumulator_walk_inv old d hlen hhz
  obtain ⟨hc0, hb⟩ := build_frame_repeat_shape old hlen hhz hd0 hd1 hne
  refine ⟨_, _, hb, by rw [List.length_set]; exact wlen, ?_⟩
  intro i hi
  by_cases hil : (hz - 1).toNat = i
  · subst hil
    rw [getD_set_self _ _ (by omega)]
    have := (went (hz - 1).toNat hi).1
    omega
  · rw [getD_set_ne _ _ hil]
    exact (went i hi).1

theorem walk_body_nonneg {inc : Int} {L k : Nat} {w : Walk} (h : WalkInv inc L k w) (hk : k < L)
    (hinc : 100000 < inc) (hnn : ∀ i, i < k → 0 ≤ w.frame_repeat.getD i 0) :
    ∀ i, i < k + 1 → 0 ≤ (walk_body inc k w).frame_repeat.getD i 0 := by
  obtain ⟨hlen, _, _, _, _, hpos, _⟩ := h
  obtain ⟨p1, _⟩ := hpos (by omega)
  unfold walk_body
  simp only
  set w1 : Walk := { w with frame_repeat := w.frame_repeat.set k (-1), accum := w.accum + inc }
    with hw1
  have hk1 : k < w1.frame_repeat.length := by simp [hw1, hlen, hk]
  have hkw : k < w.frame_repeat.length := by omega
  obtain ⟨c, hc, h1, _, h3, h4, _⟩ := walk_while_spec k (w1.accum / 100000).toNat w1 hk1
  have ht : (walk_while k (w1.accum / 100000).toNat w1).frame_repeat =
      w.frame_repeat.set k (-1 + (c : Int)) := by
    rw [h1]
    simp only [hw1, List.set_set]
    rw [getD_set_self _ _ hkw]
  have hw1a : w1.accum = w.accum + inc := rfl
  rw [h3, hw1a] at h4
  rw [hw1a] at hc
  have hc1 : 1 ≤ c := by
    by_contra hcon
    have hc0 : c = 0 := by omega
    subst hc0
    have hf : 0 < ((w.accum + inc) / 100000).toNat := by omega
    have := h4 hf
    simp at this
    omega
  intro i hi
  rw [ht]
  by_cases hik : k = i
  · subst hik
    rw [getD_set_self _ _ hkw]
    omega
  · rw [getD_set_ne _ _ hik]
    exact hnn i (by omega)

theorem walk_for_nonneg {inc : Int} {L : Nat} (hinc : 100000 < inc) (n : Nat) {k : Nat}
    {w : Walk} (h : WalkInv inc L k w) (hk : k + n ≤ L)
    (hnn : ∀ i, i < k → 0 ≤ w.frame_repeat.getD i 0) :
    ∀ i, i < k + n → 0 ≤ (walk_for inc n k w).frame_repeat.getD i 0 := by
  induction n generalizing k w with
  | zero => simpa [walk_for] using hnn
  | succ n ih =>
    unfold walk_for
    have := ih (walk_body_inv h (by omega)) (by omega) (walk_body_nonneg h (by omega) hinc hnn)
    rw [show k + (n + 1) = k + 1 + n by omega]
    exact this

/-- Entries that are all at least 0 add up, each counted with its own
refresh, to at least the number of source frames. -/
theorem frame_repeat_sum_ge (t : List Int) (n : Nat) (hn : n ≤ t.length)
    (h : ∀ i, i < n → 0 ≤ t.getD i 0) : (n : Int) ≤ frame_repeat_sum t n := by
  induction n with
  | zero => simp [frame_repeat_sum]
  | succ n ih =>
    rw [frame_repeat_sum_succ t (by omega)]
    have h1 := ih (by omega) (fun i hi => h i (by omega))
    have h2 := h n (by omega)
    push_cast
    omega

/-- C23: for PAL and NTSC and every display rate from 0 to 21474 Hz that
takes the walk (`|source_hz - display_hz| >= 2`), the accumulator walk counts
`display_hz` or `display_hz - 1` display frames, so that the final
correction `display_hz - dst_frames` added to the last entry of the table is
0 or 1. -/
theorem walk_counts_display_frames (old : List Int) (hz d : Int) (hlen : old.length = 60)
    (hhz : hz = 50 ∨ hz = 60) (hd0 : 0 ≤ d) (hd1 : d ≤ 21474) (hne : 2 ≤ |hz - d|) :
    ((accumulator_walk old hz d).dst_frames = d ∨
      (accumulator_walk old hz d).dst_frames = d - 1) ∧
    (d - (accumulator_walk old hz d).dst_frames = 0 ∨
      d - (accumulator_walk old hz d).dst_frames = 1) ∧
    ∃ mr, build_frame_repeat old hz d =
      some ((accumulator_walk old hz d).frame_repeat.set (hz - 1).toNat
        ((accumulator_walk old hz d).frame_repeat.getD (hz - 1).toNat 0 +
          (d - (accumulator_walk old hz d).dst_frames)), mr) := by
  obtain ⟨_, _, _, _, wacc, wpos, _⟩ := accumulator_walk_inv old d hlen hhz
  have hinc := walk_inc_exact hhz hd0 hd1
  rw [hinc] at wpos
  have hi0 : 0 ≤ d * 100000 / hz := Int.ediv_nonneg (by omega) (by omega)
  obtain ⟨a1, a2⟩ := wpos hi0
  have hcast : ((hz.toNat : Nat) : Int) = hz := Int.toNat_of_nonneg (by omega)
  rw [hcast] at a2
  have hq1 : hz * (d * 100000 / hz) ≤ d * 100000 := Int.mul_ediv_self_le (by omega)
  have hq2 : d * 100000 < hz * (d * 100000 / hz) + hz :=
    Int.lt_mul_ediv_self_add (by omega)
  have hdst : (accumulator_walk old hz d).dst_frames = d ∨
      (accumulator_walk old hz d).dst_frames = d - 1 := by
    rcases hhz with rfl | rfl <;> omega
  exact ⟨hdst, by omega, _, (build_frame_repeat_shape old hlen hhz hd0 (by omega) hne).2⟩

theorem walk_counts_display_frames_ntsc_144 :
    ((List.replicate 60 (0 : Int)).length = 60 ∧ ((60 : Int) = 50 ∨ (60 : Int) = 60) ∧
      (0 : Int) ≤ 144 ∧ (144 : Int) ≤ 21474 ∧ (2 : Int) ≤ |60 - 144|) ∧
    ((accumulator_walk (List.replicate 60 0) 60 144).dst_frames = 144 ∨
      (accumulator_walk (List.replicate 60 0) 60 144).dst_frames = 144 - 1) ∧
    (144 - (accumulator_walk (List.replicate 60 0) 60 144).dst_frames = 0 ∨
      144 - (accumulator_walk (List.replicate 60 0) 60 144).dst_frames = 1) ∧
    ∃ mr, build_frame_repeat (List.replicate 60 0) 60 144 =
      some ((accumulator_walk (List.replicate 60 0) 60 144).frame_repeat.set (60 - 1 : Int).toNat
        ((accumulator_walk (List.replicate 60 0) 60 144).frame_repeat.getD (60 - 1 : Int).toNat 0 +
          (144 - (accumulator_walk (List.replicate 60 0) 60 144).dst_frames)), mr) :=
  ⟨by decide,
    walk_counts_display_frames (List.replicate 60 0) 60 144 (by decide) (by decide) (by decide)
      (by decide) (by decide)⟩

/-- C24 (counterexample): NTSC on a display that reports 21475 Hz takes the
walk, `display_hz * 100000` exceeds the range of `int`, the increment comes
out negative, and the finished table has -1 in its first 59 entries although
the display is faster than the source. -/
theorem fast_display_drops_frames :
    ((0 : Int) ≤ 21475 ∧ (60 : Int) + 2 ≤ 21475) ∧
    (build_frame_repeat (List.replicate 60 0) 60 21475).map (fun b => b.1) =
      some (List.replicate 59 (-1) ++ [21474]) ∧
    ((render_set_video_standard (video_state SyncSrc.SYNC_VIDEO 21475 48000) VidStd.VID_NTSC).map
      fun s => s.frame_repeat.getD 0 0) = some (-1) := by
  decide!

/-- C24 (amended): in a non-audio-synchronised mode with the 60-entry table,
for PAL and NTSC and every display rate from 0 to 2147483647 that takes the
walk, the table is built, `render_set_video_standard` stores it, and every
entry of a source frame is at least -1; if the display rate is at most
`source_hz - 2` at least one entry is -1; if it is at least `source_hz + 2`
and at most 21474 every entry is at least 0; so for display rates up to 21474
an entry -1 is left exactly when the display is slower than the source. -/
theorem table_entries_sentinel (s : RenderState) (std : VidStd)
    (hsync : render_is_audio_sync s = false) (hlen : s.frame_repeat.length = 60)
    (hd0 : 0 ≤ s.display_hz) (hd1 : s.display_hz ≤ 2147483647)
    (hne : 2 ≤ |(if std = VidStd.VID_PAL then 50 else 60) - s.display_hz|) :
    ∃ t mr,
      build_frame_repeat s.frame_repeat (if std = VidStd.VID_PAL then 50 else 60) s.display_hz =
        some (t, mr) ∧
      (∀ s', render_set_video_standard s std = some s' →
        s'.frame_repeat = t ∧ s'.source_hz = (if std = VidStd.VID_PAL then 50 else 60)) ∧
      (∀ i, i < (if std = VidStd.VID_PAL then (50 : Int) else 60).toNat → -1 ≤ t.getD i 0) ∧
      (s.display_hz ≤ (if std = VidStd.VID_PAL then 50 else 60) - 2 →
        ∃ i, i < (if std = VidStd.VID_PAL then (50 : Int) else 60).toNat ∧ t.getD i 0 = -1) ∧
      ((if std = VidStd.VID_PAL then 50 else 60) + 2 ≤ s.display_hz → s.display_hz ≤ 21474 →
        ∀ i, i < (if std = VidStd.VID_PAL then (50 : Int) else 60).toNat → 0 ≤ t.getD i 0) ∧
      (s.display_hz ≤ 21474 →
        ((∃ i, i < (if std = VidStd.VID_PAL then (50 : Int) else 60).toNat ∧ t.getD i 0 = -1) ↔
          s.display_hz < (if std = VidStd.VID_PAL then 50 else 60))) := by
  have hhz : (if std = VidStd.VID_PAL then (50 : Int) else 60) = 50 ∨
      (if std = VidStd.VID_PAL then (50 : Int) else 60) = 60 := by
    split <;> simp
  generalize hg : (if std = VidStd.VID_PAL then (50 : Int) else 60) = hz at hhz hne ⊢
  obtain ⟨t, mr, hb, htl, hge⟩ := build_frame_repeat_ge s.frame_repeat hlen hhz hd0 hd1 hne
  have hslow : s.display_hz ≤ hz - 2 → ∃ i, i < hz.toNat ∧ t.getD i 0 = -1 := by
    intro hs
    by_contra hcon
    push_neg at hcon
    have hall : ∀ i, i < hz.toNat → 0 ≤ t.getD i 0 := by
      intro i hi
      have h1 := hge i hi
      have h2 := hcon i hi
      omega
    have hsum := build_frame_repeat_sum hlen hhz hd0 hd1 (Or.inr hne) hb
    have hle := frame_repeat_sum_ge t hz.toNat (by omega) hall
    omega
  have hfast : hz + 2 ≤ s.display_hz → s.display_hz ≤ 21474 →
      ∀ i, i < hz.toNat → 0 ≤ t.getD i 0 := by
    intro hf hb1 i hi
    obtain ⟨hc0, hshape⟩ := build_frame_repeat_shape s.frame_repeat hlen hhz hd0 hd1 hne
    rw [hshape] at hb
    have ht : t = _ := (Prod.mk.inj (Option.some.inj hb)).1.symm
    have hinc : 100000 < Int.tdiv (wrap32 (s.display_hz * 100000)) hz := by
      rw [walk_inc_exact hhz hd0 hb1]
      have : 100000 + 1 ≤ s.display_hz * 100000 / hz := by
        rw [Int.le_ediv_iff_mul_le (by omega)]
        rcases hhz with rfl | rfl <;> omega
      omega
    have hk : 0 + hz.toNat ≤ s.frame_repeat.length := by omega
    have hnn := walk_for_nonneg hinc hz.toNat (walk_inv_init _ s.frame_repeat) hk
      (fun i hi => absurd hi (Nat.not_lt_zero i))
    rw [Nat.zero_add] at hnn
    have hwl : (accumulator_walk s.frame_repeat hz s.display_hz).frame_repeat.length = 60 :=
      (accumulator_walk_inv s.frame_repeat s.display_hz hlen hhz).1
    rw [ht]
    by_cases hil : (hz - 1).toNat = i
    · subst hil
      rw [getD_set_self _ _ (by omega)]
      have := hnn (hz - 1).toNat hi
      have e : walk_for (Int.tdiv (wrap32 (s.display_hz * 100000)) hz) hz.toNat 0
          ⟨s.frame_repeat, 0, 0, 0⟩ = accumulator_walk s.frame_repeat hz s.display_hz := rfl
      rw [e] at this
      omega
    · rw [getD_set_ne _ _ hil]
      exact hnn i hi
  refine ⟨t, mr, hb, ?_, hge, hslow, hfast, ?_⟩
  · intro s' hs'
    obtain ⟨t', mr', mb, hb', _, rfl⟩ := render_set_video_standard_eq hsync hs'
    rw [hg, hb] at hb'
    have := (Prod.mk.inj (Option.some.inj hb')).1
    exact ⟨this.symm, hg⟩
  · intro hb1
    constructor
    · rintro ⟨i, hi, hm⟩
      by_contra hcon
      have hf : hz + 2 ≤ s.display_hz := by
        have := abs_le.not.mp (by omega : ¬ |hz - s.display_hz| ≤ 1)
        omega
      have := hfast hf hb1 i hi
      omega
    · intro hlt
      apply hslow
      have := abs_le.not.mp (by omega : ¬ |hz - s.display_hz| ≤ 1)
      omega

theorem table_entries_sentinel_ntsc_144 :
    (render_is_audio_sync (video_state SyncSrc.SYNC_VIDEO 144 48000) = false ∧
      (video_state SyncSrc.SYNC_VIDEO 144 48000).frame_repeat.length = 60 ∧
      0 ≤ (video_state SyncSrc.SYNC_VIDEO 144 48000).display_hz ∧
      (video_state SyncSrc.SYNC_VIDEO 144 48000).display_hz ≤ 2147483647 ∧
      2 ≤ |(if VidStd.VID_NTSC = VidStd.VID_PAL then 50 else 60) -
        (video_state SyncSrc.SYNC_VIDEO 144 48000).display_hz|) ∧
    ∃ t mr,
      build_frame_repeat (video_state SyncSrc.SYNC_VIDEO 144 48000).frame_repeat
        (if VidStd.VID_NTSC = VidStd.VID_PAL then 50 else 60)
        (video_state SyncSrc.SYNC_VIDEO 144 48000).display_hz = some (t, mr) ∧
      (∀ s', render_set_video_standard (video_state SyncSrc.SYNC_VIDEO 144 48000)
          VidStd.VID_NTSC = some s' →
        s'.frame_repeat = t ∧
        s'.source_hz = (if VidStd.VID_NTSC = VidStd.VID_PAL then 50 else 60)) ∧
      (∀ i, i < (if VidStd.VID_NTSC = VidStd.VID_PAL then (50 : Int) else 60).toNat →
        -1 ≤ t.getD i 0) ∧
      ((video_state SyncSrc.SYNC_VIDEO 144 48000).display_hz ≤
          (if VidStd.VID_NTSC = VidStd.VID_PAL then 50 else 60) - 2 →
        ∃ i, i < (if VidStd.VID_NTSC = VidStd.VID_PAL then (50 : Int) else 60).toNat ∧
          t.getD i 0 = -1) ∧
      ((if VidStd.VID_NTSC = VidStd.VID_PAL then 50 else 60) + 2 ≤
          (video_state SyncSrc.SYNC_VIDEO 144 48000).display_hz →
        (video_state SyncSrc.SYNC_VIDEO 144 48000).display_hz ≤ 21474 →
        ∀ i, i < (if VidStd.VID_NTSC = VidStd.VID_PAL then (50 : Int) else 60).toNat →
          0 ≤ t.getD i 0) ∧
      ((video_state SyncSrc.SYNC_VIDEO 144 48000).display_hz ≤ 21474 →
        ((∃ i, i < (if VidStd.VID_NTSC = VidStd.VID_PAL then (50 : Int) else 60).toNat ∧
            t.getD i 0 = -1) ↔
          (video_state SyncSrc.SYNC_VIDEO 144 48000).display_hz <
            (if VidStd.VID_NTSC = VidStd.VID_PAL then 50 else 60))) :=
  ⟨by decide!,
    table_entries_sentinel (video_state SyncSrc.SYNC_VIDEO 144 48000) VidStd.VID_NTSC
      (by decide!) (by decide!) (by decide!) (by decide!) (by decide!)⟩

/-- C25: NTSC on a display that reports 61 Hz takes the near-equal path,
whose `memset` clears `display_hz = 61` entries of the 60-entry table: the
write runs past the end of the array, and `render_set_video_standard` has no
defined result.  The same happens from any 60-entry table. -/
theorem near_equal_memset_overruns :
    render_set_video_standard (video_state SyncSrc.SYNC_VIDEO 61 48000) VidStd.VID_NTSC = none ∧
    (video_state SyncSrc.SYNC_VIDEO 61 48000).frame_repeat.length = 60 ∧
    memset_int (video_state SyncSrc.SYNC_VIDEO 61 48000).frame_repeat (61 : Int).toNat = none ∧
    ∀ old : List Int, old.length = 60 → build_frame_repeat old 60 61 = none := by
  refine ⟨by decide!, by decide!, by decide!, ?_⟩
  intro old hold
  unfold build_frame_repeat
  rw [if_pos (by decide)]
  unfold memset_int
  rw [if_neg (by rw [hold]; decide)]
  rfl

/-! ## The scheduler variables -/

/-- The advance of the scheduler keeps the mode, the table and the rate. -/
theorem advance_source_frame_keeps (s : RenderState) (hsf : 0 ≤ s.source_frame)
    (hhz : s.source_hz ≤ 60) (hlen : s.frame_repeat.length = 60) :
    ∃ s', advance_source_frame s = some s' ∧
      s'.source_frame = (if s.source_frame + 1 ≥ s.source_hz then 0 else s.source_frame + 1) ∧
      s.frame_repeat.get? s'.source_frame.toNat = some s'.source_frame_count ∧
      s'.frame_repeat = s.frame_repeat ∧ s'.source_hz = s.source_hz ∧
      s'.sync_src = s.sync_src := by
  unfold advance_source_frame
  lift_lets
  extract_lets sf1 sf2
  have h0 : 0 ≤ sf2 := by
    by_cases h : sf1 ≥ s.source_hz
    · simp only [sf2, if_pos h]; exact le_refl _
    · simp only [sf2, if_neg h, sf1]; omega
  have h1 : sf2 < 60 := by
    by_cases h : sf1 ≥ s.source_hz
    · simp only [sf2, if_pos h]; decide
    · simp only [sf2, if_neg h]; omega
  have hlt : sf2.toNat < s.frame_repeat.length := by omega
  have hr : read_int s.frame_repeat sf2 = some (s.frame_repeat.get ⟨sf2.toNat, hlt⟩) := by
    unfold read_int
    rw [if_pos h0, List.get?_eq_get hlt]
  rw [hr]
  exact ⟨_, rfl, rfl, List.get?_eq_get hlt, rfl, rfl, rfl⟩

/-- The loop that repeats the frame does nothing when the counter is
negative. -/
theorem repeat_loop_neg {c : Int} (hc : c < 0) : repeat_loop c.toNat c = (c, []) := by
  have e : c.toNat = 0 := Int.toNat_eq_zero.mpr hc.le
  rw [e]
  rfl

/-- One call of `process_framebuffer` in a mode that is not
audio-synchronised, from a state in which `source_frame` is not negative and
`source_hz` is at most the 60 entries of the table: the call returns, the
scheduler advances by one source frame and loads the counter from the table,
and the mode, the table and the rate stay. -/
theorem process_framebuffer_advances (s : RenderState) (buffer which : Nat) (width : Int)
    (memory : Option (List Nat)) (hsync : render_is_audio_sync s = false)
    (hsf : 0 ≤ s.source_frame) (hhz : s.source_hz ≤ 60) (hlen : s.frame_repeat.length = 60) :
    ∃ s' es, process_framebuffer s buffer which width memory = some (s', es) ∧
      s'.source_frame = (if s.source_frame + 1 ≥ s.source_hz then 0 else s.source_frame + 1) ∧
      s.frame_repeat.get? s'.source_frame.toNat = some s'.source_frame_count ∧
      s'.frame_repeat = s.frame_repeat ∧ s'.source_hz = s.source_hz ∧
      s'.sync_src = s.sync_src ∧
      (s.sync_src = SyncSrc.SYNC_VIDEO → which ≤ FRAMEBUFFER_EVEN → -1 ≤ s.source_frame_count →
        presentations es = (1 + s.source_frame_count).toNat ∧
        (s.source_frame_count = -1 → es = [])) := by
  by_cases hskip : s.sync_src = SyncSrc.SYNC_VIDEO ∧ which ≤ FRAMEBUFFER_EVEN ∧
      s.source_frame_count < 0
  · obtain ⟨s', e1, e2, e3, e4, e5, e6⟩ := advance_source_frame_keeps s hsf hhz hlen
    refine ⟨s', [], ?_, e2, e3, e4, e5, e6, ?_⟩
    · unfold process_framebuffer
      rw [if_pos hskip, e1]
      rfl
    · intro _ _ hc
      have : s.source_frame_count = -1 := by omega
      rw [this]
      exact ⟨rfl, fun _ => rfl⟩
  · obtain ⟨k1, k2, k3, k4, k5, _⟩ := drift_control_keeps s
    have hsync' : (!render_is_audio_sync s) = true := by rw [hsync]; rfl
    have hadv := advance_source_frame_keeps
      { (drift_control s).1 with
        source_frame_count :=
          (repeat_loop s.source_frame_count.toNat s.source_frame_count).1 }
      (by show 0 ≤ (drift_control s).1.source_frame; rw [k2]; exact hsf)
      (by show (drift_control s).1.source_hz ≤ 60; rw [k4]; exact hhz)
      (by show (drift_control s).1.frame_repeat.length = 60; rw [k5]; exact hlen)
    obtain ⟨s', e1, e2, e3, e4, e5, e6⟩ := hadv
    refine ⟨s', (if which ≤ FRAMEBUFFER_EVEN then [Effect.render_update_display]
        else [Effect.present_other which]) ++ (drift_control s).2.2 ++
        (repeat_loop s.source_frame_count.toNat s.source_frame_count).2, ?_, ?_, ?_, ?_, ?_, ?_, ?_⟩
    · unfold process_framebuffer
      rw [if_neg hskip]
      simp only [hsync', if_true, k3]
      rw [e1]
      rfl
    · rw [e2]
      show (if (drift_control s).1.source_frame + 1 ≥ (drift_control s).1.source_hz then 0
        else (drift_control s).1.source_frame + 1) = _
      rw [k2, k4]
    · have : ({ (drift_control s).1 with
          source_frame_count :=
            (repeat_loop s.source_frame_count.toNat s.source_frame_count).1 } :
          RenderState).frame_repeat = s.frame_repeat := k5
      rw [← this]; exact e3
    · rw [e4]; exact k5
    · rw [e5]; exact k4
    · rw [e6]; exact k1
    · intro hmode hwhich hc
      have hc0 : 0 ≤ s.source_frame_count := by
        by_contra hcon
        exact hskip ⟨hmode, hwhich, by omega⟩
      rw [repeat_loop_toNat hc0, if_pos hwhich]
      refine ⟨?_, fun h => absurd h (by omega)⟩
      unfold presentations
      rw [List.count_append, List.count_append, List.count_replicate_self,
        List.count_eq_zero_of_not_mem (drift_control_no_display s)]
      have : (1 + s.source_frame_count).toNat = 1 + s.source_frame_count.toNat := by omega
      rw [this]
      rfl

/-- The device callback leaves the scheduler variables and the mode alone. -/
theorem callback_run_keeps (rs : List (Int × Nat)) (s : RenderState) :
    (callback_run s rs).2.sync_src = s.sync_src ∧
    (callback_run s rs).2.source_frame = s.source_frame ∧
    (callback_run s rs).2.source_frame_count = s.source_frame_count ∧
    (callback_run s rs).2.source_hz = s.source_hz ∧
    (callback_run s rs).2.frame_repeat = s.frame_repeat := by
  induction rs generalizing s with
  | nil => exact ⟨rfl, rfl, rfl, rfl, rfl⟩
  | cons r rs ih =>
    have hstep : (audio_callback_drc s r).2.sync_src = s.sync_src ∧
        (audio_callback_drc s r).2.source_frame = s.source_frame ∧
        (audio_callback_drc s r).2.source_frame_count = s.source_frame_count ∧
        (audio_callback_drc s r).2.source_hz = s.source_hz ∧
        (audio_callback_drc s r).2.frame_repeat = s.frame_repeat := by
      unfold audio_callback_drc
      by_cases h : s.cur_min_buffered < 0
      · rw [if_pos h]; exact ⟨rfl, rfl, rfl, rfl, rfl⟩
      · rw [if_neg h]; exact ⟨rfl, rfl, rfl, rfl, rfl⟩
    obtain ⟨a1, a2, a3, a4, a5⟩ := hstep
    obtain ⟨b1, b2, b3, b4, b5⟩ := ih (audio_callback_drc s r).2
    show (callback_run (audio_callback_drc s r).2 rs).2.sync_src = _ ∧ _
    exact ⟨b1.trans a1, b2.trans a2, b3.trans a3, b4.trans a4, b5.trans a5⟩

theorem render_is_audio_sync_of_sync_src {s s' : RenderState} (h : s'.sync_src = s.sync_src) :
    render_is_audio_sync s' = render_is_audio_sync s := by
  unfold render_is_audio_sync
  rw [h]

/-- The table that `render_set_video_standard` stores has 60 entries when the
old one has. -/
theorem build_frame_repeat_length {old t : List Int} {hz d : Int} {mr : Nat}
    (hlen : old.length = 60) (hhz : hz = 50 ∨ hz = 60)
    (h : build_frame_repeat old hz d = some (t, mr)) : t.length = 60 := by
  by_cases hc : wrap32 (Int.natAbs (wrap32 (hz - d))) < 2
  · unfold build_frame_repeat at h
    rw [if_pos hc] at h
    obtain ⟨t', ht', he⟩ := Option.map_eq_some'.mp h
    have := memset_int_length ht'
    rw [← (Prod.mk.inj he).1, this, hlen]
  · rw [build_frame_repeat_walk old hc] at h
    have ht := (Prod.mk.inj (Option.some.inj h)).1
    have hwl := (accumulator_walk_inv old d hlen hhz).1
    rw [← ht]
    by_cases hdd : (accumulator_walk old hz d).dst_frames ≠ d
    · rw [if_pos hdd, List.length_set]; exact hwl
    · rw [if_neg hdd]; exact hwl

theorem getD_eq_of_get? {t : List Int} {i : Nat} {c : Int} (h : t.get? i = some c) :
    t.getD i 0 = c := by
  rw [List.getD_eq_getElem?_getD, ← List.get?_eq_getElem?, h]
  rfl

theorem get?_of_getD {t : List Int} {i : Nat} (h : i < t.length) :
    t.get? i = some (t.getD i 0) := by
  rw [List.getD_eq_getElem?_getD, List.get?_eq_getElem?, List.getElem?_eq_getElem h]
  rfl

/-- C27: in a mode that is not audio-synchronised, with the 60-entry table,
`render_set_video_standard` leaves a state with
`0 <= source_frame < source_hz <= 60` and
`source_frame_count = frame_repeat[source_frame]`, and from every state with
this invariant every call of `process_framebuffer` returns (each read of
`frame_repeat[source_frame]` is inside the array) in a state that has the
invariant again and is still not audio-synchronised. -/
theorem scheduler_invariant (s : RenderState) (hsync : render_is_audio_sync s = false)
    (hlen : s.frame_repeat.length = 60) :
    (∀ std s', render_set_video_standard s std = some s' →
      SchedulerInv s' ∧ render_is_audio_sync s' = false) ∧
    (SchedulerInv s → ∀ (buffer which : Nat) (width : Int) (memory : Option (List Nat)),
      ∃ s' es, process_framebuffer s buffer which width memory = some (s', es) ∧
        SchedulerInv s' ∧ render_is_audio_sync s' = false ∧
        s'.source_frame.toNat < s'.frame_repeat.length) := by
  constructor
  · intro std s' hs'
    obtain ⟨t, mr, mb, hb, _, rfl⟩ := render_set_video_standard_eq hsync hs'
    have hhz : (if std = VidStd.VID_PAL then (50 : Int) else 60) = 50 ∨
        (if std = VidStd.VID_PAL then (50 : Int) else 60) = 60 := by
      split <;> simp
    have htl := build_frame_repeat_length hlen hhz hb
    refine ⟨⟨le_refl _, ?_, ?_, htl, ?_⟩, hsync⟩
    · show (0 : Int) < if std = VidStd.VID_PAL then 50 else 60
      omega
    · show (if std = VidStd.VID_PAL then (50 : Int) else 60) ≤ 60
      omega
    · show t.get? (0 : Int).toNat = some (t.getD 0 0)
      exact get?_of_getD (by rw [htl]; decide)
  · rintro ⟨i0, i1, i2, i3, _⟩ buffer which width memory
    obtain ⟨s', es, e0, e1, e2, e3, e4, e5, _⟩ :=
      process_framebuffer_advances s buffer which width memory hsync i0 i2 i3
    have hsf : 0 ≤ s'.source_frame ∧ s'.source_frame < s'.source_hz := by
      rw [e1, e4]
      by_cases h : s.source_frame + 1 ≥ s.source_hz
      · rw [if_pos h]; omega
      · rw [if_neg h]; omega
    refine ⟨s', es, e0, ⟨hsf.1, hsf.2, by rw [e4]; exact i2, by rw [e3]; exact i3, ?_⟩, ?_, ?_⟩
    · rw [e3]; exact e2
    · rw [render_is_audio_sync_of_sync_src e5]; exact hsync
    · rw [e3, i3]
      have := hsf.2
      rw [e4] at this
      omega

theorem scheduler_invariant_ntsc_144 :
    (render_is_audio_sync ntsc_144_result = false ∧ ntsc_144_result.frame_repeat.length = 60) ∧
    (∀ std s', render_set_video_standard ntsc_144_result std = some s' →
      SchedulerInv s' ∧ render_is_audio_sync s' = false) ∧
    (SchedulerInv ntsc_144_result →
      ∀ (buffer which : Nat) (width : Int) (memory : Option (List Nat)),
      ∃ s' es, process_framebuffer ntsc_144_result buffer which width memory = some (s', es) ∧
        SchedulerInv s' ∧ render_is_audio_sync s' = false ∧
        s'.source_frame.toNat < s'.frame_repeat.length) ∧
    SchedulerInv ntsc_144_result :=
  ⟨by decide!, (scheduler_invariant ntsc_144_result (by decide!) (by decide!)).1,
    (scheduler_invariant ntsc_144_result (by decide!) (by decide!)).2, by decide!⟩

/-! ## A cycle of source frames -/

/-- Frames processed in turn from source frame `k` of a table whose entries
are at least -1: every call returns, each frame is presented `1 + entry`
times, and the scheduler ends at the next source frame, at 0 after the last
one. -/
theorem process_frames_cycle (t : List Int) (hz : Int) (hhz : hz ≤ 60) (htl : t.length = 60)
    (hent : ∀ i, i < hz.toNat → -1 ≤ t.getD i 0) :
    ∀ (frames : List ShownFrame) (k : Nat) (s : RenderState),
      s.sync_src = SyncSrc.SYNC_VIDEO → s.frame_repeat = t → s.source_hz = hz →
      s.source_frame = (k : Int) → s.source_frame_count = t.getD k 0 →
      k < hz.toNat → k + frames.length ≤ hz.toNat →
      (∀ f ∈ frames, f.which ≤ FRAMEBUFFER_EVEN) →
      ∃ s1 shown, process_frames s frames = some (s1, shown) ∧
        shown.length = frames.length ∧
        (∀ j, j < frames.length →
          presentations (shown.getD j []) = (1 + t.getD (k + j) 0).toNat) ∧
        (∀ j, j < frames.length → t.getD (k + j) 0 = -1 → shown.getD j [] = []) ∧
        (((shown.map presentations).sum : Nat) : Int) =
          frame_repeat_sum t (k + frames.length) - frame_repeat_sum t k ∧
        s1.source_frame =
          (if k + frames.length = hz.toNat then 0 else ((k + frames.length : Nat) : Int)) := by
  intro frames
  induction frames with
  | nil =>
    intro k s _ _ _ hsf _ hk _ _
    refine ⟨s, [], rfl, rfl, fun j hj => absurd hj (Nat.not_lt_zero j),
      fun j hj => absurd hj (Nat.not_lt_zero j), by simp, ?_⟩
    rw [if_neg (by simp only [List.length_nil]; omega), hsf]
    rfl
  | cons f fs ih =>
    intro k s hmode htab hhzs hsf hcnt hk hkn hwhich
    obtain ⟨c1, c2, c3, c4, c5⟩ := callback_run_keeps f.readings s
    have hsync : render_is_audio_sync (callback_run s f.readings).2 = false :=
      render_is_audio_sync_video _ (c1.trans hmode)
    obtain ⟨s', es, e0, e1, e2, e3, e4, e5, e6⟩ :=
      process_framebuffer_advances (callback_run s f.readings).2 f.buffer f.which f.width
        f.memory hsync (by rw [c2, hsf]; omega) (by rw [c4, hhzs]; exact hhz)
        (by rw [c5, htab]; exact htl)
    have hck := hent k hk
    obtain ⟨p1, p2⟩ := e6 (c1.trans hmode) (hwhich f (List.mem_cons_self _ _))
      (by rw [c3, hcnt]; exact hck)
    rw [c3, hcnt] at p1 p2
    rw [c2, c4, hsf, hhzs] at e1
    rw [c5, htab] at e2 e3
    rw [c4, hhzs] at e4
    rw [c1, hmode] at e5
    have hlenc : (f :: fs).length = fs.length + 1 := rfl
    rw [hlenc] at hkn
    have hsumk : frame_repeat_sum t (k + 1) = frame_repeat_sum t k + (1 + t.getD k 0) :=
      frame_repeat_sum_succ t (by omega)
    have hp1 : ((presentations es : Nat) : Int) = 1 + t.getD k 0 := by
      rw [p1]; omega
    by_cases hlast : k + 1 < hz.toNat
    · have hsf' : s'.source_frame = ((k + 1 : Nat) : Int) := by
        rw [e1, if_neg (by omega)]
        push_cast
        rfl
      have hcnt' : s'.source_frame_count = t.getD (k + 1) 0 := by
        rw [hsf'] at e2
        exact (getD_eq_of_get? e2).symm
      obtain ⟨s1, shown, r0, r1, r2, r3, r4, r5⟩ :=
        ih (k + 1) s' e5 e3 e4 hsf' hcnt' hlast (by omega)
          (fun g hg => hwhich g (List.mem_cons_of_mem _ hg))
      refine ⟨s1, es :: shown, ?_, ?_, ?_, ?_, ?_, ?_⟩
      · show (process_framebuffer _ _ _ _ _).bind _ = _
        rw [e0]
        show (process_frames s' fs).map _ = _
        rw [r0]
        rfl
      · show shown.length + 1 = fs.length + 1
        rw [r1]
      · intro j hj
        cases j with
        | zero => exact p1
        | succ j =>
          have := r2 j (by rw [hlenc] at hj; omega)
          rw [show k + (j + 1) = k + 1 + j by omega]
          exact this
      · intro j hj hm
        cases j with
        | zero => exact p2 hm
        | succ j =>
          rw [show k + (j + 1) = k + 1 + j by omega] at hm
          exact r3 j (by rw [hlenc] at hj; omega) hm
      · rw [List.map_cons, List.sum_cons, hlenc, show k + (fs.length + 1) = k + 1 + fs.length by omega]
        push_cast
        rw [hp1]
        push_cast at r4
        rw [r4, hsumk]
        ring
      · rw [r5, hlenc, show k + (fs.length + 1) = k + 1 + fs.length by omega]
    · have hfs : fs = [] := by
        apply List.eq_nil_of_length_eq_zero
        omega
      subst hfs
      refine ⟨s', [es], ?_, rfl, ?_, ?_, ?_, ?_⟩
      · show (process_framebuffer _ _ _ _ _).bind _ = _
        rw [e0]
        rfl
      · intro j hj
        have : j = 0 := by simp at hj; exact hj
        subst this
        exact p1
      · intro j hj hm
        have : j = 0 := by simp at hj; exact hj
        subst this
        exact p2 hm
      · simp only [List.map_cons, List.map_nil, List.sum_cons, List.sum_nil, List.length_cons,
          List.length_nil]
        rw [hsumk]
        omega
      · rw [e1, if_pos (by omega), if_pos (by simp only [List.length_cons, List.length_nil]; omega)]

/-- C26: in video-driven mode, from the state that
`render_set_video_standard` leaves for a display rate from 0 to 2147483647
that takes the walk (`source_frame = 0`, the counter loaded with
`frame_repeat[0]`), one cycle of `source_hz` frames of the two main
framebuffers handed to `process_framebuffer` one after the other (the device
callback running in between) is processed to the end: a frame whose entry is
`c >= 0` is presented `1 + c` times, a frame whose entry is -1 is skipped
with no call at all, every entry is one of the two, the presentations of the
cycle are `display_hz` in all, and the scheduler is back at
`source_frame = 0`. -/
theorem full_cycle_presents_display_hz (s s0 : RenderState) (std : VidStd)
    (frames : List ShownFrame) (hmode : s.sync_src = SyncSrc.SYNC_VIDEO)
    (hlen : s.frame_repeat.length = 60) (hd0 : 0 ≤ s.display_hz)
    (hd1 : s.display_hz ≤ 2147483647)
    (hne : 2 ≤ |(if std = VidStd.VID_PAL then 50 else 60) - s.display_hz|)
    (h : render_set_video_standard s std = some s0)
    (hn : frames.length = s0.source_hz.toNat)
    (hwhich : ∀ f ∈ frames, f.which ≤ FRAMEBUFFER_EVEN) :
    s0.source_frame = 0 ∧ s0.source_frame_count = s0.frame_repeat.getD 0 0 ∧
    ∃ s1 shown, process_frames s0 frames = some (s1, shown) ∧
      shown.length = frames.length ∧
      (∀ k, k < frames.length →
        -1 ≤ s0.frame_repeat.getD k 0 ∧
        (0 ≤ s0.frame_repeat.getD k 0 →
          ((presentations (shown.getD k []) : Nat) : Int) = 1 + s0.frame_repeat.getD k 0) ∧
        (s0.frame_repeat.getD k 0 = -1 → shown.getD k [] = [])) ∧
      (((shown.map presentations).sum : Nat) : Int) = s.display_hz ∧
      s1.source_frame = 0 := by
  have hsync := render_is_audio_sync_video s hmode
  obtain ⟨t, mr, mb, hb, _, hs0⟩ := render_set_video_standard_eq hsync h
  have f1 : s0.sync_src = SyncSrc.SYNC_VIDEO := by rw [hs0]; exact hmode
  have f2 : s0.frame_repeat = t := by rw [hs0]
  have f3 : s0.source_hz = (if std = VidStd.VID_PAL then 50 else 60) := by rw [hs0]
  have f4 : s0.source_frame = ((0 : Nat) : Int) := by rw [hs0]; rfl
  have f5 : s0.source_frame_count = t.getD 0 0 := by rw [hs0]
  clear hs0
  rw [f3] at hn
  rw [f2]
  have hhz : (if std = VidStd.VID_PAL then (50 : Int) else 60) = 50 ∨
      (if std = VidStd.VID_PAL then (50 : Int) else 60) = 60 := by
    split <;> simp
  generalize hg : (if std = VidStd.VID_PAL then (50 : Int) else 60) = hz at hhz hne hb hn f3
  have hn' : frames.length = hz.toNat := hn
  obtain ⟨t', mr', hb', htl, hge⟩ := build_frame_repeat_ge s.frame_repeat hlen hhz hd0 hd1 hne
  rw [hb] at hb'
  have ht : t = t' := (Prod.mk.inj (Option.some.inj hb')).1
  subst ht
  have hsum := build_frame_repeat_sum hlen hhz hd0 hd1 (Or.inr hne) hb
  refine ⟨f4, f5, ?_⟩
  obtain ⟨s1, shown, r0, r1, r2, r3, r4, r5⟩ :=
    process_frames_cycle t hz (by omega) htl hge frames 0 s0 f1 f2 f3 f4 f5 (by omega)
      (by omega) hwhich
  refine ⟨s1, shown, r0, r1, ?_, ?_, ?_⟩
  · intro k hk
    have h1 := hge k (by omega)
    have h2 := r2 k hk
    have h3 := r3 k hk
    rw [Nat.zero_add] at h2 h3
    refine ⟨h1, ?_, h3⟩
    intro h0
    rw [h2]
    omega
  · rw [r4, Nat.zero_add, hn', hsum]
    simp [frame_repeat_sum]
  · rw [r5, if_pos (by omega)]

theorem full_cycle_presents_display_hz_ntsc_144 :
    ((video_state SyncSrc.SYNC_VIDEO 144 48000).sync_src = SyncSrc.SYNC_VIDEO ∧
      (video_state SyncSrc.SYNC_VIDEO 144 48000).frame_repeat.length = 60 ∧
      0 ≤ (video_state SyncSrc.SYNC_VIDEO 144 48000).display_hz ∧
      (video_state SyncSrc.SYNC_VIDEO 144 48000).display_hz ≤ 2147483647 ∧
      2 ≤ |(if VidStd.VID_NTSC = VidStd.VID_PAL then 50 else 60) -
        (video_state SyncSrc.SYNC_VIDEO 144 48000).display_hz| ∧
      render_set_video_standard (video_state SyncSrc.SYNC_VIDEO 144 48000) VidStd.VID_NTSC =
        some ntsc_144_result ∧
      ntsc_cycle.length = ntsc_144_result.source_hz.toNat ∧
      ∀ f ∈ ntsc_cycle, f.which ≤ FRAMEBUFFER_EVEN) ∧
    ntsc_144_result.source_frame = 0 ∧
    ntsc_144_result.source_frame_count = ntsc_144_result.frame_repeat.getD 0 0 ∧
    ∃ s1 shown, process_frames ntsc_144_result ntsc_cycle = some (s1, shown) ∧
      shown.length = ntsc_cycle.length ∧
      (∀ k, k < ntsc_cycle.length →
        -1 ≤ ntsc_144_result.frame_repeat.getD k 0 ∧
        (0 ≤ ntsc_144_result.frame_repeat.getD k 0 →
          ((presentations (shown.getD k []) : Nat) : Int) =
            1 + ntsc_144_result.frame_repeat.getD k 0) ∧
        (ntsc_144_result.frame_repeat.getD k 0 = -1 → shown.getD k [] = [])) ∧
      (((shown.map presentations).sum : Nat) : Int) =
        (video_state SyncSrc.SYNC_VIDEO 144 48000).display_hz ∧
      s1.source_frame = 0 :=
  ⟨by decide!,
    full_cycle_presents_display_hz (video_state SyncSrc.SYNC_VIDEO 144 48000) ntsc_144_result
      VidStd.VID_NTSC ntsc_cycle (by decide!) (by decide!) (by decide!) (by decide!) (by decide!)
      (by decide!) (by decide!) (by decide!)⟩

/-! ## The audio side: buffer swap, start of playback, underflow -/

/-- Closed form of the wait for the drained front buffer: the loop waits
once for every value `true` that it reads, and ends at the first `false`. -/
theorem wait_drained_spec (fp : Bool) (obs : List Bool) :
    ∃ n, n ≤ obs.length + 1 ∧
      (wait_drained fp obs).1 = List.replicate n AudioCall.SDL_CondWait_source_cond ∧
      (∀ i, i < n → (fp :: obs).getD i false = true) ∧
      ((wait_drained fp obs).2 = true → (fp :: obs).getD n true = false ∧ n ≤ obs.length) ∧
      ((wait_drained fp obs).2 = false → n = obs.length + 1) := by
  induction obs generalizing fp with
  | nil =>
    cases fp with
    | true =>
      refine ⟨1, le_refl _, rfl, ?_, fun h => absurd h (by simp [wait_drained]), fun _ => rfl⟩
      intro i hi
      have : i = 0 := by omega
      subst this
      rfl
    | false =>
      exact ⟨0, Nat.zero_le _, rfl, fun i hi => absurd hi (Nat.not_lt_zero i),
        fun _ => ⟨rfl, le_refl _⟩, fun h => absurd h (by simp [wait_drained])⟩
  | cons v obs ih =>
    cases fp with
    | true =>
      obtain ⟨n, h0, h1, h2, h3, h4⟩ := ih v
      have e1 : (wait_drained true (v :: obs)).1 =
          AudioCall.SDL_CondWait_source_cond :: (wait_drained v obs).1 := rfl
      have e2 : (wait_drained true (v :: obs)).2 = (wait_drained v obs).2 := rfl
      refine ⟨n + 1, by simp only [List.length_cons]; omega, ?_, ?_, ?_, ?_⟩
      · rw [e1, h1]; rfl
      · intro i hi
        cases i with
        | zero => rfl
        | succ i => exact h2 i (by omega)
      · intro h
        rw [e2] at h
        obtain ⟨a, b⟩ := h3 h
        exact ⟨a, by simp only [List.length_cons]; omega⟩
      · intro h
        rw [e2] at h
        rw [h4 h]
        rfl
    | false =>
      exact ⟨0, Nat.zero_le _, rfl, fun i hi => absurd hi (Nat.not_lt_zero i),
        fun _ => ⟨rfl, Nat.zero_le _⟩, fun h => absurd h (by simp [wait_drained])⟩

/-- The function `render_do_audio_ready` in the `SYNC_AUDIO` mode. -/
theorem render_do_audio_ready_audio (s : RenderState) (src : AudioSource) (all_ready : Bool)
    (drained : List Bool) (audio_paused : Bool) (hmode : s.sync_src = SyncSrc.SYNC_AUDIO) :
    render_do_audio_ready s src all_ready drained audio_paused =
      (if (wait_drained src.front_populated drained).2 then
        ([AudioCall.SDL_LockMutex_audio_mutex] ++ (wait_drained src.front_populated drained).1 ++
          [AudioCall.SDL_CondSignal_audio_ready, AudioCall.SDL_UnlockMutex_audio_mutex],
          some src.swap)
      else
        ([AudioCall.SDL_LockMutex_audio_mutex] ++ (wait_drained src.front_populated drained).1,
          none)) := by
  unfold render_do_audio_ready
  rw [if_neg (by rw [hmode]; decide), if_pos hmode]

/-- C21: in the `SYNC_AUDIO` mode a call of `render_do_audio_ready` that
returns has made the swap after a number `n` of waits such that the value of
`front_populated` read last, the one that ended the loop, is false (the
front buffer has been drained); the swap exchanges `front` and `back`, sets
`front_populated` to 1 and `buffer_pos` to 0.  With `front_populated` false
at the call the swap is made at once; while every value read is true there is
no swap.  A second swap, of a source that has the `front` and `back` of the
first result, restores the original assignment. -/
theorem swap_only_when_drained (s : RenderState) (src : AudioSource) (all_ready : Bool)
    (drained : List Bool) (audio_paused : Bool) (hmode : s.sync_src = SyncSrc.SYNC_AUDIO) :
    (∀ calls src',
      render_do_audio_ready s src all_ready drained audio_paused = (calls, some src') →
      ∃ n, n ≤ drained.length ∧
        calls = [AudioCall.SDL_LockMutex_audio_mutex] ++
          List.replicate n AudioCall.SDL_CondWait_source_cond ++
          [AudioCall.SDL_CondSignal_audio_ready, AudioCall.SDL_UnlockMutex_audio_mutex] ∧
        (∀ i, i < n → (src.front_populated :: drained).getD i false = true) ∧
        (src.front_populated :: drained).getD n true = false ∧
        src'.front = src.back ∧ src'.back = src.front ∧ src'.front_populated = true ∧
        src'.buffer_pos = 0 ∧
        ∀ src2 : AudioSource, src2.front = src'.front → src2.back = src'.back →
          src2.swap.front = src.front ∧ src2.swap.back = src.back) ∧
    (src.front_populated = false →
      render_do_audio_ready s src all_ready drained audio_paused =
        ([AudioCall.SDL_LockMutex_audio_mutex, AudioCall.SDL_CondSignal_audio_ready,
          AudioCall.SDL_UnlockMutex_audio_mutex], some src.swap)) ∧
    ((∀ v ∈ src.front_populated :: drained, v = true) →
      (render_do_audio_ready s src all_ready drained audio_paused).2 = none) := by
  obtain ⟨n, h0, h1, h2, h3, h4⟩ := wait_drained_spec src.front_populated drained
  rw [render_do_audio_ready_audio s src all_ready drained audio_paused hmode]
  refine ⟨?_, ?_, ?_⟩
  · intro calls src' h
    by_cases hw : (wait_drained src.front_populated drained).2 = true
    · rw [if_pos hw] at h
      obtain ⟨hc, hs⟩ := Prod.mk.inj h
      have hs' : src.swap = src' := Option.some.inj hs
      obtain ⟨a, b⟩ := h3 hw
      refine ⟨n, b, ?_, h2, a, ?_, ?_, ?_, ?_, ?_⟩
      · rw [← hc, h1]
      · rw [← hs']; rfl
      · rw [← hs']; rfl
      · rw [← hs']; rfl
      · rw [← hs']; rfl
      · intro src2 g1 g2
        rw [← hs'] at g1 g2
        exact ⟨g2, g1⟩
    · rw [if_neg hw] at h
      exact absurd (Prod.mk.inj h).2 (by simp)
  · intro hfp
    have e : wait_drained src.front_populated drained = ([], true) := by
      rw [hfp]
      cases drained <;> rfl
    rw [e]
    rfl
  · intro hall
    by_cases hw : (wait_drained src.front_populated drained).2 = true
    · obtain ⟨a, b⟩ := h3 hw
      have hlt : n < (src.front_populated :: drained).length := by
        simp only [List.length_cons]; omega
      have hmem : (src.front_populated :: drained).getD n true ∈
          src.front_populated :: drained := by
        rw [List.getD_eq_getElem _ _ hlt]
        exact List.getElem_mem hlt
      have := hall _ hmem
      rw [a] at this
      exact absurd this (by decide)
    · rw [if_neg hw]

theorem swap_only_when_drained_idle :
    (video_state SyncSrc.SYNC_AUDIO 60 48000).sync_src = SyncSrc.SYNC_AUDIO ∧
    (∀ calls src',
      render_do_audio_ready (video_state SyncSrc.SYNC_AUDIO 60 48000)
          { idle_source with front_populated := true } false [true, false] false =
        (calls, some src') →
      ∃ n, n ≤ [true, false].length ∧
        calls = [AudioCall.SDL_LockMutex_audio_mutex] ++
          List.replicate n AudioCall.SDL_CondWait_source_cond ++
          [AudioCall.SDL_CondSignal_audio_ready, AudioCall.SDL_UnlockMutex_audio_mutex] ∧
        (∀ i, i < n → (true :: [true, false]).getD i false = true) ∧
        (true :: [true, false]).getD n true = false ∧
        src'.front = idle_source.back ∧ src'.back = idle_source.front ∧
        src'.front_populated = true ∧ src'.buffer_pos = 0 ∧
        ∀ src2 : AudioSource, src2.front = src'.front → src2.back = src'.back →
          src2.swap.front = idle_source.front ∧ src2.swap.back = idle_source.back) ∧
    (render_do_audio_ready (video_state SyncSrc.SYNC_AUDIO 60 48000)
        { idle_source with front_populated := true } false [true, false] false).2 =
      some (AudioSource.swap { idle_source with front_populated := true }) :=
  ⟨rfl,
    (swap_only_when_drained (video_state SyncSrc.SYNC_AUDIO 60 48000)
      { idle_source with front_populated := true } false [true, false] false rfl).1,
    by decide⟩

/-- C22: in the `SYNC_VIDEO` and `SYNC_EXTERNAL` modes `render_do_audio_ready`
(for a source with at least one channel) returns with `read_end` set to
`buffer_pos` and nothing else of the source changed, and calls
`SDL_PauseAudio(0)` if and only if the device is paused and the buffered frame
count `((read_end - read_start) & mask) / num_channels`, taken with the new
`read_end`, is at least `min_buffered`; below the threshold playback is not
started. -/
theorem playback_starts_at_threshold (s : RenderState) (src : AudioSource) (all_ready : Bool)
    (drained : List Bool) (audio_paused : Bool)
    (hmode : s.sync_src = SyncSrc.SYNC_VIDEO ∨ s.sync_src = SyncSrc.SYNC_EXTERNAL)
    (_hch : 0 < src.num_channels) :
    ∃ calls src', render_do_audio_ready s src all_ready drained audio_paused =
        (calls, some src') ∧
      src' = { src with read_end := src.buffer_pos } ∧ src'.read_end = src.buffer_pos ∧
      (AudioCall.SDL_PauseAudio 0 ∈ calls ↔
        audio_paused = true ∧ s.min_buffered ≤ buffered_frames src') ∧
      (buffered_frames src' < s.min_buffered → ∀ c ∈ calls, c ≠ AudioCall.SDL_PauseAudio 0) ∧
      calls = [AudioCall.SDL_LockAudio, AudioCall.SDL_UnlockAudio] ++
        (if audio_paused = true ∧ s.min_buffered ≤ buffered_frames src' then
          [AudioCall.SDL_PauseAudio 0] else []) := by
  have h1 : ¬ s.sync_src = SyncSrc.SYNC_AUDIO_THREAD := by
    rcases hmode with h | h <;> rw [h] <;> decide
  have h2 : ¬ s.sync_src = SyncSrc.SYNC_AUDIO := by
    rcases hmode with h | h <;> rw [h] <;> decide
  have hcalls : render_do_audio_ready s src all_ready drained audio_paused =
      ([AudioCall.SDL_LockAudio, AudioCall.SDL_UnlockAudio] ++
        (if buffered_frames { src with read_end := src.buffer_pos } ≥ s.min_buffered ∧
            audio_paused = true then [AudioCall.SDL_PauseAudio 0] else []),
        some { src with read_end := src.buffer_pos }) := by
    unfold render_do_audio_ready
    rw [if_neg h1, if_neg h2]
    rfl
  rw [hcalls]
  by_cases hc : audio_paused = true ∧
      s.min_buffered ≤ buffered_frames { src with read_end := src.buffer_pos }
  · have hc' : buffered_frames { src with read_end := src.buffer_pos } ≥ s.min_buffered ∧
        audio_paused = true := ⟨hc.2, hc.1⟩
    refine ⟨_, _, rfl, rfl, rfl, ?_, ?_, ?_⟩
    · rw [if_pos hc']
      exact ⟨fun _ => hc, fun _ => by simp⟩
    · intro hlt
      exact absurd hc.2 (by omega)
    · rw [if_pos hc', if_pos hc]
  · have hc' : ¬ (buffered_frames { src with read_end := src.buffer_pos } ≥ s.min_buffered ∧
        audio_paused = true) := fun h => hc ⟨h.2, h.1⟩
    refine ⟨_, _, rfl, rfl, rfl, ?_, ?_, ?_⟩
    · rw [if_neg hc']
      exact ⟨fun h => absurd h (by simp), fun h => absurd h hc⟩
    · intro _ c hcm
      rw [if_neg hc'] at hcm
      simp at hcm
      rcases hcm with rfl | rfl <;> simp
    · rw [if_neg hc', if_neg hc]

theorem playback_starts_at_threshold_filling :
    (((video_state SyncSrc.SYNC_VIDEO 144 48000).sync_src = SyncSrc.SYNC_VIDEO ∨
        (video_state SyncSrc.SYNC_VIDEO 144 48000).sync_src = SyncSrc.SYNC_EXTERNAL) ∧
      0 < filling_source.num_channels) ∧
    (∃ calls src',
      render_do_audio_ready { video_state SyncSrc.SYNC_VIDEO 144 48000 with min_buffered := 600 }
          filling_source false [] true = (calls, some src') ∧
      src' = { filling_source with read_end := filling_source.buffer_pos } ∧
      src'.read_end = filling_source.buffer_pos ∧
      (AudioCall.SDL_PauseAudio 0 ∈ calls ↔
        true = true ∧ 600 ≤ buffered_frames src') ∧
      (buffered_frames src' < 600 → ∀ c ∈ calls, c ≠ AudioCall.SDL_PauseAudio 0) ∧
      calls = [AudioCall.SDL_LockAudio, AudioCall.SDL_UnlockAudio] ++
        (if true = true ∧ 600 ≤ buffered_frames src' then
          [AudioCall.SDL_PauseAudio 0] else [])) ∧
    (render_do_audio_ready { video_state SyncSrc.SYNC_VIDEO 144 48000 with min_buffered := 600 }
        filling_source false [] true).1 =
      [AudioCall.SDL_LockAudio, AudioCall.SDL_UnlockAudio, AudioCall.SDL_PauseAudio 0] :=
  ⟨by decide,
    playback_starts_at_threshold
      { video_state SyncSrc.SYNC_VIDEO 144 48000 with min_buffered := 600 } filling_source false []
      true (Or.inl rfl) (by decide),
    by decide⟩

/-- C29: while `cur_min_buffered` is negative, every invocation of
`audio_callback_drc`, however many there are and whatever the device would
deliver, returns without calling `mix_and_convert` and leaves the state, in
particular `cur_min_buffered` and `min_remaining_buffer`, unchanged; the
drift controller then sets `cur_min_buffered` to 0, after which the callback
mixes again; and in every state with `cur_min_buffered >= 0` the callback
calls `mix_and_convert` and stores its result in `cur_min_buffered` (and the
value it reports in `min_remaining_buffer`). -/
theorem underflow_blocks_callback (s : RenderState) (hneg : s.cur_min_buffered < 0) :
    (∀ readings, callback_run s readings = ([], s)) ∧
    (∀ mixed, (audio_callback_drc s mixed).1 = [] ∧
      (audio_callback_drc s mixed).2.cur_min_buffered = s.cur_min_buffered ∧
      (audio_callback_drc s mixed).2.min_remaining_buffer = s.min_remaining_buffer) ∧
    (drift_control s).1.cur_min_buffered = 0 ∧
    (∀ mixed, (audio_callback_drc (drift_control s).1 mixed).1 = [AudioCall.mix_and_convert] ∧
      (audio_callback_drc (drift_control s).1 mixed).2.cur_min_buffered = mixed.1) ∧
    (∀ s2 : RenderState, 0 ≤ s2.cur_min_buffered → ∀ mixed,
      (audio_callback_drc s2 mixed).1 = [AudioCall.mix_and_convert] ∧
      (audio_callback_drc s2 mixed).2.cur_min_buffered = mixed.1 ∧
      (audio_callback_drc s2 mixed).2.min_remaining_buffer = mixed.2) := by
  have hone : ∀ mixed, audio_callback_drc s mixed = ([], s) := by
    intro mixed
    unfold audio_callback_drc
    rw [if_pos hneg]
  have hpos : ∀ s2 : RenderState, 0 ≤ s2.cur_min_buffered → ∀ mixed,
      (audio_callback_drc s2 mixed).1 = [AudioCall.mix_and_convert] ∧
      (audio_callback_drc s2 mixed).2.cur_min_buffered = mixed.1 ∧
      (audio_callback_drc s2 mixed).2.min_remaining_buffer = mixed.2 := by
    intro s2 h2 mixed
    unfold audio_callback_drc
    rw [if_neg (not_lt.mpr h2)]
    exact ⟨rfl, rfl, rfl⟩
  have hreset : (drift_control s).1.cur_min_buffered = 0 := by
    have hneg1 : (drift_smooth s).cur_min_buffered < 0 := hneg
    rw [drift_control_eq, (drift_adjust_state (drift_smooth s)).2.2, if_pos hneg1]
  refine ⟨?_, ?_, hreset, ?_, hpos⟩
  · intro readings
    induction readings with
    | nil => rfl
    | cons r rs ih =>
      show ((audio_callback_drc s r).1 ++ (callback_run (audio_callback_drc s r).2 rs).1,
        (callback_run (audio_callback_drc s r).2 rs).2) = _
      rw [hone r, ih]
      rfl
  · intro mixed
    rw [hone mixed]
    exact ⟨rfl, rfl, rfl⟩
  · intro mixed
    obtain ⟨a, b, _⟩ := hpos (drift_control s).1 (by rw [hreset]) mixed
    exact ⟨a, b⟩

theorem underflow_blocks_callback_ntsc :
    underflow_state.cur_min_buffered < 0 ∧
    (∀ readings, callback_run underflow_state readings = ([], underflow_state)) ∧
    (∀ mixed, (audio_callback_drc underflow_state mixed).1 = [] ∧
      (audio_callback_drc underflow_state mixed).2.cur_min_buffered =
        underflow_state.cur_min_buffered ∧
      (audio_callback_drc underflow_state mixed).2.min_remaining_buffer =
        underflow_state.min_remaining_buffer) ∧
    (drift_control underflow_state).1.cur_min_buffered = 0 ∧
    (∀ mixed,
      (audio_callback_drc (drift_control underflow_state).1 mixed).1 =
        [AudioCall.mix_and_convert] ∧
      (audio_callback_drc (drift_control underflow_state).1 mixed).2.cur_min_buffered =
        mixed.1) ∧
    (∀ s2 : RenderState, 0 ≤ s2.cur_min_buffered → ∀ mixed,
      (audio_callback_drc s2 mixed).1 = [AudioCall.mix_and_convert] ∧
      (audio_callback_drc s2 mixed).2.cur_min_buffered = mixed.1 ∧
      (audio_callback_drc s2 mixed).2.min_remaining_buffer = mixed.2) :=
  ⟨by decide, underflow_blocks_callback underflow_state (by decide)⟩

/-! ## Identifiers in the frame queue -/

theorem queue_contents_eq (s : RenderState) : queue_contents s = (queue_slots s).contents := rfl

set_option maxHeartbeats 4000000 in
/-- A submit that coalesces the head of a queue of three: the last entry
takes the place of the head, and the new frame follows. -/
theorem Slots.contents_submit_head (q : Slots) (hwf : q.Wf) (buffer which : Nat) (width : Int)
    (memory : Option (List Nat)) (h3 : q.len = 3) (hh : (q.slot q.read).which = which) :
    q.contents = [q.slot q.read, q.slot ((q.read + 1) % 4), q.slot ((q.read + 2) % 4)] ∧
    (q.submit buffer which width memory).contents =
      [q.slot ((q.read + 2) % 4), q.slot ((q.read + 1) % 4),
        (q.coalesce which).new_frame buffer which width memory] := by
  obtain ⟨slots, read, len, write⟩ := q
  obtain ⟨h4, hr0, hr1, hl0, hl1, hw⟩ := hwf
  simp only at h4 hr0 hr1 hl0 hl1 hw h3 hh
  obtain ⟨a, b, c, d, rfl⟩ : ∃ a b c d, slots = [a, b, c, d] := by
    match slots, h4 with
    | [a, b, c, d], _ => exact ⟨a, b, c, d, rfl⟩
  subst h3
  have hr : read = 0 ∨ read = 1 ∨ read = 2 ∨ read = 3 := by omega
  rcases hr with rfl | rfl | rfl | rfl <;>
    subst hw <;>
    simp [Slots.slot] at hh <;>
    simp [Slots.submit, Slots.coalesce, Slots.enqueue, Slots.new_frame, Slots.contents,
      Slots.slot, scan_slots, range_three, range_two, range_one, range_four, hh]

/-- A submit into a well-formed queue that is not full: the waiting frames
are, up to their order, the old ones without the first entry of the same
identifier, followed by the new frame. -/
theorem Slots.contents_submit_perm (q : Slots) (hwf : q.Wf) (hlen : q.len ≠ 4)
    (buffer which : Nat) (width : Int) (memory : Option (List Nat)) :
    ∃ init, (q.submit buffer which width memory).contents =
        init ++ [(q.coalesce which).new_frame buffer which width memory] ∧
      init.Perm (q.contents.eraseP (fun f => decide (f.which = which))) := by
  by_cases hok : q.len = 3 ∧ (q.slot q.read).which = which
  · obtain ⟨e1, e2⟩ := q.contents_submit_head hwf buffer which width memory hok.1 hok.2
    refine ⟨[q.slot ((q.read + 2) % 4), q.slot ((q.read + 1) % 4)], by rw [e2]; rfl, ?_⟩
    rw [e1, List.eraseP_cons_of_pos (by rw [decide_eq_true hok.2])]
    exact List.Perm.swap _ _ _
  · exact ⟨_, q.contents_submit hwf hlen buffer which width memory hok, List.Perm.refl _⟩

/-- Among frames with distinct identifiers, dropping the first frame with an
identifier drops every frame with it. -/
theorem eraseP_eq_filter_of_nodup (l : List Frame) (w : Nat)
    (h : (l.map fun f => f.which).Nodup) :
    l.eraseP (fun f => decide (f.which = w)) = l.filter (fun f => decide (f.which ≠ w)) := by
  induction l with
  | nil => rfl
  | cons a l ih =>
    rw [List.map_cons, List.nodup_cons] at h
    obtain ⟨ha, hl⟩ := h
    by_cases haw : a.which = w
    · rw [List.eraseP_cons_of_pos (by rw [decide_eq_true haw]),
        List.filter_cons_of_neg (by simp [haw])]
      symm
      rw [List.filter_eq_self]
      intro x hx
      have : x.which ≠ w := by
        intro hxw
        apply ha
        rw [haw, ← hxw]
        exact List.mem_map_of_mem _ hx
      simp [this]
    · rw [List.eraseP_cons_of_neg (by simp [haw]), List.filter_cons_of_pos (by simp [haw]),
        ih hl]

/-- A submit into a well-formed queue with distinct identifiers that is not
full. -/
theorem Slots.submit_ids (q : Slots) (hwf : q.Wf) (hlen : q.len ≠ 4)
    (hnd : (q.contents.map fun f => f.which).Nodup)
    (buffer which : Nat) (width : Int) (memory : Option (List Nat)) :
    ∃ init new, (q.submit buffer which width memory).contents = init ++ [new] ∧
      new.buffer = buffer ∧ new.which = which ∧ new.width = width ∧
      init.Perm (q.contents.filter fun g => decide (g.which ≠ which)) ∧
      ((q.submit buffer which width memory).contents.map fun f => f.which).Nodup := by
  obtain ⟨init, e, hp⟩ := q.contents_submit_perm hwf hlen buffer which width memory
  rw [eraseP_eq_filter_of_nodup _ _ hnd] at hp
  refine ⟨init, _, e, rfl, rfl, rfl, hp, ?_⟩
  rw [e]
  have hperm : (init ++ [(q.coalesce which).new_frame buffer which width memory]).Perm
      ((q.coalesce which).new_frame buffer which width memory :: init) :=
    List.perm_append_singleton _ _
  rw [(hperm.map _).nodup_iff, List.map_cons, List.nodup_cons]
  constructor
  · intro hmem
    obtain ⟨x, hx, hxw⟩ := List.mem_map.mp hmem
    have hx' := hp.subset hx
    have := (List.mem_filter.mp hx').2
    have hxw' : x.which = which := hxw
    simp [hxw'] at this
  · rw [(hp.map _).nodup_iff]
    exact hnd.sublist ((List.filter_sublist _).map _)

/-- One operation of a run keeps the identifiers of the waiting frames
distinct. -/
theorem queue_step_ids (r : QueueRun) (op : QueueOp) (ht : threaded r.state)
    (hwf : (queue_slots r.state).Wf) (hnd : (queue_ids r.state).Nodup) :
    (queue_ids (queue_step r op).state).Nodup := by
  obtain ⟨_, _, h | ⟨f, _, hlen, hq, _, _⟩ | ⟨_, hlen, hq, _, _⟩⟩ := queue_step_cases r op ht hwf
  · rw [h]; exact hnd
  · unfold queue_ids
    rw [queue_contents_eq, hq]
    obtain ⟨_, _, _, _, _, _, _, hn⟩ :=
      (queue_slots r.state).submit_ids hwf hlen hnd f.buffer f.which f.width f.memory
    exact hn
  · unfold queue_ids
    rw [queue_contents_eq, hq]
    obtain ⟨e, _⟩ := (queue_slots r.state).contents_dequeue hwf hlen
    have hnd' : ((queue_slots r.state).contents.map fun f => f.which).Nodup := hnd
    rw [e, List.map_cons, List.nodup_cons] at hnd'
    exact hnd'.2

theorem queue_run_ids (r : QueueRun) (ops : List QueueOp) (ht : threaded r.state)
    (hwf : (queue_slots r.state).Wf) (hnd : (queue_ids r.state).Nodup) :
    (queue_ids (queue_run r ops).state).Nodup := by
  induction ops generalizing r with
  | nil => exact hnd
  | cons op ops ih =>
    rw [queue_run_cons]
    obtain ⟨h1, h2, _⟩ := queue_step_cases r op ht hwf
    exact ih _ h1 h2 (queue_step_ids r op ht hwf hnd)

/-- C28: in the threaded modes, from a well-formed queue whose waiting frames
have distinct identifiers (the empty queue is one), after every sequence of
submits and consumes no two waiting frames carry the same framebuffer
identifier; and in every state so reached a submit of a frame with
identifier `w` into the queue (not full) goes through and leaves the queue
holding, up to their order, exactly the earlier entries whose identifier
differs from `w`, followed by the new frame, which is the last to be
consumed; the identifiers are distinct again. -/
theorem identifiers_stay_distinct (s : RenderState) (ops : List QueueOp) (ht : threaded s)
    (hwf : (queue_slots s).Wf) (hnd : (queue_ids s).Nodup) :
    (queue_ids (queue_run ⟨s, [], []⟩ ops).state).Nodup ∧
    ∀ f : Submission, (queue_run ⟨s, [], []⟩ ops).state.frame_queue_len ≠ 4 →
      ∃ s' init new,
        render_framebuffer_updated (hold_buffer (queue_run ⟨s, [], []⟩ ops).state f.buffer)
          f.which f.width f.memory = some (s', [Effect.SDL_CondSignal_frame_ready]) ∧
        queue_contents s' = init ++ [new] ∧
        new.buffer = f.buffer ∧ new.which = f.which ∧ new.width = f.width ∧
        init.Perm ((queue_contents (queue_run ⟨s, [], []⟩ ops).state).filter
          fun g => decide (g.which ≠ f.which)) ∧
        (queue_ids s').Nodup := by
  obtain ⟨ht1, hwf1⟩ := queue_run_wf ⟨s, [], []⟩ ops ht hwf
  have hnd1 := queue_run_ids ⟨s, [], []⟩ ops ht hwf hnd
  refine ⟨hnd1, ?_⟩
  intro f hlen
  have ht0 : threaded (hold_buffer (queue_run ⟨s, [], []⟩ ops).state f.buffer) := ht1
  obtain ⟨s', hs', hq, _⟩ :=
    (render_framebuffer_updated_threaded (hold_buffer (queue_run ⟨s, [], []⟩ ops).state f.buffer)
      ht0 f.which f.width f.memory).2 hlen
  have hq' : queue_slots s' =
      (queue_slots (queue_run ⟨s, [], []⟩ ops).state).submit f.buffer f.which f.width f.memory :=
    hq
  obtain ⟨init, new, e, n1, n2, n3, hp, hn⟩ :=
    (queue_slots (queue_run ⟨s, [], []⟩ ops).state).submit_ids hwf1 hlen hnd1 f.buffer f.which
      f.width f.memory
  refine ⟨s', init, new, hs', ?_, n1, n2, n3, hp, ?_⟩
  · rw [queue_contents_eq, hq']; exact e
  · unfold queue_ids
    rw [queue_contents_eq, hq']; exact hn

theorem identifiers_stay_distinct_reorder :
    (threaded queue_start ∧ (queue_slots queue_start).Wf ∧ (queue_ids queue_start).Nodup) ∧
    (queue_ids (queue_run ⟨queue_start, [], []⟩ reorder_ops).state).Nodup ∧
    ∀ f : Submission, (queue_run ⟨queue_start, [], []⟩ reorder_ops).state.frame_queue_len ≠ 4 →
      ∃ s' init new,
        render_framebuffer_updated
          (hold_buffer (queue_run ⟨queue_start, [], []⟩ reorder_ops).state f.buffer)
          f.which f.width f.memory = some (s', [Effect.SDL_CondSignal_frame_ready]) ∧
        queue_contents s' = init ++ [new] ∧
        new.buffer = f.buffer ∧ new.which = f.which ∧ new.width = f.width ∧
        init.Perm ((queue_contents (queue_run ⟨queue_start, [], []⟩ reorder_ops).state).filter
          fun g => decide (g.which ≠ f.which)) ∧
        (queue_ids s').Nodup :=
  ⟨by decide!,
    identifiers_stay_distinct queue_start reorder_ops (by decide!) (by decide!) (by decide!)⟩

/-- C30: in the threaded modes every submit and every consume, from a state
in which `frame_queue_write = (frame_queue_read + frame_queue_len) mod 4`
with the indices in `[0, 3]` and the length in `[0, 4]`, leaves a state in
which this holds again, and so does every sequence of them; the coalescing
loop by itself keeps it too, and after it, when the submit goes on (the queue
was not full), the slot `frame_queue_write` that the submit then writes is
none of the slots `frame_queue_read + i`, `i < frame_queue_len`, that hold the
frames not yet consumed. -/
theorem circular_buffer_invariant (s : RenderState) (ops : List QueueOp) (ht : threaded s)
    (hwf : (queue_slots s).Wf) :
    (∀ op, (queue_slots (queue_step ⟨s, [], []⟩ op).state).Wf) ∧
    ((queue_run ⟨s, [], []⟩ ops).state.frame_queue_write =
        ((queue_run ⟨s, [], []⟩ ops).state.frame_queue_read +
          (queue_run ⟨s, [], []⟩ ops).state.frame_queue_len) % 4 ∧
      0 ≤ (queue_run ⟨s, [], []⟩ ops).state.frame_queue_read ∧
      (queue_run ⟨s, [], []⟩ ops).state.frame_queue_read < 4 ∧
      0 ≤ (queue_run ⟨s, [], []⟩ ops).state.frame_queue_write ∧
      (queue_run ⟨s, [], []⟩ ops).state.frame_queue_write < 4 ∧
      (queue_run ⟨s, [], []⟩ ops).state.frame_queue.length = 4) ∧
    ∀ which : Nat,
      (queue_slots (coalesce_scan which s.frame_queue_len.toNat s.frame_queue_read s)).Wf ∧
      (s.frame_queue_len ≠ 4 →
        ∀ i : Nat,
          (i : Int) < (coalesce_scan which s.frame_queue_len.toNat s.frame_queue_read
            s).frame_queue_len →
          ((coalesce_scan which s.frame_queue_len.toNat s.frame_queue_read s).frame_queue_read
              + i) % 4 ≠
            (coalesce_scan which s.frame_queue_len.toNat s.frame_queue_read
              s).frame_queue_write) := by
  refine ⟨fun op => (queue_step_cases ⟨s, [], []⟩ op ht hwf).2.1, ?_, ?_⟩
  · obtain ⟨_, h4, hr0, hr1, hl0, hl1, hw⟩ := queue_run_wf ⟨s, [], []⟩ ops ht hwf
    have hw' : (queue_run ⟨s, [], []⟩ ops).state.frame_queue_write =
        ((queue_run ⟨s, [], []⟩ ops).state.frame_queue_read +
          (queue_run ⟨s, [], []⟩ ops).state.frame_queue_len) % 4 := hw
    have hr0' : 0 ≤ (queue_run ⟨s, [], []⟩ ops).state.frame_queue_read := hr0
    have hr1' : (queue_run ⟨s, [], []⟩ ops).state.frame_queue_read < 4 := hr1
    refine ⟨hw', hr0', hr1', ?_, ?_, h4⟩ <;> omega
  · intro which
    obtain ⟨c1, _, _⟩ := queue_slots_coalesce_scan s which
    obtain ⟨w1, _, w3⟩ := (queue_slots s).coalesce_wf hwf which
    rw [← c1] at w1 w3
    refine ⟨w1, ?_⟩
    intro hlen i hi
    obtain ⟨_, hr0, hr1, hl0, hl1, hw⟩ := w1
    have hne := w3 hlen
    generalize coalesce_scan which s.frame_queue_len.toNat s.frame_queue_read s = s1
      at hr0 hr1 hl0 hl1 hw hne hi ⊢
    have hw' : s1.frame_queue_write = (s1.frame_queue_read + s1.frame_queue_len) % 4 := hw
    have hr0' : 0 ≤ s1.frame_queue_read := hr0
    have hr1' : s1.frame_queue_read < 4 := hr1
    have hl1' : s1.frame_queue_len ≤ 4 := hl1
    have hne' : s1.frame_queue_len ≠ 4 := hne
    omega

theorem circular_buffer_invariant_reorder :
    (threaded queue_start ∧ (queue_slots queue_start).Wf) ∧
    (∀ op, (queue_slots (queue_step ⟨queue_start, [], []⟩ op).state).Wf) ∧
    ((queue_run ⟨queue_start, [], []⟩ reorder_ops).state.frame_queue_write =
        ((queue_run ⟨queue_start, [], []⟩ reorder_ops).state.frame_queue_read +
          (queue_run ⟨queue_start, [], []⟩ reorder_ops).state.frame_queue_len) % 4 ∧
      0 ≤ (queue_run ⟨queue_start, [], []⟩ reorder_ops).state.frame_queue_read ∧
      (queue_run ⟨queue_start, [], []⟩ reorder_ops).state.frame_queue_read < 4 ∧
      0 ≤ (queue_run ⟨queue_start, [], []⟩ reorder_ops).state.frame_queue_write ∧
      (queue_run ⟨queue_start, [], []⟩ reorder_ops).state.frame_queue_write < 4 ∧
      (queue_run ⟨queue_start, [], []⟩ reorder_ops).state.frame_queue.length = 4) ∧
    ∀ which : Nat,
      (queue_slots (coalesce_scan which queue_start.frame_queue_len.toNat
        queue_start.frame_queue_read queue_start)).Wf ∧
      (queue_start.frame_queue_len ≠ 4 →
        ∀ i : Nat,
          (i : Int) < (coalesce_scan which queue_start.frame_queue_len.toNat
            queue_start.frame_queue_read queue_start).frame_queue_len →
          ((coalesce_scan which queue_start.frame_queue_len.toNat queue_start.frame_queue_read
              queue_start).frame_queue_read + i) % 4 ≠
            (coalesce_scan which queue_start.frame_queue_len.toNat queue_start.frame_queue_read
              queue_start).frame_queue_write) :=
  ⟨by decide!, circular_buffer_invariant queue_start reorder_ops (by decide!) (by decide!)⟩

end Blastem
